import Mathlib

/-!
The generator core of sokol-shdc: embedding and verified properties.

A shallow embedding of `src/shdc/generators/generator.h`, `generator.cc` and
`util.cc`.

Conventions of the embedding

* a `std::string` is a Lean `String`; one `Char` stands for one C++ `char`,
  its code being the byte value;
* a C++ `int` index is an `Int`, a `size_t` a `Nat`, a `uint8_t` a `Fin 256`;
* code that can throw, fail an assertion or read out of range returns an
  `Option`; `none` means that the call does not return normally;
* a loop over a container is a recursion over the list of its elements, in
  iteration order;
* arithmetic on a C++ `int` that can overflow is done on `Int` with a check of
  the 32-bit range, and the bit operators act on the 32 bits of the two's
  complement representation.
-/

set_option autoImplicit false

namespace shdc

/-! ## Types of the headers under `types/` -/

/-- Modelled from the spec: `ErrMsg`, declared in a header under `types/`.  It
is "a diagnostic carrying source path, line number and message text,
distinguishable from no error". -/
structure ErrMsg where
  has_error : Bool
  file : String
  line_index : Int
  msg : String
deriving DecidableEq, Repr

namespace ErrMsg

/-- Modelled from the spec: the default constructed `ErrMsg()`, the "no error"
value. -/
def ok : ErrMsg := ⟨false, "", 0, ""⟩

/-- Modelled from the spec: `ErrMsg::error(file, line, msg)`, as it is called in
`Generator::end`. -/
def error (file : String) (line : Int) (msg : String) : ErrMsg :=
  ⟨true, file, line, msg⟩

/-- Modelled from the spec: `ErrMsg::valid()`, true exactly for a diagnostic
that is an error. -/
def valid (e : ErrMsg) : Bool := e.has_error

end ErrMsg

namespace Slang

/-- Modelled from the spec: `Slang::Enum` is "a closed enumeration of
compilation targets" carrying "a stable index for array indexing"; a target is
represented by that index. -/
abbrev Enum := Nat

/-- Modelled from the spec: `Slang::Num`, the number of targets; the nine
enumerators are the cases of `slang_file_extension` in `util.cc`. -/
def Num : Nat := 9

/-- Modelled from the spec: `Slang::from_index`, the target with a given
index. -/
def from_index (i : Nat) : Enum := i

/-- Modelled from the spec: `Slang::bit`, the "bit value for inclusion in a
target-selection bitmask". -/
def bit (c : Enum) : Nat := 1 <<< c

end Slang

/-- Kinds of snippet (`Snippet::Type`); `VS` and `FS` are the two named in
`generator.cc`, the other two stand for "any other auxiliary kind". -/
inductive SnippetType
  | INVALID
  | BLOCK
  | VS
  | FS
deriving DecidableEq, Repr

/-- A snippet of the parsed input: kind, name and the indices of its source
lines. -/
structure Snippet where
  type : SnippetType
  name : String
  lines : List Int
deriving DecidableEq, Repr

/-- A program: its name and the names of its two stages. -/
structure Program where
  name : String
  vs_name : String
  fs_name : String
deriving DecidableEq, Repr

/-- The parsed input.  `snippet_map` is the `std::map` from snippet name to
snippet index, `programs` the `std::map` of programs as the list of its
(key, value) items in iteration order. -/
structure Input where
  base_path : String
  module : String
  snippets : List Snippet
  snippet_map : String → Option Int
  programs : List (String × Program)

/-- Modelled from the spec: `Input::error(line, msg)`, "a positional error"
for a line of the input. -/
def Input.error (inp : Input) (line : Int) (msg : String) : ErrMsg :=
  ErrMsg.error inp.base_path line msg

/-- Generated source of one snippet for one target. -/
structure SpirvcrossSource where
  snippet_index : Int
  source_code : String
deriving DecidableEq, Repr

/-- The generated sources of one target. -/
structure Spirvcross where
  sources : List SpirvcrossSource
deriving DecidableEq, Repr

/-- The loop of `find_source_by_snippet_index`, starting at position `i`. -/
def Spirvcross.find_source_from (snippet_index : Int) :
    List SpirvcrossSource → Nat → Int
  | [], _ => -1
  | s :: rest, i =>
    if s.snippet_index = snippet_index then (i : Int)
    else Spirvcross.find_source_from snippet_index rest (i + 1)

/-- Modelled from the spec: `Spirvcross::find_source_by_snippet_index`, the
index of the source "keyed by snippet index", or `-1` when there is none. -/
def Spirvcross.find_source_by_snippet_index (s : Spirvcross) (snippet_index : Int) : Int :=
  Spirvcross.find_source_from snippet_index s.sources 0

/-- Compiled bytes of one snippet for one target. -/
structure BytecodeBlob where
  snippet_index : Int
  data : List (Fin 256)
deriving DecidableEq, Repr

/-- The bytecode blobs of one target. -/
structure Bytecode where
  blobs : List BytecodeBlob
deriving DecidableEq, Repr

/-- The loop of `find_blob_by_snippet_index`, starting at position `i`. -/
def Bytecode.find_blob_from (snippet_index : Int) :
    List BytecodeBlob → Nat → Int
  | [], _ => -1
  | b :: rest, i =>
    if b.snippet_index = snippet_index then (i : Int)
    else Bytecode.find_blob_from snippet_index rest (i + 1)

/-- Modelled from the spec: `Bytecode::find_blob_by_snippet_index`, the index
of the "optional bytecode blob by snippet index", or `-1`. -/
def Bytecode.find_blob_by_snippet_index (b : Bytecode) (snippet_index : Int) : Int :=
  Bytecode.find_blob_from snippet_index b.blobs 0

/-- The command line arguments read by the generator. -/
structure Args where
  slang : Nat
  reflection : Bool
  output : String
  gen_version : Int
  cmdline : String
deriving DecidableEq, Repr

/-! ## Reflection model -/

/-- A vertex attribute; a negative slot means the attribute is unused. -/
structure StageAttr where
  slot : Int
  name : String
deriving DecidableEq, Repr

/-- A uniform block binding. -/
structure UniformBlock where
  struct_name : String
  slot : Int
deriving DecidableEq, Repr

/-- An image binding; the two enumerations are kept by their index. -/
structure Image where
  name : String
  type : Nat
  sample_type : Nat
  multisampled : Bool
  slot : Int
deriving DecidableEq, Repr

/-- A sampler binding. -/
structure Sampler where
  name : String
  type : Nat
  slot : Int
deriving DecidableEq, Repr

/-- A combined image sampler. -/
structure ImageSampler where
  name : String
  image_name : String
  sampler_name : String
deriving DecidableEq, Repr

/-- The four ordered binding sequences. -/
structure Bindings where
  uniform_blocks : List UniformBlock
  images : List Image
  samplers : List Sampler
  image_samplers : List ImageSampler
deriving DecidableEq, Repr

/-- Reflection of one stage. -/
structure StageReflection where
  snippet_name : String
  inputs : List StageAttr
  bindings : Bindings
deriving DecidableEq, Repr

/-- Reflection of one program: `vs` and `fs` are the results of `vs()` and
`fs()`. -/
structure ProgramReflection where
  name : String
  vs : StageReflection
  fs : StageReflection
deriving DecidableEq, Repr

/-- Modelled from the spec: `ProgramReflection::vs_name()`, the snippet name of
the vertex stage. -/
def ProgramReflection.vs_name (prog : ProgramReflection) : String := prog.vs.snippet_name

/-- Modelled from the spec: `ProgramReflection::fs_name()`, the snippet name of
the fragment stage. -/
def ProgramReflection.fs_name (prog : ProgramReflection) : String := prog.fs.snippet_name

/-- The reflection of all programs and the global binding sets. -/
structure Reflection where
  progs : List ProgramReflection
  bindings : Bindings
deriving DecidableEq, Repr

/-- The aggregate passed to the generator.  `spirvcross` and `bytecode` are the
arrays indexed by target. -/
structure GenInput where
  args : Args
  inp : Input
  refl : Reflection
  spirvcross : Slang.Enum → Spirvcross
  bytecode : Slang.Enum → Bytecode

/-- The test `gen.args.slang & Slang::bit(slang)` of the two target loops. -/
def GenInput.slang_selected (gen : GenInput) (slang : Slang.Enum) : Bool :=
  gen.args.slang &&& Slang.bit slang != 0

/-! ## The Validation Gate: `Generator::check_errors` -/

/-- The element `v[i]` of a vector at an `int` index; `none` out of range. -/
def at_index {α : Type} (v : List α) (i : Int) : Option α :=
  if 0 ≤ i then v[i.toNat]? else none

/-- The expression `gen.inp.snippets[snippet_index].lines[0]`. -/
def first_line (inp : Input) (snippet_index : Int) : Option Int :=
  match at_index inp.snippets snippet_index with
  | some snippet => snippet.lines[0]?
  | none => none

/-- The text of the vertex stage diagnostic. -/
def vs_error_msg (to_str : Slang.Enum → String) (slang : Slang.Enum) (prog : Program) : String :=
  "no generated '" ++ to_str slang ++ "' source for vertex shader '" ++ prog.vs_name
    ++ "' in program '" ++ prog.name ++ "'"

/-- The text of the fragment stage diagnostic. -/
def fs_error_msg (to_str : Slang.Enum → String) (slang : Slang.Enum) (prog : Program) : String :=
  "no generated '" ++ to_str slang ++ "' source for fragment shader '" ++ prog.fs_name
    ++ "' in program '" ++ prog.name ++ "'"

/-- The body of the program loop of `check_errors` for one item.  The outer
`Option` is `none` when `snippet_map.at` throws or a vector is read out of
range; the inner one is `some e` when the body returns `e` and `none` when the
loop goes on. -/
def check_errors_body (to_str : Slang.Enum → String) (gen : GenInput) (i : Nat)
    (item : String × Program) : Option (Option ErrMsg) :=
  let slang := Slang.from_index i
  let prog := item.2
  match gen.inp.snippet_map prog.vs_name, gen.inp.snippet_map prog.fs_name with
  | some vs_snippet_index, some fs_snippet_index =>
    let vs_src_index := (gen.spirvcross i).find_source_by_snippet_index vs_snippet_index
    let fs_src_index := (gen.spirvcross i).find_source_by_snippet_index fs_snippet_index
    if vs_src_index < 0 then
      match first_line gen.inp vs_snippet_index with
      | some line => some (some (gen.inp.error line (vs_error_msg to_str slang prog)))
      | none => none
    else if fs_src_index < 0 then
      match first_line gen.inp vs_snippet_index with
      | some line => some (some (gen.inp.error line (fs_error_msg to_str slang prog)))
      | none => none
    else some none
  | _, _ => none

/-- The loop `for (const auto& item: gen.inp.programs)` of `check_errors`. -/
def check_errors_programs (to_str : Slang.Enum → String) (gen : GenInput) (i : Nat) :
    List (String × Program) → Option (Option ErrMsg)
  | [] => some none
  | item :: rest =>
    match check_errors_body to_str gen i item with
    | none => none
    | some (some e) => some (some e)
    | some none => check_errors_programs to_str gen i rest

/-- The loop `for (int i = 0; i < Slang::Num; i++)` of `check_errors`, over the
indices still to visit. -/
def check_errors_slangs (to_str : Slang.Enum → String) (gen : GenInput) :
    List Nat → Option ErrMsg
  | [] => some ErrMsg.ok
  | i :: rest =>
    if gen.slang_selected (Slang.from_index i) then
      match check_errors_programs to_str gen i gen.inp.programs with
      | none => none
      | some (some e) => some e
      | some none => check_errors_slangs to_str gen rest
    else check_errors_slangs to_str gen rest

/-- `Generator::check_errors`: "check that each input shader has a vs and fs
source".  `to_str` is `Slang::to_str`, declared with `Slang` under `types/`. -/
def check_errors (to_str : Slang.Enum → String) (gen : GenInput) : Option ErrMsg :=
  check_errors_slangs to_str gen (List.range Slang.Num)

/-! ## String library (`pystring`) and `util.cc` -/

namespace pystring

/-- The scan of `pystring::replace` for a non-empty `oldstr`: occurrences are
found from left to right and do not overlap.  `skip` counts the characters of
the occurrence just replaced that are still to be passed over. -/
def replace_chars (oldstr newstr : List Char) : Nat → List Char → List Char
  | _, [] => []
  | skip + 1, _ :: rest => replace_chars oldstr newstr skip rest
  | 0, c :: rest =>
    if oldstr.isPrefixOf (c :: rest) then
      newstr ++ replace_chars oldstr newstr (oldstr.length - 1) rest
    else c :: replace_chars oldstr newstr 0 rest

/-- Modelled from the spec: `pystring::replace(str, oldstr, newstr)` of the
string library, which is used through its header alone: "replace literal"
occurrences, as Python's `str.replace` does.  With an empty `oldstr` the new
text is put before every character and at the end. -/
def replace (str oldstr newstr : String) : String :=
  if oldstr.data = [] then
    ⟨newstr.data ++ str.data.flatMap (fun c => c :: newstr.data)⟩
  else ⟨replace_chars oldstr.data newstr.data 0 str.data⟩

/-- The scan of `pystring::splitlines`: `cur` holds the characters of the line
being read, last one first. -/
def splitlines_chars : List Char → List Char → List String
  | [], cur => if cur = [] then [] else [⟨cur.reverse⟩]
  | [c], cur =>
    if c = '\n' ∨ c = '\r' then [⟨cur.reverse⟩] else [⟨(c :: cur).reverse⟩]
  | c :: d :: rest, cur =>
    if c = '\r' ∧ d = '\n' then ⟨cur.reverse⟩ :: splitlines_chars rest []
    else if c = '\n' ∨ c = '\r' then ⟨cur.reverse⟩ :: splitlines_chars (d :: rest) []
    else splitlines_chars (d :: rest) (c :: cur)

/-- Modelled from the spec: `pystring::splitlines(str, result)` of the string
library: "split the compiled source into lines" at line feeds, carriage
returns and their pair, the line ends not kept. -/
def splitlines (str : String) : List String :=
  splitlines_chars str.data []

end pystring

namespace util

/-- `util::mod_prefix`. -/
def mod_prefix (inp : Input) : String :=
  if inp.module.isEmpty then "" else inp.module ++ "_"

/-- `util::replace_C_comment_tokens`. -/
def replace_C_comment_tokens (str : String) : String :=
  let comment_start_old := "/*"
  let comment_start_new := "/_"
  let comment_end_old := "*/"
  let comment_end_new := "_/"
  let s := pystring.replace str comment_start_old comment_start_new
  let s := pystring.replace s comment_end_old comment_end_new
  s

end util

/-! ## The generator object -/

/-- The phases that `Generator::generate` calls, in the order of their
declaration in `generator.h`. -/
inductive Phase
  | begin
  | gen_prolog
  | gen_header
  | gen_prerequisites
  | gen_vertex_attr_consts
  | gen_bind_slot_consts
  | gen_uniformblock_decls
  | gen_stb_impl_start
  | gen_shader_arrays
  | gen_shader_desc_funcs
  | gen_reflection_funcs
  | gen_epilog
  | gen_stb_impl_end
  | end_
deriving DecidableEq, Repr

/-- The `void` extension points that the base class leaves to a backend, with
the arguments of the call (the `GenInput` apart, which every one receives). -/
inductive Hook
  | gen_prolog
  | gen_prerequisites
  | gen_stb_impl_start
  | gen_epilog
  | gen_stb_impl_end
  | gen_uniformblock_decl (ub : UniformBlock)
  | gen_shader_array_start (array_name : String) (num_bytes : Nat) (slang : Slang.Enum)
  | gen_shader_array_end
  | gen_shader_desc_func (prog : ProgramReflection)
  | gen_attr_slot_refl_func (prog : ProgramReflection)
  | gen_image_slot_refl_func (prog : ProgramReflection)
  | gen_sampler_slot_refl_func (prog : ProgramReflection)
  | gen_uniformblock_slot_refl_func (prog : ProgramReflection)
  | gen_uniformblock_size_refl_func (prog : ProgramReflection)
  | gen_uniform_offset_refl_func (prog : ProgramReflection)
  | gen_uniform_desc_refl_func (prog : ProgramReflection)
deriving DecidableEq, Repr

/-- The protected writer methods of `generator.h`, with the formatted text of
the call.  `content` and `indentation` are private, so these calls are all a
backend can do to them. -/
inductive WriterCall
  | reset_indent
  | l (text : String)
  | l_open (text : String)
  | l_close (text : String)
  | cbl_start
  | cbl (text : String)
  | cbl_open (text : String)
  | cbl_close_text (text : String)
  | cbl_close
  | cbl_end
deriving DecidableEq, Repr

/-- The methods a backend overrides, for one value of the protected member
`mod_prefix`.  A `void` hook is given by the writer calls it makes, a
`std::string` hook by its result.  `visit` covers every `void` hook. -/
structure Hooks where
  visit : GenInput → Hook → List WriterCall
  lang_name : String
  get_shader_desc_help : String → String
  comment_block_start : String
  comment_block_line_prefix : String
  comment_block_end : String
  shader_bytecode_array_name : String → Slang.Enum → String
  shader_source_array_name : String → Slang.Enum → String
  image_type : Nat → String
  image_sample_type : Nat → String
  sampler_type : Nat → String
  struct_name : String → String
  vertex_attr_name : String → StageAttr → String
  image_bind_slot_name : Image → String
  sampler_bind_slot_name : Sampler → String
  uniform_block_bind_slot_name : UniformBlock → String
  vertex_attr_definition : String → StageAttr → String
  image_bind_slot_definition : Image → String
  sampler_bind_slot_definition : Sampler → String
  uniform_block_bind_slot_definition : UniformBlock → String

/-- A backend: its hooks, which may read the member `mod_prefix`. -/
abbrev Backend := String → Hooks

/-- What the code takes from its build: `Slang::to_str`, declared with `Slang`
under `types/`, and whether plain `char` is a signed type, which C++
leaves to the platform. -/
structure Env where
  to_str : Slang.Enum → String
  char_is_signed : Bool

/-- One entry of the record of calls: a phase entered by `generate`, a hook
called by the base class, or a text handed to one of the two writers by the
base class. -/
inductive Event
  | phase (p : Phase)
  | hook (h : Hook)
  | l (text : String)
  | cbl (text : String)
deriving DecidableEq, Repr

/-- The generator object: the members `mod_prefix`, `indentation` and
`content` of the class, and `log`, a record of the calls made so far that is
not part of the C++ object and that no method reads. -/
structure Generator where
  mod_prefix : String
  indentation : String
  content : String
  log : List Event
deriving DecidableEq, Repr

/-- The output sink: which paths `fopen(path, "w")` can open, and the files
written so far as (path, bytes) in the order of writing. -/
structure FileSystem where
  can_open : String → Bool
  written : List (String × String)

namespace Generator

/-- `reset_indent`. -/
def reset_indent (g : Generator) : Generator :=
  { g with indentation := "" }

/-- `indent`. -/
def indent (g : Generator) : Generator :=
  { g with indentation := g.indentation ++ "    " }

/-- One turn of the loop of `dedent`: `pop_back` when the length is positive. -/
def dedent_step (indentation : String) : String :=
  if indentation.length > 0 then ⟨indentation.data.dropLast⟩ else indentation

/-- `dedent`: four turns of the loop. -/
def dedent (g : Generator) : Generator :=
  { g with indentation := dedent_step (dedent_step (dedent_step (dedent_step g.indentation))) }

/-- `l(fmt, args...)`, `text` being the result of `fmt::vformat`. -/
def l (text : String) (g : Generator) : Generator :=
  let str := g.indentation ++ text
  { g with content := g.content ++ str, log := g.log ++ [Event.l text] }

/-- `l_open`. -/
def l_open (text : String) (g : Generator) : Generator :=
  indent (l text g)

/-- `l_close`. -/
def l_close (text : String) (g : Generator) : Generator :=
  l text (dedent g)

/-- `cbl_start`. -/
def cbl_start (B : Backend) (g : Generator) : Generator :=
  l_open ((B g.mod_prefix).comment_block_start ++ "\n") g

/-- `cbl(fmt, args...)`, `text` being the result of `fmt::vformat`. -/
def cbl (B : Backend) (text : String) (g : Generator) : Generator :=
  let str := Hooks.comment_block_line_prefix (B g.mod_prefix) ++ g.indentation ++ text
  { g with content := g.content ++ str, log := g.log ++ [Event.cbl text] }

/-- `cbl_open`. -/
def cbl_open (B : Backend) (text : String) (g : Generator) : Generator :=
  indent (cbl B text g)

/-- `cbl_close(fmt, args...)`. -/
def cbl_close_text (B : Backend) (text : String) (g : Generator) : Generator :=
  cbl B text (dedent g)

/-- `cbl_close()`. -/
def cbl_close (g : Generator) : Generator :=
  dedent g

/-- `cbl_end`. -/
def cbl_end (B : Backend) (g : Generator) : Generator :=
  l_close ((B g.mod_prefix).comment_block_end ++ "\n") g

/-- One writer call made by a hook. -/
def write (B : Backend) : WriterCall → Generator → Generator
  | .reset_indent, g => reset_indent g
  | .l text, g => l text g
  | .l_open text, g => l_open text g
  | .l_close text, g => l_close text g
  | .cbl_start, g => cbl_start B g
  | .cbl text, g => cbl B text g
  | .cbl_open text, g => cbl_open B text g
  | .cbl_close_text text, g => cbl_close_text B text g
  | .cbl_close, g => cbl_close g
  | .cbl_end, g => cbl_end B g

/-- A call of the `void` hook `h`: the writer calls of the hook act on the
members, and the record of calls gets the one entry of the hook. -/
def call_hook (B : Backend) (gen : GenInput) (h : Hook) (g : Generator) : Generator :=
  { ((B g.mod_prefix).visit gen h).foldl (fun g c => write B c g) g with
    log := g.log ++ [Event.hook h] }

/-! ### Default phases of `generator.cc` -/

/-- `Generator::begin`: "clear the generated content string, and check for
error in GenInput". -/
def begin (env : Env) (gen : GenInput) (g : Generator) : Option (ErrMsg × Generator) :=
  let g := { g with content := "" }
  let g := { g with mod_prefix := util.mod_prefix gen.inp }
  match check_errors env.to_str gen with
  | some err => some (err, g)
  | none => none

/-- `Generator::gen_bindings_info`. -/
def gen_bindings_info (B : Backend) (bindings : Bindings) (g : Generator) : Generator :=
  let g := bindings.uniform_blocks.foldl (fun g ub =>
    let g := cbl_open B ("Uniform block '" ++ ub.struct_name ++ "':\n") g
    let g := cbl B ((B g.mod_prefix).lang_name ++ " struct: "
      ++ (B g.mod_prefix).struct_name ub.struct_name ++ "\n") g
    let g := cbl B ("Bind slot: " ++ (B g.mod_prefix).uniform_block_bind_slot_name ub ++ " => "
      ++ toString ub.slot ++ "\n") g
    cbl_close g) g
  let g := bindings.images.foldl (fun g img =>
    let g := cbl_open B ("Image '" ++ img.name ++ "':\n") g
    let g := cbl B ("Image type: " ++ (B g.mod_prefix).image_type img.type ++ "\n") g
    let g := cbl B ("Sample type: " ++ (B g.mod_prefix).image_sample_type img.sample_type
      ++ "\n") g
    let g := cbl B ("Multisampled: " ++ toString img.multisampled ++ "\n") g
    let g := cbl B ("Bind slot: " ++ (B g.mod_prefix).image_bind_slot_name img ++ " => "
      ++ toString img.slot ++ "\n") g
    cbl_close g) g
  let g := bindings.samplers.foldl (fun g smp =>
    let g := cbl_open B ("Sampler '" ++ smp.name ++ "':\n") g
    let g := cbl B ("Type: " ++ (B g.mod_prefix).sampler_type smp.type ++ "\n") g
    let g := cbl B ("Bind slot: " ++ (B g.mod_prefix).sampler_bind_slot_name smp ++ " => "
      ++ toString smp.slot ++ "\n") g
    cbl_close g) g
  bindings.image_samplers.foldl (fun g img_smp =>
    let g := cbl_open B ("Image Sampler Pair '" ++ img_smp.name ++ "':\n") g
    let g := cbl B ("Image: " ++ img_smp.image_name ++ "\n") g
    let g := cbl B ("Sampler: " ++ img_smp.sampler_name ++ "\n") g
    cbl_close g) g

/-- `Generator::gen_vertex_shader_info`. -/
def gen_vertex_shader_info (B : Backend) (prog : ProgramReflection) (g : Generator) :
    Generator :=
  let g := cbl_open B ("Vertex shader: " ++ prog.vs_name ++ "\n") g
  let g := cbl_open B "Attributes:\n" g
  let g := prog.vs.inputs.foldl (fun g attr =>
    if attr.slot ≥ 0 then
      cbl B ((B g.mod_prefix).vertex_attr_name prog.vs_name attr ++ " => "
        ++ toString attr.slot ++ "\n") g
    else g) g
  let g := cbl_close g
  let g := gen_bindings_info B prog.vs.bindings g
  cbl_close g

/-- `Generator::gen_fragment_shader_info`. -/
def gen_fragment_shader_info (B : Backend) (prog : ProgramReflection) (g : Generator) :
    Generator :=
  let g := cbl_open B ("Fragment shader: " ++ prog.fs_name ++ "\n") g
  let g := gen_bindings_info B prog.fs.bindings g
  cbl_close g

/-- `Generator::gen_header`: "create a default comment header". -/
def gen_header (B : Backend) (gen : GenInput) (g : Generator) : Generator :=
  let g := cbl_start B g
  let g := cbl B ("#version:" ++ toString gen.args.gen_version
    ++ " (machine generated, don't edit!)\n\n") g
  let g := cbl B "Generated by sokol-shdc (https://github.com/floooh/sokol-tools)\n\n" g
  let g := cbl_open B "Cmdline:\n" g
  let g := cbl B (gen.args.cmdline ++ "\n") g
  let g := cbl_close_text B "\n" g
  let g := cbl B "Overview:\n" g
  let g := cbl B "=========\n" g
  let g := gen.refl.progs.foldl (fun g prog =>
    let g := cbl_open B ("Shader program: '" ++ prog.name ++ "':\n") g
    let g := cbl B ("Get shader desc: " ++ (B g.mod_prefix).get_shader_desc_help prog.name) g
    let g := gen_vertex_shader_info B prog g
    let g := gen_fragment_shader_info B prog g
    cbl_close g) g
  let g := cbl_end B g
  l "\n" g

/-- `Generator::gen_vertex_attr_consts`. -/
def gen_vertex_attr_consts (B : Backend) (gen : GenInput) (g : Generator) : Generator :=
  gen.refl.progs.foldl (fun g prog_refl =>
    prog_refl.vs.inputs.foldl (fun g attr =>
      if attr.slot ≥ 0 then
        l ((B g.mod_prefix).vertex_attr_definition prog_refl.vs_name attr ++ "\n") g
      else g) g) g

/-- `Generator::gen_bind_slot_consts`. -/
def gen_bind_slot_consts (B : Backend) (gen : GenInput) (g : Generator) : Generator :=
  let g := gen.refl.bindings.uniform_blocks.foldl (fun g ub =>
    l ((B g.mod_prefix).uniform_block_bind_slot_definition ub ++ "\n") g) g
  let g := l "\n" g
  let g := gen.refl.bindings.images.foldl (fun g img =>
    l ((B g.mod_prefix).image_bind_slot_definition img ++ "\n") g) g
  let g := l "\n" g
  let g := gen.refl.bindings.samplers.foldl (fun g smp =>
    l ((B g.mod_prefix).sampler_bind_slot_definition smp ++ "\n") g) g
  l "\n" g

/-- `Generator::gen_uniformblock_decls`. -/
def gen_uniformblock_decls (B : Backend) (gen : GenInput) (g : Generator) : Generator :=
  gen.refl.bindings.uniform_blocks.foldl (fun g ub =>
    call_hook B gen (Hook.gen_uniformblock_decl ub) g) g

/-- The conversion `(int)c` of a plain `char`. -/
def char_to_int (env : Env) (c : Char) : Int :=
  if env.char_is_signed ∧ 128 ≤ c.toNat then (c.toNat : Int) - 256 else (c.toNat : Int)

/-- The element `str[i]` of a `std::string` for `i ≤ str.size()`: at
`i = str.size()` it is the terminating null character. -/
def string_at (str : String) (i : Nat) : Char :=
  str.data.getD i (Char.ofNat 0)

/-- The body of the loop `for (size_t i = 0; i < len; i++)` that both branches
of `gen_shader_arrays` run; `value i` is the formatted argument of the second
call of `l`. -/
def array_loop_body (value : Nat → String) (g : Generator) (i : Nat) : Generator :=
  let g := if i &&& 15 = 0 then l "    " g else g
  let g := l (value i ++ ",") g
  if i &&& 15 = 15 then l "\n" g else g

/-- The loop `for (size_t i = 0; i < len; i++)` of `gen_shader_arrays`. -/
def array_loop (value : Nat → String) (len : Nat) (g : Generator) : Generator :=
  (List.range len).foldl (array_loop_body value) g

/-- The body of the snippet loop of `gen_shader_arrays`; `none` when the
assertion `src_index >= 0` fails or a vector is read out of range. -/
def gen_shader_arrays_body (env : Env) (B : Backend) (gen : GenInput) (slang : Slang.Enum)
    (snippet_index : Nat) (snippet : Snippet) (g : Generator) : Option Generator :=
  let spirvcross := gen.spirvcross slang
  let bytecode := gen.bytecode slang
  if snippet.type ≠ SnippetType.VS ∧ snippet.type ≠ SnippetType.FS then some g
  else
    let src_index := spirvcross.find_source_by_snippet_index snippet_index
    if src_index < 0 then none
    else
      match at_index spirvcross.sources src_index with
      | none => none
      | some src =>
        let blob_index := bytecode.find_blob_by_snippet_index snippet_index
        let lines := pystring.splitlines src.source_code
        let g := cbl_start B g
        let g := lines.foldl (fun g line =>
          cbl B (util.replace_C_comment_tokens line ++ "\n") g) g
        let g := cbl_end B g
        if blob_index ≠ -1 then
          match at_index bytecode.blobs blob_index with
          | none => none
          | some blob =>
            let array_name := (B g.mod_prefix).shader_bytecode_array_name snippet.name slang
            let g := call_hook B gen
              (Hook.gen_shader_array_start array_name blob.data.length slang) g
            let len := blob.data.length
            let g := array_loop (fun i => toString (blob.data.getD i 0).val) len g
            some (call_hook B gen Hook.gen_shader_array_end g)
        else
          let array_name := (B g.mod_prefix).shader_source_array_name snippet.name slang
          let len := src.source_code.length + 1
          let g := call_hook B gen (Hook.gen_shader_array_start array_name len slang) g
          let g := array_loop
            (fun i => toString (char_to_int env (string_at src.source_code i))) len g
          some (call_hook B gen Hook.gen_shader_array_end g)

/-- The snippet loop of `gen_shader_arrays`, from index `snippet_index` on. -/
def gen_shader_arrays_snippets (env : Env) (B : Backend) (gen : GenInput)
    (slang : Slang.Enum) : List Snippet → Nat → Generator → Option Generator
  | [], _, g => some g
  | snippet :: rest, snippet_index, g =>
    match gen_shader_arrays_body env B gen slang snippet_index snippet g with
    | none => none
    | some g => gen_shader_arrays_snippets env B gen slang rest (snippet_index + 1) g

/-- The target loop of `gen_shader_arrays`, over the indices still to visit. -/
def gen_shader_arrays_slangs (env : Env) (B : Backend) (gen : GenInput) :
    List Nat → Generator → Option Generator
  | [], g => some g
  | slang_idx :: rest, g =>
    let slang := Slang.from_index slang_idx
    if gen.slang_selected slang then
      match gen_shader_arrays_snippets env B gen slang gen.inp.snippets 0 g with
      | none => none
      | some g => gen_shader_arrays_slangs env B gen rest g
    else gen_shader_arrays_slangs env B gen rest g

/-- `Generator::gen_shader_arrays`. -/
def gen_shader_arrays (env : Env) (B : Backend) (gen : GenInput) (g : Generator) :
    Option Generator :=
  gen_shader_arrays_slangs env B gen (List.range Slang.Num) g

/-- `Generator::gen_shader_desc_funcs`. -/
def gen_shader_desc_funcs (B : Backend) (gen : GenInput) (g : Generator) : Generator :=
  gen.refl.progs.foldl (fun g prog => call_hook B gen (Hook.gen_shader_desc_func prog) g) g

/-- `Generator::gen_reflection_funcs`. -/
def gen_reflection_funcs (B : Backend) (gen : GenInput) (g : Generator) : Generator :=
  gen.refl.progs.foldl (fun g prog =>
    let g := call_hook B gen (Hook.gen_attr_slot_refl_func prog) g
    let g := call_hook B gen (Hook.gen_image_slot_refl_func prog) g
    let g := call_hook B gen (Hook.gen_sampler_slot_refl_func prog) g
    let g := call_hook B gen (Hook.gen_uniformblock_slot_refl_func prog) g
    let g := call_hook B gen (Hook.gen_uniformblock_size_refl_func prog) g
    let g := call_hook B gen (Hook.gen_uniform_offset_refl_func prog) g
    call_hook B gen (Hook.gen_uniform_desc_refl_func prog) g) g

/-- `Generator::end`: "write the output file". -/
def end_ (gen : GenInput) (g : Generator) (fs : FileSystem) : ErrMsg × FileSystem :=
  if fs.can_open gen.args.output then
    (ErrMsg.ok, { fs with written := fs.written ++ [(gen.args.output, g.content)] })
  else
    (ErrMsg.error gen.inp.base_path 0
      ("failed to open output file '" ++ gen.args.output ++ "'"), fs)

/-- The record of calls gets the entry of a phase that `generate` enters. -/
def enter (p : Phase) (g : Generator) : Generator :=
  { g with log := g.log ++ [Event.phase p] }

/-- `Generator::generate`, for a backend that overrides the hooks and keeps
the default phases.  The result is `none` when a phase does not return. -/
def generate (env : Env) (B : Backend) (gen : GenInput) (g : Generator) (fs : FileSystem) :
    Option (ErrMsg × Generator × FileSystem) :=
  match begin env gen (enter Phase.begin g) with
  | none => none
  | some (err, g) =>
    if err.valid then some (err, g, fs)
    else
      let g := call_hook B gen Hook.gen_prolog (enter Phase.gen_prolog g)
      let g := gen_header B gen (enter Phase.gen_header g)
      let g := call_hook B gen Hook.gen_prerequisites (enter Phase.gen_prerequisites g)
      let g := gen_vertex_attr_consts B gen (enter Phase.gen_vertex_attr_consts g)
      let g := gen_bind_slot_consts B gen (enter Phase.gen_bind_slot_consts g)
      let g := gen_uniformblock_decls B gen (enter Phase.gen_uniformblock_decls g)
      let g := call_hook B gen Hook.gen_stb_impl_start (enter Phase.gen_stb_impl_start g)
      match gen_shader_arrays env B gen (enter Phase.gen_shader_arrays g) with
      | none => none
      | some g =>
        let g := gen_shader_desc_funcs B gen (enter Phase.gen_shader_desc_funcs g)
        let g := if gen.args.reflection then
            gen_reflection_funcs B gen (enter Phase.gen_reflection_funcs g)
          else g
        let g := call_hook B gen Hook.gen_epilog (enter Phase.gen_epilog g)
        let g := call_hook B gen Hook.gen_stb_impl_end (enter Phase.gen_stb_impl_end g)
        let r := end_ gen (enter Phase.end_ g) fs
        some (r.1, enter Phase.end_ g, r.2)

end Generator

/-! ## Predicates used in the statements -/

/-- A compiled source exists for the snippet index under target `i`. -/
def has_source (gen : GenInput) (i : Slang.Enum) (snippet_index : Int) : Prop :=
  ∃ s ∈ (gen.spirvcross i).sources, s.snippet_index = snippet_index

instance (gen : GenInput) (i : Slang.Enum) (snippet_index : Int) :
    Decidable (has_source gen i snippet_index) := by
  unfold has_source; infer_instance

/-- Under target `i` the compiled source of the vertex snippet or of the
fragment snippet of the program is missing. -/
def lacks_source (gen : GenInput) (i : Slang.Enum) (prog : Program) : Prop :=
  (∃ vs, gen.inp.snippet_map prog.vs_name = some vs ∧ ¬ has_source gen i vs) ∨
  (∃ fs, gen.inp.snippet_map prog.fs_name = some fs ∧ ¬ has_source gen i fs)

/-- Both stage names of the program are keys of the snippet map, and the
vertex one is the index of a snippet that has a first line. -/
def stage_names_resolve (inp : Input) (prog : Program) : Bool :=
  match inp.snippet_map prog.vs_name, inp.snippet_map prog.fs_name with
  | some vs, some _ => (first_line inp vs).isSome
  | _, _ => false

/-- The input is well formed for the Validation Gate: the stage names of every
program resolve. -/
def names_resolve (inp : Input) : Prop :=
  ∀ item ∈ inp.programs, stage_names_resolve inp item.2 = true

instance (inp : Input) : Decidable (names_resolve inp) := by
  unfold names_resolve; infer_instance

/-! ## Sample inputs -/

/-- A sample `Slang::to_str`. -/
def sample_to_str (slang : Slang.Enum) : String :=
  if slang = 0 then "glsl410" else if slang = 1 then "glsl430" else "other"

/-- Sample arguments: target 0 alone is selected. -/
def sample_args : Args :=
  { slang := 1, reflection := true, output := "out.h", gen_version := 1, cmdline := "shdc" }

/-- A sample parsed input: one program `prog` of the vertex snippet `vs`
(first line 3) and the fragment snippet `fs` (first line 7). -/
def sample_inp : Input :=
  { base_path := "shd.glsl"
    module := ""
    snippets := [⟨SnippetType.VS, "vs", [3, 4]⟩, ⟨SnippetType.FS, "fs", [7, 8]⟩]
    snippet_map := fun name =>
      if name = "vs" then some 0 else if name = "fs" then some 1 else none
    programs := [("prog", ⟨"prog", "vs", "fs"⟩)] }

/-- A sample reflection: the program has the attributes of slots 0 and -1. -/
def sample_refl : Reflection :=
  { progs := [⟨"prog", ⟨"vs", [⟨0, "pos"⟩, ⟨-1, "unused"⟩], ⟨[⟨"params", 0⟩], [], [], []⟩⟩,
      ⟨"fs", [], ⟨[], [], [], []⟩⟩⟩]
    bindings := ⟨[⟨"params", 0⟩], [], [], []⟩ }

/-- A sample input in which target 0 has the source of the vertex snippet and
none of the fragment snippet. -/
def sample_no_fs : GenInput :=
  { args := sample_args
    inp := sample_inp
    refl := sample_refl
    spirvcross := fun i => if i = 0 then ⟨[⟨0, "void main()"⟩]⟩ else ⟨[]⟩
    bytecode := fun _ => ⟨[]⟩ }

/-- A sample backend: every `void` hook writes one line, the comment block is
that of C. -/
def sample_backend : Backend := fun mod_prefix =>
  { visit := fun _ _ => [WriterCall.l "hook\n"]
    lang_name := "C"
    get_shader_desc_help := fun name => mod_prefix ++ name ++ "_shader_desc()\n"
    comment_block_start := "/*"
    comment_block_line_prefix := ""
    comment_block_end := "*/"
    shader_bytecode_array_name := fun name slang =>
      mod_prefix ++ name ++ "_bytecode_" ++ toString slang
    shader_source_array_name := fun name slang =>
      mod_prefix ++ name ++ "_source_" ++ toString slang
    image_type := fun _ => "image"
    image_sample_type := fun _ => "sample"
    sampler_type := fun _ => "sampler"
    struct_name := fun name => mod_prefix ++ name ++ "_t"
    vertex_attr_name := fun name attr => "ATTR_" ++ mod_prefix ++ name ++ "_" ++ attr.name
    image_bind_slot_name := fun img => "SLOT_" ++ mod_prefix ++ img.name
    sampler_bind_slot_name := fun smp => "SLOT_" ++ mod_prefix ++ smp.name
    uniform_block_bind_slot_name := fun ub => "SLOT_" ++ mod_prefix ++ ub.struct_name
    vertex_attr_definition := fun name attr =>
      "#define ATTR_" ++ mod_prefix ++ name ++ "_" ++ attr.name ++ " (" ++ toString attr.slot
        ++ ")"
    image_bind_slot_definition := fun img =>
      "#define SLOT_" ++ mod_prefix ++ img.name ++ " (" ++ toString img.slot ++ ")"
    sampler_bind_slot_definition := fun smp =>
      "#define SLOT_" ++ mod_prefix ++ smp.name ++ " (" ++ toString smp.slot ++ ")"
    uniform_block_bind_slot_definition := fun ub =>
      "#define SLOT_" ++ mod_prefix ++ ub.struct_name ++ " (" ++ toString ub.slot ++ ")" }

/-- A sample build: plain `char` is signed. -/
def sample_env : Env := { to_str := sample_to_str, char_is_signed := true }

/-- A sample generator object that an earlier run has left with content and
indentation. -/
def sample_used : Generator :=
  { mod_prefix := "old_", indentation := "    ", content := "stale text", log := [] }

/-- A sample output sink in which every path can be opened. -/
def sample_fs : FileSystem := { can_open := fun _ => true, written := [] }

/-- The phases recorded in a log, in order. -/
def phases_of (log : List Event) : List Phase :=
  log.filterMap (fun e => match e with
    | Event.phase p => some p
    | _ => none)

/-- The hooks recorded in a log, in order. -/
def hooks_of (log : List Event) : List Hook :=
  log.filterMap (fun e => match e with
    | Event.hook h => some h
    | _ => none)

/-- The effect of `replace_C_comment_tokens` described position by position:
a `*` becomes `_` when the character before it (`prev` for the first one) or
the character after it is `/`, and every other character stays. -/
def mark_tokens : Option Char → List Char → List Char
  | _, [] => []
  | prev, c :: rest =>
    (if c = '*' ∧ (prev = some '/' ∨ rest.head? = some '/') then '_' else c)
      :: mark_tokens (some c) rest

/-- The effect of the first pass (`/*` to `/_`) position by position. -/
def mark_starts : Option Char → List Char → List Char
  | _, [] => []
  | prev, c :: rest =>
    (if c = '*' ∧ prev = some '/' then '_' else c) :: mark_starts (some c) rest

/-- The effect of the second pass (`*/` to `_/`) position by position. -/
def mark_ends : List Char → List Char
  | [] => []
  | c :: rest => (if c = '*' ∧ rest.head? = some '/' then '_' else c) :: mark_ends rest

/-- Position `i` of the text holds a `*` that is part of a token `/*` or `*/`:
the character before it or the character after it is `/`. -/
def star_of_token (l : List Char) (i : Nat) : Prop :=
  l[i]? = some '*' ∧ ((0 < i ∧ l[i - 1]? = some '/') ∨ l[i + 1]? = some '/')

instance (l : List Char) (i : Nat) : Decidable (star_of_token l i) := by
  unfold star_of_token; infer_instance

/-- The text that calls of `l` with the given texts append to the buffer, one
after the other, under the indentation `indentation`. -/
def written (indentation : String) (texts : List String) : String :=
  texts.foldr (fun text acc => (indentation ++ text) ++ acc) ""

/-- The lines of the vertex attribute constants: for every program in order,
for every attribute of its vertex stage in order that has a slot `>= 0`, the
result of the hook `vertex_attr_definition` and a line feed. -/
def vertex_attr_lines (hooks : Hooks) (refl : Reflection) : List String :=
  refl.progs.flatMap (fun prog =>
    (prog.vs.inputs.filter (fun attr => decide (attr.slot ≥ 0))).map (fun attr =>
      hooks.vertex_attr_definition prog.vs_name attr ++ "\n"))

/-- The compiled source of a snippet index under a target: the first source
of the target with that snippet index. -/
def source_of (gen : GenInput) (slang : Slang.Enum) (snippet_index : Int) :
    Option SpirvcrossSource :=
  (gen.spirvcross slang).sources.find? (fun s => decide (s.snippet_index = snippet_index))

/-- The bytecode blob of a snippet index under a target, when there is one. -/
def blob_of (gen : GenInput) (slang : Slang.Enum) (snippet_index : Int) :
    Option BytecodeBlob :=
  (gen.bytecode slang).blobs.find? (fun b => decide (b.snippet_index = snippet_index))

/-- The snippet is a vertex or a fragment shader. -/
def is_shader (snippet : Snippet) : Bool :=
  decide (snippet.type = SnippetType.VS ∨ snippet.type = SnippetType.FS)

/-- The selected targets, in ascending order of their index. -/
def selected_slangs (gen : GenInput) : List Slang.Enum :=
  (List.range Slang.Num).filter (fun i => gen.slang_selected i)

/-- The vertex and fragment snippets with their index, in order. -/
def shader_snippets (inp : Input) : List (Nat × Snippet) :=
  inp.snippets.enum.filter (fun p => is_shader p.2)

/-- The pairs of a selected target and a vertex or fragment snippet, in the
order in which `gen_shader_arrays` visits them. -/
def payload_pairs (gen : GenInput) : List (Slang.Enum × Nat × Snippet) :=
  (selected_slangs gen).flatMap (fun i => (shader_snippets gen.inp).map (fun p => (i, p.1, p.2)))

/-- Every vertex or fragment snippet has a compiled source under every
selected target. -/
def all_shaders_have_source (gen : GenInput) : Prop :=
  ∀ pair ∈ payload_pairs gen, has_source gen pair.1 (pair.2.1 : Int)

instance (gen : GenInput) : Decidable (all_shaders_have_source gen) := by
  unfold all_shaders_have_source; infer_instance

/-- A payload array as it is read off a record of calls: the arguments of
`gen_shader_array_start` and the texts handed to `l` up to the matching
`gen_shader_array_end`, the layout texts (the indentation and the line feed)
left out. -/
structure PayloadArray where
  array_name : String
  num_bytes : Nat
  slang : Slang.Enum
  values : List String
deriving DecidableEq, Repr

/-- Reads the payload arrays off a record of calls; `cur` is the array that
is open.  The result is `none` when the calls of `gen_shader_array_start` and
`gen_shader_array_end` are not matched in pairs, or when something else than a
call of `l` happens inside a pair. -/
def payload_arrays_from : Option PayloadArray → List Event → Option (List PayloadArray)
  | none, [] => some []
  | some _, [] => none
  | none, Event.hook (Hook.gen_shader_array_start name n slang) :: rest =>
    payload_arrays_from (some ⟨name, n, slang, []⟩) rest
  | none, Event.hook Hook.gen_shader_array_end :: _ => none
  | none, _ :: rest => payload_arrays_from none rest
  | some p, Event.hook Hook.gen_shader_array_end :: rest =>
    (payload_arrays_from none rest).map (fun ps => p :: ps)
  | some p, Event.l text :: rest =>
    if text = "    " ∨ text = "\n" then payload_arrays_from (some p) rest
    else payload_arrays_from (some { p with values := p.values ++ [text] }) rest
  | some _, _ :: _ => none

/-- The payload arrays of a record of calls. -/
def payload_arrays (log : List Event) : Option (List PayloadArray) :=
  payload_arrays_from none log

/-- The texts of the values of a byte sequence: the decimal number of every
byte and a comma. -/
def byte_texts (data : List (Fin 256)) : List String :=
  data.map (fun b => toString b.val ++ ",")

/-- The texts of the values of a source text: for every character the decimal
number of its conversion to `int` and a comma, and at the end those of the
terminating null character. -/
def source_texts (env : Env) (source_code : String) : List String :=
  (source_code.data ++ [Char.ofNat 0]).map (fun c => toString (Generator.char_to_int env c) ++ ",")

/-- The payload array that `gen_shader_arrays` writes for a target and a
snippet: that of the blob when there is one, that of the source otherwise. -/
def payload_of (env : Env) (hooks : Hooks) (gen : GenInput)
    (pair : Slang.Enum × Nat × Snippet) : PayloadArray :=
  match blob_of gen pair.1 (pair.2.1 : Int) with
  | some blob =>
    ⟨hooks.shader_bytecode_array_name pair.2.2.name pair.1, blob.data.length, pair.1,
      byte_texts blob.data⟩
  | none =>
    match source_of gen pair.1 (pair.2.1 : Int) with
    | some src =>
      ⟨hooks.shader_source_array_name pair.2.2.name pair.1, src.source_code.length + 1, pair.1,
        source_texts env src.source_code⟩
    | none => ⟨"", 0, pair.1, []⟩

/-- A bytecode blob exists for the snippet index under the target. -/
def has_blob (gen : GenInput) (slang : Slang.Enum) (snippet_index : Int) : Prop :=
  ∃ b ∈ (gen.bytecode slang).blobs, b.snippet_index = snippet_index

instance (gen : GenInput) (slang : Slang.Enum) (snippet_index : Int) :
    Decidable (has_blob gen slang snippet_index) := by
  unfold has_blob; infer_instance

/-- A sample input in which target 0 has the sources of both snippets and a
bytecode blob of two bytes for the fragment snippet. -/
def sample_full : GenInput :=
  { args := sample_args
    inp := sample_inp
    refl := sample_refl
    spirvcross := fun i =>
      if i = 0 then ⟨[⟨0, "void main()"⟩, ⟨1, "void main() /* fs */"⟩]⟩ else ⟨[]⟩
    bytecode := fun i => if i = 0 then ⟨[⟨1, [1, 255]⟩]⟩ else ⟨[]⟩ }

/-- A sample input in which the source of the vertex snippet is the single
byte 200 and there is no bytecode. -/
def sample_high_byte : GenInput :=
  { args := sample_args
    inp := sample_inp
    refl := sample_refl
    spirvcross := fun i =>
      if i = 0 then ⟨[⟨0, String.mk [Char.ofNat 200]⟩, ⟨1, "x"⟩]⟩ else ⟨[]⟩
    bytecode := fun _ => ⟨[]⟩ }

/-- A sample input that passes validation and has a third snippet, a vertex
shader that no program uses and that has no compiled source. -/
def sample_unused_vs : GenInput :=
  { args := sample_args
    inp :=
      { base_path := "shd.glsl"
        module := ""
        snippets := [⟨SnippetType.VS, "vs", [3, 4]⟩, ⟨SnippetType.FS, "fs", [7, 8]⟩,
          ⟨SnippetType.VS, "unused", [11]⟩]
        snippet_map := fun name =>
          if name = "vs" then some 0 else if name = "fs" then some 1
          else if name = "unused" then some 2 else none
        programs := [("prog", ⟨"prog", "vs", "fs"⟩)] }
    refl := sample_refl
    spirvcross := fun i =>
      if i = 0 then ⟨[⟨0, "void main()"⟩, ⟨1, "void main()"⟩]⟩ else ⟨[]⟩
    bytecode := fun _ => ⟨[]⟩ }

/-- A sample generator object that has not been used. -/
def sample_fresh : Generator :=
  { mod_prefix := "", indentation := "", content := "", log := [] }


/-- The string of `n` spaces. -/
def spaces (n : Nat) : String := ⟨List.replicate n ' '⟩

/-- A call that acts on the indentation: the private `indent` and `dedent`,
and the protected writer methods (`reset_indent` and the open and close
writers among them). -/
inductive IndentCall
  | indent
  | dedent
  | write (c : WriterCall)
deriving DecidableEq, Repr

/-- The effect of one such call on the generator object. -/
def Generator.act (B : Backend) : IndentCall → Generator → Generator
  | IndentCall.indent, g => Generator.indent g
  | IndentCall.dedent, g => Generator.dedent g
  | IndentCall.write c, g => Generator.write B c g


/-! ## Case conversion (`util.cc`) -/

namespace cctype

/-- Modelled from the spec: `islower` of the C library, for the "ASCII-only"
transforms: the letters `a` to `z`. -/
def islower (c : Char) : Bool := decide (97 ≤ c.toNat ∧ c.toNat ≤ 122)

/-- Modelled from the spec: `isupper` of the C library: the letters `A` to
`Z`. -/
def isupper (c : Char) : Bool := decide (65 ≤ c.toNat ∧ c.toNat ≤ 90)

/-- Modelled from the spec: `toupper` of the C library: a letter `a` to `z`
becomes the letter 32 codes below, every other character stays. -/
def toupper (c : Char) : Char :=
  if 97 ≤ c.toNat ∧ c.toNat ≤ 122 then Char.ofNat (c.toNat - 32) else c

/-- Modelled from the spec: `tolower` of the C library: a letter `A` to `Z`
becomes the letter 32 codes above, every other character stays. -/
def tolower (c : Char) : Char :=
  if 65 ≤ c.toNat ∧ c.toNat ≤ 90 then Char.ofNat (c.toNat + 32) else c

end cctype

namespace pystring

/-- The scan of `pystring::split` for a non-empty separator: `skip` counts the
characters of the separator just found that are still to be passed over, `cur`
holds the characters of the part being read, last one first. -/
def split_chars (sep : List Char) : Nat → List Char → List Char → List String
  | _, [], cur => [⟨cur.reverse⟩]
  | skip + 1, _ :: rest, cur => split_chars sep skip rest cur
  | 0, c :: rest, cur =>
    if sep.isPrefixOf (c :: rest) then
      ⟨cur.reverse⟩ :: split_chars sep (sep.length - 1) rest []
    else split_chars sep 0 rest (c :: cur)

/-- Modelled from the spec: `pystring::split(str, result, sep)` of the string
library, for a non-empty separator: the parts of `str` between the occurrences
of `sep`, found from left to right, as Python's `str.split` gives them.  (With
an empty separator the library splits at white space; `util.cc` does not use
that.) -/
def split (str sep : String) : List String :=
  split_chars sep.data 0 str.data []

/-- Modelled from the spec: `pystring::capitalize(str)` of the string library:
the first character is made upper case and every later one lower case. -/
def capitalize (str : String) : String :=
  match str.data with
  | [] => str
  | c :: rest =>
    ⟨(if cctype.islower c then cctype.toupper c else c)
      :: rest.map (fun d => if cctype.isupper d then cctype.tolower d else d)⟩

/-- Modelled from the spec: `pystring::join(str, seq)` of the string library:
the strings of `seq` with `str` between them. -/
def join (str : String) (seq : List String) : String :=
  match seq with
  | [] => ""
  | first :: rest => rest.foldl (fun result s => result ++ (str ++ s)) first

end pystring

namespace util

/-- `util::to_pascal_case`. -/
def to_pascal_case (str : String) : String :=
  let splits := pystring.split str "_"
  let parts := splits.map pystring.capitalize
  pystring.join "" parts

/-- `util::to_ada_case`. -/
def to_ada_case (str : String) : String :=
  let splits := pystring.split str "_"
  let parts := splits.map pystring.capitalize
  pystring.join "_" parts

/-- `util::to_camel_case`: the assignment `res[0] = tolower(res[0])`; in an
empty string `res[0]` is the terminating null character, which stays. -/
def to_camel_case (str : String) : String :=
  let res := to_pascal_case str
  match res.data with
  | [] => res
  | c :: rest => ⟨cctype.tolower c :: rest⟩

end util


/-- The character that `capitalize` puts for `c`: upper case at the start of
a part, lower case elsewhere. -/
def case_char (start : Bool) (c : Char) : Char :=
  if start then (if cctype.islower c then cctype.toupper c else c)
  else (if cctype.isupper c then cctype.tolower c else c)

/-- The result of `to_ada_case` described character by character: `_` stays
and starts a new part, every other character is put in the case of its place
in its part; `start` tells whether the next character starts a part. -/
def ada_chars : Bool → List Char → List Char
  | _, [] => []
  | start, c :: rest =>
    if c = '_' then '_' :: ada_chars true rest else case_char start c :: ada_chars false rest

/-- The result of `to_pascal_case` described character by character: `_` is
dropped and starts a new part. -/
def pascal_chars : Bool → List Char → List Char
  | _, [] => []
  | start, c :: rest =>
    if c = '_' then pascal_chars true rest else case_char start c :: pascal_chars false rest

/-- The parts of a text split at `_`: the first part and the later ones. -/
def seg_split : List Char → List Char × List (List Char)
  | [] => ([], [])
  | c :: rest =>
    if c = '_' then ([], (seg_split rest).1 :: (seg_split rest).2)
    else (c :: (seg_split rest).1, (seg_split rest).2)

/-- The characters of `capitalize`. -/
def cap_chars : List Char → List Char
  | [] => []
  | c :: rest => case_char true c :: rest.map (case_char false)


/-- The generator object `g2` comes from `g1` by calls of the comment block
writer `cbl` alone: the member `mod_prefix` is the same and the record of calls
has gained entries of `cbl` and no other. -/
def extends_by_cbl (g1 g2 : Generator) : Prop :=
  g2.mod_prefix = g1.mod_prefix ∧
  ∃ evs, g2.log = g1.log ++ evs ∧ ∀ e ∈ evs, ∃ t, e = Event.cbl t


/-- The texts handed to the plain writer `l` in a log, in order. -/
def plain_of (log : List Event) : List String :=
  log.filterMap (fun e => match e with
    | Event.l text => some text
    | _ => none)


/-- Two generator objects agree on the members of the C++ class: `mod_prefix`,
`indentation` and `content`. -/
def same_members (g1 g2 : Generator) : Prop :=
  g1.mod_prefix = g2.mod_prefix ∧ g1.indentation = g2.indentation ∧ g1.content = g2.content

/-- Two results of a phase that may not return: both do not return, or both
return objects that agree on the members. -/
def same_result : Option Generator → Option Generator → Prop
  | none, none => True
  | some g1, some g2 => same_members g1 g2
  | _, _ => False

/-- What a caller of `generate` observes afterwards: the returned `ErrMsg`, the
members of the generator object and the output sink. -/
def outcome (r : ErrMsg × Generator × FileSystem) :
    ErrMsg × String × String × String × List (String × String) :=
  (r.1, Generator.mod_prefix r.2.1, Generator.indentation r.2.1, Generator.content r.2.1,
    FileSystem.written r.2.2)


/-- A sample backend with a hook that is not balanced: `gen_epilog` writes its
line with `l_open`, which opens an indentation level that nothing closes; every
other `void` hook writes one line with `l`. -/
def sample_unbalanced : Backend := fun mod_prefix =>
  { sample_backend mod_prefix with
    visit := fun _ h => match h with
      | Hook.gen_epilog => [WriterCall.l_open "epilog\n"]
      | _ => [WriterCall.l "hook\n"] }

/-- The generator object as a call of `generate` leaves it: the object that
the call returns, and the starting one when the call does not return. -/
def left_by_generate (env : Env) (B : Backend) (gen : GenInput) (g : Generator)
    (fs : FileSystem) : Generator :=
  match Generator.generate env B gen g fs with
  | some r => r.2.1
  | none => g


/-- The layout of the values of a payload: the texts of the values in order, in
lines of 16. -/
def value_lines (texts : List String) : List (List String) :=
  (List.range ((texts.length + 15) / 16)).map (fun k => (texts.drop (16 * k)).take 16)

/-- The texts handed to `l` for one line of values: four spaces, the texts of
the values of the line, and a line feed after the sixteenth value. -/
def line_texts (line : List String) : List String :=
  "    " :: line ++ (if line.length = 16 then ["\n"] else [])

/-- The texts handed to `l` for the values from column `col` on, one value
after the other. -/
def loop_texts : Nat → List String → List String
  | _, [] => []
  | col, text :: rest =>
    (if col % 16 = 0 then ["    "] else []) ++ [text]
      ++ (if col % 16 = 15 then ["\n"] else []) ++ loop_texts (col + 1) rest

/-- The text of one line of values under empty indentation: four spaces, the
texts of the values, and a line feed after the sixteenth value. -/
def line_text (line : List String) : String :=
  "    " ++ line.foldr (fun text acc => text ++ acc) ""
    ++ (if line.length = 16 then "\n" else "")

/-- The text of the lines of values under empty indentation. -/
def lines_text (lines : List (List String)) : String :=
  lines.foldr (fun line acc => line_text line ++ acc) ""

/-- A sample backend that indents the values of a payload array: the hook
`gen_shader_array_start` writes its line with `l_open`, the hook
`gen_shader_array_end` writes its line with `l_close`, the other hooks write
nothing. -/
def sample_indenting : Backend := fun mod_prefix =>
  { sample_backend mod_prefix with
    visit := fun _ h => match h with
      | Hook.gen_shader_array_start _ _ _ => [WriterCall.l_open "bytes = [\n"]
      | Hook.gen_shader_array_end => [WriterCall.l_close "]\n"]
      | _ => [] }

/-- A sample input of one fragment snippet that has an empty source and a
bytecode blob of the two bytes 1 and 2 under target 0. -/
def sample_blob_only : GenInput :=
  { args := sample_args
    inp :=
      { base_path := "shd.glsl"
        module := ""
        snippets := [⟨SnippetType.FS, "fs", [1]⟩]
        snippet_map := fun name => if name = "fs" then some 0 else none
        programs := [] }
    refl := { progs := [], bindings := ⟨[], [], [], []⟩ }
    spirvcross := fun i => if i = 0 then ⟨[⟨0, ""⟩]⟩ else ⟨[]⟩
    bytecode := fun i => if i = 0 then ⟨[⟨0, [1, 2]⟩]⟩ else ⟨[]⟩ }


/-! ## `roundup` of `util.cc` -/

/-- The least value of a 32-bit `int`. -/
def INT_MIN : Int := -2147483648

/-- The greatest value of a 32-bit `int`. -/
def INT_MAX : Int := 2147483647

/-- The value is one of a 32-bit `int`. -/
def in_int_range (x : Int) : Prop := INT_MIN ≤ x ∧ x ≤ INT_MAX

instance (x : Int) : Decidable (in_int_range x) := by
  unfold in_int_range; infer_instance

/-- The 32 bits of an `int` value, in two's complement. -/
def int_bits (x : Int) : Nat := (x % 2 ^ 32).toNat

/-- The `int` value of 32 bits, in two's complement. -/
def int_of_bits (n : Nat) : Int :=
  if n < 2 ^ 31 then (n : Int) else (n : Int) - 2 ^ 32

namespace util

/-- `roundup` of `util.cc`: `(val + (round_to - 1)) & ~(round_to - 1)` on
32-bit `int`.  The operators `&` and `~` act on the 32 bits; the result is
`none` when the subtraction or the addition overflows the `int`. -/
def roundup (val round_to : Int) : Option Int :=
  if ¬ in_int_range (round_to - 1) then none
  else if ¬ in_int_range (val + (round_to - 1)) then none
  else some (int_of_bits
    (int_bits (val + (round_to - 1)) &&& (2 ^ 32 - 1 - int_bits (round_to - 1))))

end util


/-! ## The per-target Validation Gate: `util::check_errors` -/

/-- Modelled from the spec: `Spirvcross::find_source_by_snippet_index` as
`util.cc` calls it, where the result is a pointer to the source "keyed by
snippet index", or `nullptr` (here `none`) when there is none. -/
def Spirvcross.find_source_ptr_by_snippet_index (s : Spirvcross) (snippet_index : Int) :
    Option SpirvcrossSource :=
  s.sources.find? (fun src => decide (src.snippet_index = snippet_index))

/-- The loop `for (const auto& item: inp.programs)` of `util::check_errors`,
over the items still to visit.  The result is `none` when `snippet_map.at`
throws or a vector is read out of range. -/
def util.check_errors_programs (to_str : Slang.Enum → String) (inp : Input)
    (spirvcross : Spirvcross) (slang : Slang.Enum) :
    List (String × Program) → Option ErrMsg
  | [] => some ErrMsg.ok
  | item :: rest =>
    let prog := item.2
    match inp.snippet_map prog.vs_name, inp.snippet_map prog.fs_name with
    | some vs_snippet_index, some fs_snippet_index =>
      let vs_src := spirvcross.find_source_ptr_by_snippet_index vs_snippet_index
      let fs_src := spirvcross.find_source_ptr_by_snippet_index fs_snippet_index
      if vs_src = none then
        match first_line inp vs_snippet_index with
        | some line => some (inp.error line (vs_error_msg to_str slang prog))
        | none => none
      else if fs_src = none then
        match first_line inp vs_snippet_index with
        | some line => some (inp.error line (fs_error_msg to_str slang prog))
        | none => none
      else util.check_errors_programs to_str inp spirvcross slang rest
    | _, _ => none

/-- `util::check_errors(inp, spirvcross, slang)` of `util.cc`. -/
def util.check_errors (to_str : Slang.Enum → String) (inp : Input) (spirvcross : Spirvcross)
    (slang : Slang.Enum) : Option ErrMsg :=
  util.check_errors_programs to_str inp spirvcross slang inp.programs

/-- The Validation Gate in the words of the claim: `util::check_errors(inp,
spirvcross[target], target)` is run for each selected target in ascending
order of the indices still to visit, the first error found is returned, and
"no error" when none of the runs fails. -/
def check_errors_per_target (to_str : Slang.Enum → String) (gen : GenInput) :
    List Nat → Option ErrMsg
  | [] => some ErrMsg.ok
  | i :: rest =>
    if gen.slang_selected (Slang.from_index i) then
      match util.check_errors to_str gen.inp (gen.spirvcross (Slang.from_index i))
          (Slang.from_index i) with
      | none => none
      | some e => if e.valid then some e else check_errors_per_target to_str gen rest
    else check_errors_per_target to_str gen rest


/-! ## The writer calls of the header and of the comment block -/

/-- A sequence of writer calls, made one after the other. -/
def Generator.writes (B : Backend) (cs : List WriterCall) (g : Generator) : Generator :=
  cs.foldl (fun g c => Generator.write B c g) g

/-- The call closes an indentation level: it is one of the calls that run
`dedent`. -/
def WriterCall.closes : WriterCall → Bool
  | .l_close _ => true
  | .cbl_close_text _ => true
  | .cbl_close => true
  | .cbl_end => true
  | _ => false

/-- The nesting depth after one writer call made at depth `d`: the calls that
run `indent` open a level, the calls that run `dedent` close one.  The result
is `none` for a closing call at depth 0, where no level is open, and for
`reset_indent`. -/
def nesting_step (c : WriterCall) (d : Nat) : Option Nat :=
  match c with
  | .reset_indent => none
  | .l _ => some d
  | .cbl _ => some d
  | .l_open _ => some (d + 1)
  | .cbl_start => some (d + 1)
  | .cbl_open _ => some (d + 1)
  | .l_close _ => if d = 0 then none else some (d - 1)
  | .cbl_close_text _ => if d = 0 then none else some (d - 1)
  | .cbl_close => if d = 0 then none else some (d - 1)
  | .cbl_end => if d = 0 then none else some (d - 1)

/-- The nesting depth after a sequence of writer calls that starts at depth
`d`; `none` when a call closes a level that the sequence has not opened. -/
def nesting : List WriterCall → Nat → Option Nat
  | [], d => some d
  | c :: rest, d =>
    match nesting_step c d with
    | none => none
    | some d' => nesting rest d'

/-- The writer calls of the loop body of `gen_bindings_info` for a uniform
block. -/
def uniform_block_info_calls (hooks : Hooks) (ub : UniformBlock) : List WriterCall :=
  [WriterCall.cbl_open ("Uniform block '" ++ ub.struct_name ++ "':\n"),
    WriterCall.cbl (hooks.lang_name ++ " struct: " ++ hooks.struct_name ub.struct_name ++ "\n"),
    WriterCall.cbl ("Bind slot: " ++ hooks.uniform_block_bind_slot_name ub ++ " => "
      ++ toString ub.slot ++ "\n"),
    WriterCall.cbl_close]

/-- The writer calls of the loop body of `gen_bindings_info` for an image. -/
def image_info_calls (hooks : Hooks) (img : Image) : List WriterCall :=
  [WriterCall.cbl_open ("Image '" ++ img.name ++ "':\n"),
    WriterCall.cbl ("Image type: " ++ hooks.image_type img.type ++ "\n"),
    WriterCall.cbl ("Sample type: " ++ hooks.image_sample_type img.sample_type ++ "\n"),
    WriterCall.cbl ("Multisampled: " ++ toString img.multisampled ++ "\n"),
    WriterCall.cbl ("Bind slot: " ++ hooks.image_bind_slot_name img ++ " => "
      ++ toString img.slot ++ "\n"),
    WriterCall.cbl_close]

/-- The writer calls of the loop body of `gen_bindings_info` for a sampler. -/
def sampler_info_calls (hooks : Hooks) (smp : Sampler) : List WriterCall :=
  [WriterCall.cbl_open ("Sampler '" ++ smp.name ++ "':\n"),
    WriterCall.cbl ("Type: " ++ hooks.sampler_type smp.type ++ "\n"),
    WriterCall.cbl ("Bind slot: " ++ hooks.sampler_bind_slot_name smp ++ " => "
      ++ toString smp.slot ++ "\n"),
    WriterCall.cbl_close]

/-- The writer calls of the loop body of `gen_bindings_info` for an image
sampler pair. -/
def image_sampler_info_calls (_hooks : Hooks) (img_smp : ImageSampler) : List WriterCall :=
  [WriterCall.cbl_open ("Image Sampler Pair '" ++ img_smp.name ++ "':\n"),
    WriterCall.cbl ("Image: " ++ img_smp.image_name ++ "\n"),
    WriterCall.cbl ("Sampler: " ++ img_smp.sampler_name ++ "\n"),
    WriterCall.cbl_close]

/-- The writer calls of `gen_bindings_info`, in order. -/
def bindings_info_calls (hooks : Hooks) (bindings : Bindings) : List WriterCall :=
  bindings.uniform_blocks.flatMap (uniform_block_info_calls hooks)
    ++ bindings.images.flatMap (image_info_calls hooks)
    ++ bindings.samplers.flatMap (sampler_info_calls hooks)
    ++ bindings.image_samplers.flatMap (image_sampler_info_calls hooks)

/-- The writer calls of the attribute loop body of `gen_vertex_shader_info`. -/
def attr_info_calls (hooks : Hooks) (vs_name : String) (attr : StageAttr) : List WriterCall :=
  if attr.slot ≥ 0 then
    [WriterCall.cbl (hooks.vertex_attr_name vs_name attr ++ " => "
      ++ toString attr.slot ++ "\n")]
  else []

/-- The writer calls of `gen_vertex_shader_info`, in order. -/
def vertex_shader_info_calls (hooks : Hooks) (prog : ProgramReflection) : List WriterCall :=
  [WriterCall.cbl_open ("Vertex shader: " ++ prog.vs_name ++ "\n"),
    WriterCall.cbl_open "Attributes:\n"]
    ++ prog.vs.inputs.flatMap (attr_info_calls hooks prog.vs_name)
    ++ [WriterCall.cbl_close]
    ++ bindings_info_calls hooks prog.vs.bindings
    ++ [WriterCall.cbl_close]

/-- The writer calls of `gen_fragment_shader_info`, in order. -/
def fragment_shader_info_calls (hooks : Hooks) (prog : ProgramReflection) : List WriterCall :=
  [WriterCall.cbl_open ("Fragment shader: " ++ prog.fs_name ++ "\n")]
    ++ bindings_info_calls hooks prog.fs.bindings
    ++ [WriterCall.cbl_close]

/-- The writer calls of the program loop body of `gen_header`. -/
def program_info_calls (hooks : Hooks) (prog : ProgramReflection) : List WriterCall :=
  [WriterCall.cbl_open ("Shader program: '" ++ prog.name ++ "':\n"),
    WriterCall.cbl ("Get shader desc: " ++ hooks.get_shader_desc_help prog.name)]
    ++ vertex_shader_info_calls hooks prog
    ++ fragment_shader_info_calls hooks prog
    ++ [WriterCall.cbl_close]

/-- The writer calls of `gen_header`, in order. -/
def header_calls (hooks : Hooks) (gen : GenInput) : List WriterCall :=
  [WriterCall.cbl_start,
    WriterCall.cbl ("#version:" ++ toString gen.args.gen_version
      ++ " (machine generated, don't edit!)\n\n"),
    WriterCall.cbl "Generated by sokol-shdc (https://github.com/floooh/sokol-tools)\n\n",
    WriterCall.cbl_open "Cmdline:\n",
    WriterCall.cbl (gen.args.cmdline ++ "\n"),
    WriterCall.cbl_close_text "\n",
    WriterCall.cbl "Overview:\n",
    WriterCall.cbl "=========\n"]
    ++ gen.refl.progs.flatMap (program_info_calls hooks)
    ++ [WriterCall.cbl_end, WriterCall.l "\n"]

/-- The writer calls of the comment block that `gen_shader_arrays` writes for
a shader source: `cbl_start`, one `cbl` for every line, `cbl_end`. -/
def comment_block_calls (source_code : String) : List WriterCall :=
  [WriterCall.cbl_start]
    ++ (pystring.splitlines source_code).map (fun line =>
      WriterCall.cbl (util.replace_C_comment_tokens line ++ "\n"))
    ++ [WriterCall.cbl_end]


/-- A sample input that passes validation and in which a vertex shader that no
program uses and that has no compiled source comes first; the fragment snippet
of the program, of index 2, has a bytecode blob of two bytes under target 0. -/
def sample_unused_vs_blob : GenInput :=
  { args := sample_args
    inp :=
      { base_path := "shd.glsl"
        module := ""
        snippets := [⟨SnippetType.VS, "unused", [1]⟩, ⟨SnippetType.VS, "vs", [3, 4]⟩,
          ⟨SnippetType.FS, "fs", [7, 8]⟩]
        snippet_map := fun name =>
          if name = "unused" then some 0 else if name = "vs" then some 1
          else if name = "fs" then some 2 else none
        programs := [("prog", ⟨"prog", "vs", "fs"⟩)] }
    refl := sample_refl
    spirvcross := fun i =>
      if i = 0 then ⟨[⟨1, "void main()"⟩, ⟨2, "void main()"⟩]⟩ else ⟨[]⟩
    bytecode := fun i => if i = 0 then ⟨[⟨2, [1, 255]⟩]⟩ else ⟨[]⟩ }

/-! ## Lemmas on the lookups -/

theorem find_source_from_neg (idx : Int) :
    ∀ (l : List SpirvcrossSource) (k : Nat),
      Spirvcross.find_source_from idx l k < 0 ↔ ¬ ∃ s ∈ l, s.snippet_index = idx
  | [], k => by simp [Spirvcross.find_source_from]
  | s :: rest, k => by
    unfold Spirvcross.find_source_from
    split_ifs with h
    · simp [h]
    · rw [find_source_from_neg idx rest (k + 1)]; simp [h]

theorem find_source_neg_iff (gen : GenInput) (i : Slang.Enum) (idx : Int) :
    (gen.spirvcross i).find_source_by_snippet_index idx < 0 ↔ ¬ has_source gen i idx := by
  unfold Spirvcross.find_source_by_snippet_index has_source
  exact find_source_from_neg idx _ 0

/-! ## The Validation Gate -/

theorem check_errors_body_eq (to_str : Slang.Enum → String) (gen : GenInput) (i : Nat)
    (item : String × Program) (vs fs line : Int)
    (hvs : gen.inp.snippet_map item.2.vs_name = some vs)
    (hfs : gen.inp.snippet_map item.2.fs_name = some fs)
    (hline : first_line gen.inp vs = some line) :
    check_errors_body to_str gen i item =
      if ¬ has_source gen i vs then
        some (some (gen.inp.error line (vs_error_msg to_str i item.2)))
      else if ¬ has_source gen i fs then
        some (some (gen.inp.error line (fs_error_msg to_str i item.2)))
      else some none := by
  unfold check_errors_body
  simp only [hvs, hfs, hline, find_source_neg_iff, Slang.from_index]

theorem stage_names_resolve_elim (inp : Input) (prog : Program)
    (h : stage_names_resolve inp prog = true) :
    ∃ vs fs line, inp.snippet_map prog.vs_name = some vs ∧
      inp.snippet_map prog.fs_name = some fs ∧ first_line inp vs = some line := by
  unfold stage_names_resolve at h
  split at h
  · next vs fs hvs hfs =>
    obtain ⟨line, hline⟩ := Option.isSome_iff_exists.mp h
    exact ⟨vs, fs, line, hvs, hfs, hline⟩
  · exact absurd h (by simp)

theorem lacks_source_iff (gen : GenInput) (i : Slang.Enum) (prog : Program) (vs fs : Int)
    (hvs : gen.inp.snippet_map prog.vs_name = some vs)
    (hfs : gen.inp.snippet_map prog.fs_name = some fs) :
    lacks_source gen i prog ↔ (¬ has_source gen i vs ∨ ¬ has_source gen i fs) := by
  unfold lacks_source
  simp [hvs, hfs]

/-- The program loop of `check_errors`: it ends without a result exactly when no
program of the list lacks a source, and a result is always an error. -/
theorem check_errors_programs_spec (to_str : Slang.Enum → String) (gen : GenInput) (i : Nat) :
    ∀ (ps : List (String × Program)),
      (∀ item ∈ ps, stage_names_resolve gen.inp item.2 = true) →
      ∃ r, check_errors_programs to_str gen i ps = some r ∧
        (r = none ↔ ∀ item ∈ ps, ¬ lacks_source gen i item.2) ∧
        (∀ e, r = some e → e.valid = true)
  | [], _ => ⟨none, rfl, by simp, by simp⟩
  | item :: rest, h => by
    obtain ⟨vs, fs, line, hvs, hfs, hline⟩ :=
      stage_names_resolve_elim gen.inp item.2 (h item (List.mem_cons_self _ _))
    obtain ⟨r, hr, hnone, hsome⟩ := check_errors_programs_spec to_str gen i rest
      (fun it hit => h it (List.mem_cons_of_mem _ hit))
    have hl := lacks_source_iff gen i item.2 vs fs hvs hfs
    unfold check_errors_programs
    rw [check_errors_body_eq to_str gen i item vs fs line hvs hfs hline]
    by_cases h1 : has_source gen i vs
    · by_cases h2 : has_source gen i fs
      · simp only [h1, h2, not_true_eq_false, if_false]
        refine ⟨r, hr, ?_, hsome⟩
        rw [hnone]
        simp [hl, h1, h2]
      · simp only [h1, h2, not_true_eq_false, not_false_eq_true, if_false, if_true]
        refine ⟨_, rfl, ?_, ?_⟩
        · simp [hl, h2]
        · intro e he; cases he; rfl
    · simp only [h1, not_false_eq_true, if_true]
      refine ⟨_, rfl, ?_, ?_⟩
      · simp [hl, h1]
      · intro e he; cases he; rfl

/-- The target loop of `check_errors` over the indices `is`. -/
theorem check_errors_slangs_spec (to_str : Slang.Enum → String) (gen : GenInput)
    (h : names_resolve gen.inp) :
    ∀ (is : List Nat),
      ∃ e, check_errors_slangs to_str gen is = some e ∧
        (e.valid = true ↔ ∃ i ∈ is, gen.slang_selected i = true ∧
          ∃ item ∈ gen.inp.programs, lacks_source gen i item.2) ∧
        (e.valid = false → e = ErrMsg.ok)
  | [] => ⟨ErrMsg.ok, rfl, by simp [ErrMsg.ok, ErrMsg.valid], fun _ => rfl⟩
  | i :: rest => by
    obtain ⟨e, he, hiff, hok⟩ := check_errors_slangs_spec to_str gen h rest
    unfold check_errors_slangs
    by_cases hsel : gen.slang_selected i = true
    · obtain ⟨r, hr, hnone, hsome⟩ := check_errors_programs_spec to_str gen i gen.inp.programs h
      simp only [Slang.from_index, hsel, if_true, hr]
      cases r with
      | none =>
        have hno := hnone.mp rfl
        refine ⟨e, he, ?_, hok⟩
        rw [hiff]
        constructor
        · rintro ⟨j, hj, hjs, hex⟩
          exact ⟨j, List.mem_cons_of_mem _ hj, hjs, hex⟩
        · rintro ⟨j, hj, hjs, item, hitem, hlack⟩
          rcases List.mem_cons.mp hj with rfl | hj
          · exact absurd hlack (hno item hitem)
          · exact ⟨j, hj, hjs, item, hitem, hlack⟩
      | some e1 =>
        have hv := hsome e1 rfl
        refine ⟨e1, rfl, ?_, ?_⟩
        · simp only [hv, true_iff]
          have hex : ¬ ∀ item ∈ gen.inp.programs, ¬ lacks_source gen i item.2 :=
            fun hall => by simpa using hnone.mpr hall
          push_neg at hex
          obtain ⟨item, hitem, hlack⟩ := hex
          exact ⟨i, List.mem_cons_self _ _, hsel, item, hitem, hlack⟩
        · intro hf; rw [hv] at hf; exact absurd hf (by simp)
    · simp only [Slang.from_index, hsel, if_false]
      refine ⟨e, he, ?_, hok⟩
      rw [hiff]
      constructor
      · rintro ⟨j, hj, hjs, hex⟩
        exact ⟨j, List.mem_cons_of_mem _ hj, hjs, hex⟩
      · rintro ⟨j, hj, hjs, hex⟩
        rcases List.mem_cons.mp hj with rfl | hj
        · exact absurd hjs hsel
        · exact ⟨j, hj, hjs, hex⟩

theorem check_errors_programs_skip (to_str : Slang.Enum → String) (gen : GenInput) (i : Nat)
    (post : List (String × Program)) :
    ∀ (pre : List (String × Program)),
      (∀ item ∈ pre, stage_names_resolve gen.inp item.2 = true) →
      (∀ item ∈ pre, ¬ lacks_source gen i item.2) →
      check_errors_programs to_str gen i (pre ++ post) = check_errors_programs to_str gen i post
  | [], _, _ => rfl
  | item :: rest, hres, hok => by
    obtain ⟨vs, fs, line, hvs, hfs, hline⟩ :=
      stage_names_resolve_elim gen.inp item.2 (hres item (List.mem_cons_self _ _))
    have hl := (lacks_source_iff gen i item.2 vs fs hvs hfs).not.mp
      (hok item (List.mem_cons_self _ _))
    push_neg at hl
    rw [List.cons_append, check_errors_programs,
      check_errors_body_eq to_str gen i item vs fs line hvs hfs hline]
    simp only [hl.1, hl.2, not_true_eq_false, if_false]
    exact check_errors_programs_skip to_str gen i post rest
      (fun it hit => hres it (List.mem_cons_of_mem _ hit))
      (fun it hit => hok it (List.mem_cons_of_mem _ hit))

theorem check_errors_slangs_skip (to_str : Slang.Enum → String) (gen : GenInput)
    (h : names_resolve gen.inp) (rest : List Nat) :
    ∀ (pre : List Nat),
      (∀ j ∈ pre, gen.slang_selected j = true →
        ∀ item ∈ gen.inp.programs, ¬ lacks_source gen j item.2) →
      check_errors_slangs to_str gen (pre ++ rest) = check_errors_slangs to_str gen rest
  | [], _ => rfl
  | j :: pre, hok => by
    have ih := check_errors_slangs_skip to_str gen h rest pre
      (fun k hk => hok k (List.mem_cons_of_mem _ hk))
    rw [List.cons_append, check_errors_slangs]
    by_cases hsel : gen.slang_selected j = true
    · obtain ⟨r, hr, hnone, _⟩ := check_errors_programs_spec to_str gen j gen.inp.programs h
      have hr2 : r = none := hnone.mpr (hok j (List.mem_cons_self _ _) hsel)
      subst hr2
      simp only [Slang.from_index, hsel, if_true, hr, ih]
    · simp [Slang.from_index, hsel, ih]

theorem range_split (n i : Nat) (hi : i < n) :
    ∃ rest, List.range n = List.range i ++ i :: rest := by
  obtain ⟨k, rfl⟩ : ∃ k, n = i + (k + 1) := ⟨n - i - 1, by omega⟩
  refine ⟨(List.range k).map (fun x => i + (x + 1)), ?_⟩
  rw [List.range_add, List.range_succ_eq_map]
  simp [Function.comp_def]

/-- C1: `check_errors` returns, and what it returns is an error if and only if
some selected target (an index below `Slang::Num` whose bit is set in
`args.slang`) and some declared program lack the compiled source of the vertex
or of the fragment snippet; when no selected target and program lack one, the
result is the "no error" value.  Targets that are not selected play no part.
The input is taken well formed: the stage names of the programs are keys of
the snippet map. -/
theorem check_errors_error_iff_missing_source (to_str : Slang.Enum → String) (gen : GenInput)
    (h : names_resolve gen.inp) :
    ∃ e, check_errors to_str gen = some e ∧
      (e.valid = true ↔ ∃ i, i < Slang.Num ∧ gen.slang_selected i = true ∧
        ∃ item ∈ gen.inp.programs, lacks_source gen i item.2) ∧
      ((∀ i, i < Slang.Num → gen.slang_selected i = true →
        ∀ item ∈ gen.inp.programs, ¬ lacks_source gen i item.2) → e = ErrMsg.ok) := by
  obtain ⟨e, he, hiff, hok⟩ := check_errors_slangs_spec to_str gen h (List.range Slang.Num)
  refine ⟨e, he, ?_, ?_⟩
  · rw [hiff]
    constructor
    · rintro ⟨i, hi, hrest⟩
      exact ⟨i, List.mem_range.mp hi, hrest⟩
    · rintro ⟨i, hi, hrest⟩
      exact ⟨i, List.mem_range.mpr hi, hrest⟩
  · intro hall
    apply hok
    cases hv : e.valid with
    | false => rfl
    | true =>
      obtain ⟨i, hi, hsel, item, hitem, hlack⟩ := hiff.mp hv
      exact absurd hlack (hall i (List.mem_range.mp hi) hsel item hitem)

theorem check_errors_error_iff_missing_source_witness :
    names_resolve sample_no_fs.inp ∧
    ∃ e, check_errors sample_to_str sample_no_fs = some e ∧
      (e.valid = true ↔ ∃ i, i < Slang.Num ∧ sample_no_fs.slang_selected i = true ∧
        ∃ item ∈ sample_no_fs.inp.programs, lacks_source sample_no_fs i item.2) ∧
      ((∀ i, i < Slang.Num → sample_no_fs.slang_selected i = true →
        ∀ item ∈ sample_no_fs.inp.programs, ¬ lacks_source sample_no_fs i item.2) →
        e = ErrMsg.ok) :=
  ⟨by decide, check_errors_error_iff_missing_source sample_to_str sample_no_fs (by decide)⟩

/-- C2: let (i, prog) be the first failing pair of a selected target and a
program, in the order of the two loops.  When the vertex snippet of `prog` has
a compiled source under `i` (so that the fragment source is the missing one),
`check_errors` returns the error with the text
"no generated '<target>' source for fragment shader '<fs_name>' in program '<name>'"
at the first line of the vertex snippet; when the vertex source is missing it
returns the vertex shader error at that same line, whether the fragment source
exists or not. -/
theorem check_errors_first_failure (to_str : Slang.Enum → String) (gen : GenInput)
    (i : Nat) (pre post : List (String × Program)) (key : String) (prog : Program)
    (vs fs line : Int)
    (h : names_resolve gen.inp)
    (hi : i < Slang.Num) (hsel : gen.slang_selected i = true)
    (hprogs : gen.inp.programs = pre ++ (key, prog) :: post)
    (hvs : gen.inp.snippet_map prog.vs_name = some vs)
    (hfs : gen.inp.snippet_map prog.fs_name = some fs)
    (hline : first_line gen.inp vs = some line)
    (htargets : ∀ j, j < i → gen.slang_selected j = true →
      ∀ item ∈ gen.inp.programs, ¬ lacks_source gen j item.2)
    (hpre : ∀ item ∈ pre, ¬ lacks_source gen i item.2)
    (hfail : lacks_source gen i prog) :
    (has_source gen i vs →
      check_errors to_str gen = some (gen.inp.error line
        ("no generated '" ++ to_str i ++ "' source for fragment shader '" ++ prog.fs_name
          ++ "' in program '" ++ prog.name ++ "'"))) ∧
    (¬ has_source gen i vs →
      check_errors to_str gen = some (gen.inp.error line
        ("no generated '" ++ to_str i ++ "' source for vertex shader '" ++ prog.vs_name
          ++ "' in program '" ++ prog.name ++ "'"))) := by
  obtain ⟨rest, hrange⟩ := range_split Slang.Num i hi
  have hpre_res : ∀ item ∈ pre, stage_names_resolve gen.inp item.2 = true := fun it hit =>
    h it (by rw [hprogs]; exact List.mem_append_left _ hit)
  have hstep : check_errors to_str gen =
      match check_errors_body to_str gen i (key, prog) with
      | none => none
      | some (some e) => some e
      | some none =>
        match check_errors_programs to_str gen i post with
        | none => none
        | some (some e) => some e
        | some none => check_errors_slangs to_str gen rest := by
    unfold check_errors
    rw [hrange, check_errors_slangs_skip to_str gen h (i :: rest) (List.range i)
      (fun j hj => htargets j (List.mem_range.mp hj)), check_errors_slangs]
    simp only [Slang.from_index, hsel, if_true]
    rw [hprogs, check_errors_programs_skip to_str gen i _ pre hpre_res hpre,
      check_errors_programs]
    cases check_errors_body to_str gen i (key, prog) with
    | none => rfl
    | some r => cases r <;> rfl
  have hl := (lacks_source_iff gen i prog vs fs hvs hfs).mp hfail
  rw [hstep, check_errors_body_eq to_str gen i (key, prog) vs fs line hvs hfs hline]
  constructor
  · intro h1
    have h2 : ¬ has_source gen i fs := by tauto
    simp only [h1, h2, not_true_eq_false, not_false_eq_true, if_false, if_true]
    rfl
  · intro h1
    simp only [h1, not_false_eq_true, if_true]
    rfl

theorem check_errors_first_failure_witness :
    first_line sample_no_fs.inp 0 = some 3 ∧ first_line sample_no_fs.inp 1 = some 7 ∧
    check_errors sample_to_str sample_no_fs = some (sample_no_fs.inp.error 3
      "no generated 'glsl410' source for fragment shader 'fs' in program 'prog'") :=
  ⟨rfl, rfl, (check_errors_first_failure sample_to_str sample_no_fs 0 [] [] "prog"
    ⟨"prog", "vs", "fs"⟩ 0 1 3 (by decide) (by decide) (by decide) rfl rfl rfl rfl
    (fun j hj => absurd hj (Nat.not_lt_zero j)) (fun item hitem => absurd hitem (by simp))
    (Or.inr ⟨1, rfl, by decide⟩)).1 (by decide)⟩

/-! ## `generate` when validation fails -/

/-- C3: when `check_errors` reports an error `e`, then from every prior state
of the generator object and of the output sink `generate` returns `e`, the
content buffer is empty afterwards, the record of calls has gained the entry
of `begin` alone (no later phase is entered, no hook is called, `end` is not
reached) and the output sink is as it was: nothing is written. -/
theorem generate_validation_error (env : Env) (B : Backend) (gen : GenInput) (g : Generator)
    (fs : FileSystem) (e : ErrMsg)
    (hce : check_errors env.to_str gen = some e) (hv : e.valid = true) :
    ∃ g', Generator.generate env B gen g fs = some (e, g', fs) ∧
      g'.content = "" ∧ g'.log = g.log ++ [Event.phase Phase.begin] := by
  refine ⟨{ Generator.enter Phase.begin g with
    content := "", mod_prefix := util.mod_prefix gen.inp }, ?_, rfl, rfl⟩
  unfold Generator.generate Generator.begin
  simp only [hce, hv, if_true]

theorem generate_validation_error_witness :
    check_errors sample_env.to_str sample_no_fs = some (sample_no_fs.inp.error 3
      "no generated 'glsl410' source for fragment shader 'fs' in program 'prog'") ∧
    ∃ g', Generator.generate sample_env sample_backend sample_no_fs sample_used sample_fs =
        some (sample_no_fs.inp.error 3
          "no generated 'glsl410' source for fragment shader 'fs' in program 'prog'",
          g', sample_fs) ∧
      g'.content = "" ∧ g'.log = sample_used.log ++ [Event.phase Phase.begin] :=
  ⟨by decide, generate_validation_error sample_env sample_backend sample_no_fs sample_used
    sample_fs _ (by decide) (by decide)⟩

/-! ## The comment token sanitizer -/

theorem replace_chars_two (x y : Char) (newstr : List Char) (c d : Char) (rest : List Char) :
    pystring.replace_chars [x, y] newstr 0 (c :: d :: rest) =
      if c = x ∧ d = y then newstr ++ pystring.replace_chars [x, y] newstr 0 rest
      else c :: pystring.replace_chars [x, y] newstr 0 (d :: rest) := by
  by_cases h : c = x ∧ d = y
  · obtain ⟨rfl, rfl⟩ := h
    simp [pystring.replace_chars, List.isPrefixOf]
  · rw [if_neg h]
    have h2 : ¬ (x = c ∧ y = d) := fun h3 => h ⟨h3.1.symm, h3.2.symm⟩
    simp [pystring.replace_chars, List.isPrefixOf, h2]

theorem replace_chars_one (x y : Char) (newstr : List Char) (c : Char) :
    pystring.replace_chars [x, y] newstr 0 [c] = [c] := by
  simp [pystring.replace_chars, List.isPrefixOf]

theorem replace_starts_eq (n : Nat) :
    ∀ (l : List Char) (prev : Option Char), l.length ≤ n →
      (prev = some '/' → l.head? ≠ some '*') →
      pystring.replace_chars ['/', '*'] ['/', '_'] 0 l = mark_starts prev l := by
  induction n with
  | zero =>
    intro l prev hl _
    have : l = [] := List.length_eq_zero.mp (Nat.le_zero.mp hl)
    subst this; rfl
  | succ n ih =>
    intro l prev hl hprev
    match l, hl, hprev with
    | [], _, _ => rfl
    | [c], _, hprev =>
      rw [replace_chars_one]
      have : ¬ (c = '*' ∧ prev = some '/') := fun h => hprev h.2 (by simp [h.1])
      simp [mark_starts, this]
    | c :: d :: rest, hl, hprev =>
      have hc : ¬ (c = '*' ∧ prev = some '/') := fun h => hprev h.2 (by simp [h.1])
      rw [replace_chars_two]
      by_cases h : c = '/' ∧ d = '*'
      · obtain ⟨rfl, rfl⟩ := h
        have hlen : rest.length ≤ n := by simp at hl; omega
        rw [if_pos ⟨rfl, rfl⟩, ih rest (some '*') hlen (by simp)]
        simp [mark_starts]
      · have hlen : (d :: rest).length ≤ n := by simp at hl ⊢; omega
        rw [if_neg h, ih (d :: rest) (some c) hlen
          (by intro h1 h2; simp at h1 h2; exact h ⟨h1, h2⟩)]
        simp [mark_starts, hc]

theorem replace_ends_eq (n : Nat) :
    ∀ (l : List Char), l.length ≤ n →
      pystring.replace_chars ['*', '/'] ['_', '/'] 0 l = mark_ends l := by
  induction n with
  | zero =>
    intro l hl
    have : l = [] := List.length_eq_zero.mp (Nat.le_zero.mp hl)
    subst this; rfl
  | succ n ih =>
    intro l hl
    match l, hl with
    | [], _ => rfl
    | [c], _ =>
      rw [replace_chars_one]
      simp [mark_ends]
    | c :: d :: rest, hl =>
      rw [replace_chars_two]
      by_cases h : c = '*' ∧ d = '/'
      · obtain ⟨rfl, rfl⟩ := h
        have hlen : rest.length ≤ n := by simp at hl; omega
        rw [if_pos ⟨rfl, rfl⟩, ih rest hlen]
        simp [mark_ends]
      · have hlen : (d :: rest).length ≤ n := by simp at hl ⊢; omega
        rw [if_neg h, ih (d :: rest) hlen]
        simp [mark_ends, h]

theorem mark_starts_head (l : List Char) (prev : Option Char) :
    (mark_starts prev l).head? = some '/' ↔ l.head? = some '/' := by
  cases l with
  | nil => simp [mark_starts]
  | cons c rest =>
    simp only [mark_starts, List.head?_cons, Option.some.injEq]
    split_ifs with h
    · simp [h.1]
    · rfl

theorem mark_ends_starts (l : List Char) :
    ∀ (prev : Option Char), mark_ends (mark_starts prev l) = mark_tokens prev l := by
  induction l with
  | nil => intro prev; rfl
  | cons c rest ih =>
    intro prev
    simp only [mark_starts, mark_ends, mark_tokens, ih, mark_starts_head]
    congr 1
    by_cases h1 : c = '*'
    · by_cases h2 : prev = some '/'
      · simp [h1, h2]
      · simp [h1, h2]
    · simp [h1]

theorem replace_C_comment_tokens_data (s : String) :
    (util.replace_C_comment_tokens s).data = mark_tokens none s.data := by
  have h1 : ("/*" : String).data = ['/', '*'] := rfl
  have h2 : ("/_" : String).data = ['/', '_'] := rfl
  have h3 : ("*/" : String).data = ['*', '/'] := rfl
  have h4 : ("_/" : String).data = ['_', '/'] := rfl
  simp only [util.replace_C_comment_tokens, pystring.replace, h1, h2, h3, h4]
  simp only [List.cons_ne_nil, if_false]
  rw [replace_starts_eq s.data.length s.data none le_rfl (by simp),
    replace_ends_eq _ _ le_rfl, mark_ends_starts]

theorem mark_tokens_no_start (l : List Char) :
    ∀ (prev : Option Char) (xs ys : List Char),
      mark_tokens prev l ≠ xs ++ '/' :: '*' :: ys := by
  induction l with
  | nil => intro prev xs ys h; simp [mark_tokens] at h
  | cons c rest ih =>
    intro prev xs ys h
    cases xs with
    | nil =>
      simp only [mark_tokens, List.nil_append, List.cons.injEq] at h
      obtain ⟨h1, h2⟩ := h
      have hc : c = '/' := by
        split_ifs at h1 with hs
        · exact absurd h1 (by decide)
        · exact h1
      subst hc
      cases rest with
      | nil => simp [mark_tokens] at h2
      | cons d rest2 =>
        simp only [mark_tokens, List.cons.injEq] at h2
        obtain ⟨h3, _⟩ := h2
        split_ifs at h3 with hs
        · exact absurd h3 (by decide)
        · exact hs ⟨h3, by simp⟩
    | cons x xs2 =>
      simp only [mark_tokens, List.cons_append, List.cons.injEq] at h
      exact ih (some c) xs2 ys h.2

theorem mark_tokens_no_end (l : List Char) :
    ∀ (prev : Option Char) (xs ys : List Char),
      mark_tokens prev l ≠ xs ++ '*' :: '/' :: ys := by
  induction l with
  | nil => intro prev xs ys h; simp [mark_tokens] at h
  | cons c rest ih =>
    intro prev xs ys h
    cases xs with
    | nil =>
      simp only [mark_tokens, List.nil_append, List.cons.injEq] at h
      obtain ⟨h1, h2⟩ := h
      cases rest with
      | nil => simp [mark_tokens] at h2
      | cons d rest2 =>
        simp only [mark_tokens, List.cons.injEq] at h2
        obtain ⟨h3, _⟩ := h2
        have hd : d = '/' := by
          split_ifs at h3 with hs
          · exact absurd h3 (by decide)
          · exact h3
        subst hd
        split_ifs at h1 with hs
        · exact absurd h1 (by decide)
        · exact hs ⟨h1, Or.inr (by simp)⟩
    | cons x xs2 =>
      simp only [mark_tokens, List.cons_append, List.cons.injEq] at h
      exact ih (some c) xs2 ys h.2

theorem mark_tokens_length (l : List Char) :
    ∀ (prev : Option Char), (mark_tokens prev l).length = l.length := by
  induction l with
  | nil => intro prev; rfl
  | cons c rest ih => intro prev; simp [mark_tokens, ih]

theorem mark_tokens_getElem (l : List Char) :
    ∀ (prev : Option Char) (i : Nat) (c : Char), l[i]? = some c →
      (mark_tokens prev l)[i]? = some
        (if c = '*' ∧ ((if i = 0 then prev else l[i - 1]?) = some '/' ∨ l[i + 1]? = some '/')
          then '_' else c) := by
  induction l with
  | nil => intro prev i c h; simp at h
  | cons a rest ih =>
    intro prev i c h
    cases i with
    | zero =>
      simp only [List.getElem?_cons_zero, Option.some.injEq] at h
      subst h
      simp [mark_tokens, List.head?_eq_getElem?]
    | succ k =>
      simp only [List.getElem?_cons_succ] at h
      simp only [mark_tokens, List.getElem?_cons_succ, ih (some a) k c h]
      cases k with
      | zero => simp
      | succ m => simp

theorem mark_tokens_id (l : List Char) :
    ∀ (prev : Option Char), (prev = some '/' → l.head? ≠ some '*') →
      (∀ xs ys, l ≠ xs ++ '/' :: '*' :: ys) → (∀ xs ys, l ≠ xs ++ '*' :: '/' :: ys) →
      mark_tokens prev l = l := by
  induction l with
  | nil => intro prev _ _ _; rfl
  | cons c rest ih =>
    intro prev hprev hs he
    have hc : ¬ (c = '*' ∧ (prev = some '/' ∨ rest.head? = some '/')) := by
      rintro ⟨rfl, h | h⟩
      · exact hprev h (by simp)
      · cases rest with
        | nil => simp at h
        | cons d rest2 =>
          simp only [List.head?_cons, Option.some.injEq] at h
          subst h
          exact he [] rest2 rfl
    simp only [mark_tokens, hc, if_false]
    congr 1
    apply ih (some c)
    · intro h1 h2
      simp only [Option.some.injEq] at h1
      subst h1
      cases rest with
      | nil => simp at h2
      | cons d rest2 =>
        simp only [List.head?_cons, Option.some.injEq] at h2
        subst h2
        exact hs [] rest2 rfl
    · intro xs ys h; exact hs (c :: xs) ys (by simp [h])
    · intro xs ys h; exact he (c :: xs) ys (by simp [h])

theorem infix_two_iff (x y : Char) (l : List Char) :
    [x, y] <:+: l ↔ ∃ xs ys, l = xs ++ x :: y :: ys := by
  constructor
  · rintro ⟨xs, ys, h⟩
    exact ⟨xs, ys, by simp [← h]⟩
  · rintro ⟨xs, ys, h⟩
    exact ⟨xs, ys, by simp [h]⟩

/-- C7: for every string the result of `replace_C_comment_tokens` contains
neither `/*` nor `*/` as a substring; this covers the inputs in which the two
tokens overlap or touch. -/
theorem replace_C_comment_tokens_no_token (s : String) :
    ¬ ("/*" : String).data <:+: (util.replace_C_comment_tokens s).data ∧
    ¬ ("*/" : String).data <:+: (util.replace_C_comment_tokens s).data := by
  have h1 : ("/*" : String).data = ['/', '*'] := rfl
  have h2 : ("*/" : String).data = ['*', '/'] := rfl
  rw [h1, h2, replace_C_comment_tokens_data, infix_two_iff, infix_two_iff]
  constructor
  · rintro ⟨xs, ys, h⟩; exact mark_tokens_no_start _ _ _ _ h
  · rintro ⟨xs, ys, h⟩; exact mark_tokens_no_end _ _ _ _ h

/-- C8: for every string `s` the result of `replace_C_comment_tokens` has the
length of `s`; at a position where `s` holds a `*` that is part of a `/*` or a
`*/` token the result holds `_`, at every other position it holds the
character of `s`; and a string that contains neither token is returned
unchanged. -/
theorem replace_C_comment_tokens_pointwise (s : String) :
    (util.replace_C_comment_tokens s).length = s.length ∧
    (∀ (i : Nat) (c : Char), s.data[i]? = some c →
      (star_of_token s.data i → (util.replace_C_comment_tokens s).data[i]? = some '_') ∧
      (¬ star_of_token s.data i → (util.replace_C_comment_tokens s).data[i]? = some c)) ∧
    (¬ ("/*" : String).data <:+: s.data → ¬ ("*/" : String).data <:+: s.data →
      util.replace_C_comment_tokens s = s) := by
  have h1 : ("/*" : String).data = ['/', '*'] := rfl
  have h2 : ("*/" : String).data = ['*', '/'] := rfl
  refine ⟨?_, ?_, ?_⟩
  · show (util.replace_C_comment_tokens s).data.length = s.data.length
    rw [replace_C_comment_tokens_data, mark_tokens_length]
  · intro i c hc
    rw [replace_C_comment_tokens_data, mark_tokens_getElem s.data none i c hc]
    unfold star_of_token
    rw [hc]
    constructor
    · rintro ⟨hstar, h | h⟩
      · have hi : i ≠ 0 := by omega
        simp only [Option.some.injEq] at hstar
        simp [hstar, hi, h.2]
      · simp only [Option.some.injEq] at hstar
        simp [hstar, h]
    · intro hn
      have : ¬ (c = '*' ∧ ((if i = 0 then none else s.data[i - 1]?) = some '/' ∨
          s.data[i + 1]? = some '/')) := by
        rintro ⟨hstar, h | h⟩
        · apply hn
          refine ⟨by rw [hstar], Or.inl ?_⟩
          by_cases hi : i = 0
          · simp [hi] at h
          · simp only [hi, if_false] at h
            exact ⟨by omega, h⟩
        · exact hn ⟨by rw [hstar], Or.inr h⟩
      rw [if_neg this]
  · rw [h1, h2, infix_two_iff, infix_two_iff]
    intro hs he
    have : (util.replace_C_comment_tokens s).data = s.data := by
      rw [replace_C_comment_tokens_data]
      apply mark_tokens_id s.data none (by simp)
      · intro xs ys h; exact hs ⟨xs, ys, h⟩
      · intro xs ys h; exact he ⟨xs, ys, h⟩
    exact String.ext this

/-! ## The writer -/

namespace Generator

@[simp] theorem l_mod_prefix (text : String) (g : Generator) :
    (Generator.mod_prefix (l text g)) = g.mod_prefix := rfl

@[simp] theorem l_indentation (text : String) (g : Generator) :
    (l text g).indentation = g.indentation := rfl

@[simp] theorem l_log (text : String) (g : Generator) :
    (l text g).log = g.log ++ [Event.l text] := rfl

@[simp] theorem l_content (text : String) (g : Generator) :
    (l text g).content = g.content ++ (g.indentation ++ text) := rfl

@[simp] theorem indent_mod_prefix (g : Generator) : (Generator.mod_prefix (indent g)) = g.mod_prefix := rfl

@[simp] theorem indent_log (g : Generator) : (indent g).log = g.log := rfl

@[simp] theorem dedent_mod_prefix (g : Generator) : (Generator.mod_prefix (dedent g)) = g.mod_prefix := rfl

@[simp] theorem dedent_log (g : Generator) : (dedent g).log = g.log := rfl

@[simp] theorem cbl_mod_prefix (B : Backend) (text : String) (g : Generator) :
    (Generator.mod_prefix (cbl B text g)) = g.mod_prefix := rfl

@[simp] theorem cbl_log (B : Backend) (text : String) (g : Generator) :
    (cbl B text g).log = g.log ++ [Event.cbl text] := rfl

@[simp] theorem cbl_start_mod_prefix (B : Backend) (g : Generator) :
    (Generator.mod_prefix (cbl_start B g)) = g.mod_prefix := by
  simp [cbl_start, l_open]

@[simp] theorem cbl_start_log (B : Backend) (g : Generator) :
    (cbl_start B g).log = g.log ++ [Event.l ((B g.mod_prefix).comment_block_start ++ "\n")] := by
  simp [cbl_start, l_open]

@[simp] theorem cbl_end_mod_prefix (B : Backend) (g : Generator) :
    (Generator.mod_prefix (cbl_end B g)) = g.mod_prefix := by
  simp [cbl_end, l_close]

@[simp] theorem cbl_end_log (B : Backend) (g : Generator) :
    (cbl_end B g).log = g.log ++ [Event.l ((B g.mod_prefix).comment_block_end ++ "\n")] := by
  simp [cbl_end, l_close]

@[simp] theorem enter_mod_prefix (p : Phase) (g : Generator) :
    (Generator.mod_prefix (enter p g)) = g.mod_prefix := rfl

@[simp] theorem enter_log (p : Phase) (g : Generator) :
    (enter p g).log = g.log ++ [Event.phase p] := rfl

@[simp] theorem call_hook_log (B : Backend) (gen : GenInput) (h : Hook) (g : Generator) :
    (call_hook B gen h g).log = g.log ++ [Event.hook h] := rfl

theorem write_mod_prefix (B : Backend) (c : WriterCall) (g : Generator) :
    (Generator.mod_prefix (write B c g)) = g.mod_prefix := by
  cases c <;>
    simp [write, reset_indent, l_open, l_close, cbl_start, cbl_open, cbl_close_text,
      cbl_close, cbl_end]

theorem write_all_mod_prefix (B : Backend) (cs : List WriterCall) :
    ∀ (g : Generator), (Generator.mod_prefix (cs.foldl (fun g c => write B c g) g)) = g.mod_prefix := by
  induction cs with
  | nil => intro g; rfl
  | cons c cs ih => intro g; rw [List.foldl_cons, ih, write_mod_prefix]

@[simp] theorem call_hook_mod_prefix (B : Backend) (gen : GenInput) (h : Hook)
    (g : Generator) : (Generator.mod_prefix (call_hook B gen h g)) = g.mod_prefix := by
  unfold call_hook
  exact write_all_mod_prefix B _ g

end Generator

theorem written_append (indentation : String) (xs ys : List String) :
    written indentation (xs ++ ys) = written indentation xs ++ written indentation ys := by
  induction xs with
  | nil => simp [written]
  | cons x xs ih =>
    simp only [written, List.cons_append, List.foldr_cons] at ih ⊢
    rw [ih, String.append_assoc, String.append_assoc, String.append_assoc]

/-! ## Vertex attribute constants -/

theorem gen_vertex_attr_consts_attrs (hooks : Hooks) (name : String) (attrs : List StageAttr) :
    ∀ (g : Generator),
      let g' := attrs.foldl (fun g attr =>
        if attr.slot ≥ 0 then
          Generator.l (hooks.vertex_attr_definition name attr ++ "\n") g
        else g) g
      let lines := (attrs.filter (fun attr => decide (attr.slot ≥ 0))).map (fun attr =>
        hooks.vertex_attr_definition name attr ++ "\n")
      g'.mod_prefix = g.mod_prefix ∧ g'.indentation = g.indentation ∧
      g'.log = g.log ++ lines.map Event.l ∧
      g'.content = g.content ++ written g.indentation lines := by
  induction attrs with
  | nil => intro g; simp [written]
  | cons attr attrs ih =>
    intro g
    simp only [List.foldl_cons]
    by_cases h : attr.slot ≥ 0
    · obtain ⟨h1, h2, h3, h4⟩ := ih (Generator.l (hooks.vertex_attr_definition name attr ++ "\n") g)
      simp only [h, if_true, List.filter_cons, decide_True, List.map_cons]
      refine ⟨h1, h2, ?_, ?_⟩
      · rw [h3]; simp
      · rw [h4]; simp [written, String.append_assoc]
    · obtain ⟨h1, h2, h3, h4⟩ := ih g
      simp only [h, if_false, List.filter_cons, decide_False]
      exact ⟨h1, h2, h3, h4⟩

theorem gen_vertex_attr_consts_progs (B : Backend) (progs : List ProgramReflection) :
    ∀ (g : Generator),
      let g' := progs.foldl (fun g prog_refl =>
        prog_refl.vs.inputs.foldl (fun g attr =>
          if attr.slot ≥ 0 then
            Generator.l ((B g.mod_prefix).vertex_attr_definition prog_refl.vs_name attr
              ++ "\n") g
          else g) g) g
      let lines := progs.flatMap (fun prog =>
        (prog.vs.inputs.filter (fun attr => decide (attr.slot ≥ 0))).map (fun attr =>
          (B g.mod_prefix).vertex_attr_definition prog.vs_name attr ++ "\n"))
      g'.mod_prefix = g.mod_prefix ∧ g'.indentation = g.indentation ∧
      g'.log = g.log ++ lines.map Event.l ∧
      g'.content = g.content ++ written g.indentation lines := by
  induction progs with
  | nil => intro g; simp [written]
  | cons prog progs ih =>
    intro g
    simp only [List.foldl_cons, List.flatMap_cons]
    have hinner : ∀ (attrs : List StageAttr) (g0 : Generator),
        attrs.foldl (fun g attr =>
          if attr.slot ≥ 0 then
            Generator.l ((B g.mod_prefix).vertex_attr_definition prog.vs_name attr ++ "\n") g
          else g) g0 =
        attrs.foldl (fun g attr =>
          if attr.slot ≥ 0 then
            Generator.l ((B g0.mod_prefix).vertex_attr_definition prog.vs_name attr ++ "\n") g
          else g) g0 := by
      intro attrs
      induction attrs with
      | nil => intro g0; rfl
      | cons a attrs iha =>
        intro g0
        simp only [List.foldl_cons]
        by_cases ha : a.slot ≥ 0
        · simp only [ha, if_true]
          rw [iha]
          simp
        · simp only [ha, if_false]
          exact iha g0
    rw [hinner]
    obtain ⟨a1, a2, a3, a4⟩ :=
      gen_vertex_attr_consts_attrs (B g.mod_prefix) prog.vs_name prog.vs.inputs g
    obtain ⟨b1, b2, b3, b4⟩ := ih (prog.vs.inputs.foldl (fun g0 attr =>
      if attr.slot ≥ 0 then
        Generator.l ((B g.mod_prefix).vertex_attr_definition prog.vs_name attr ++ "\n") g0
      else g0) g)
    refine ⟨by rw [b1, a1], by rw [b2, a2], ?_, ?_⟩
    · rw [b3, a3, a1]; simp
    · rw [b4, a4, a1, a2, written_append, String.append_assoc]

/-- C9: the default `gen_vertex_attr_consts` hands to `l`, and so appends to
the buffer, exactly one line (the result of `vertex_attr_definition` and a
line feed) for every vertex attribute with a slot `>= 0`, in program order and
then attribute order, and nothing for an attribute with a negative slot; the
number of lines is the number of attributes with slot `>= 0` summed over the
programs. -/
theorem gen_vertex_attr_consts_lines (B : Backend) (gen : GenInput) (g : Generator) :
    (Generator.gen_vertex_attr_consts B gen g).log =
      g.log ++ (vertex_attr_lines (B g.mod_prefix) gen.refl).map Event.l ∧
    (Generator.gen_vertex_attr_consts B gen g).content =
      g.content ++ written g.indentation (vertex_attr_lines (B g.mod_prefix) gen.refl) ∧
    (vertex_attr_lines (B g.mod_prefix) gen.refl).length =
      (gen.refl.progs.map (fun prog =>
        prog.vs.inputs.countP (fun attr => decide (attr.slot ≥ 0)))).sum := by
  obtain ⟨_, _, h3, h4⟩ := gen_vertex_attr_consts_progs B gen.refl.progs g
  refine ⟨h3, h4, ?_⟩
  unfold vertex_attr_lines
  rw [List.length_flatMap]
  congr 1
  apply List.map_congr_left
  intro prog _
  simp [List.countP_eq_length_filter]

/-! ## Shader arrays -/

theorem find_source_from_found (idx : Int) :
    ∀ (l : List SpirvcrossSource) (k : Nat), (∃ s ∈ l, s.snippet_index = idx) →
      ∃ (j : Nat) (src : SpirvcrossSource),
        Spirvcross.find_source_from idx l k = ((k + j : Nat) : Int) ∧ l[j]? = some src ∧
        l.find? (fun s => decide (s.snippet_index = idx)) = some src
  | [], _, h => by simp at h
  | s :: rest, k, h => by
    unfold Spirvcross.find_source_from
    by_cases hs : s.snippet_index = idx
    · exact ⟨0, s, by simp [hs], by simp, by simp [hs]⟩
    · have h2 : ∃ s ∈ rest, s.snippet_index = idx := by
        obtain ⟨t, ht, hti⟩ := h
        rcases List.mem_cons.mp ht with rfl | ht
        · exact absurd hti hs
        · exact ⟨t, ht, hti⟩
      obtain ⟨j, src, h3, h4, h5⟩ := find_source_from_found idx rest (k + 1) h2
      refine ⟨j + 1, src, ?_, by simpa using h4, by simp [hs, h5]⟩
      rw [if_neg hs, h3]
      congr 1
      omega

theorem find_blob_from_spec (idx : Int) :
    ∀ (l : List BytecodeBlob) (k : Nat),
      (Bytecode.find_blob_from idx l k = -1 ∧
        l.find? (fun b => decide (b.snippet_index = idx)) = none) ∨
      ∃ (j : Nat) (blob : BytecodeBlob),
        Bytecode.find_blob_from idx l k = ((k + j : Nat) : Int) ∧ l[j]? = some blob ∧
        l.find? (fun b => decide (b.snippet_index = idx)) = some blob
  | [], _ => Or.inl ⟨rfl, rfl⟩
  | b :: rest, k => by
    unfold Bytecode.find_blob_from
    by_cases hb : b.snippet_index = idx
    · exact Or.inr ⟨0, b, by simp [hb], by simp, by simp [hb]⟩
    · rcases find_blob_from_spec idx rest (k + 1) with ⟨h1, h2⟩ | ⟨j, blob, h3, h4, h5⟩
      · exact Or.inl ⟨by rw [if_neg hb, h1], by simp [hb, h2]⟩
      · refine Or.inr ⟨j + 1, blob, ?_, by simpa using h4, by simp [hb, h5]⟩
        rw [if_neg hb, h3]
        congr 1
        omega

theorem at_index_natCast {α : Type} (v : List α) (j : Nat) : at_index v (j : Int) = v[j]? := by
  simp [at_index]

theorem value_text_ne_layout (v : String) : ¬ (v ++ "," = "    " ∨ v ++ "," = "\n") := by
  rintro (h | h)
  · have := congrArg (fun s : String => s.data.getLast?) h
    simp at this
  · have := congrArg (fun s : String => s.data.getLast?) h
    simp at this

/-- The calls that one pass of the value loop records. -/
theorem array_loop_body_log (value : Nat → String) (g : Generator) (i : Nat) :
    (Generator.mod_prefix (Generator.array_loop_body value g i)) = g.mod_prefix ∧
    ∃ evs, (Generator.array_loop_body value g i).log = g.log ++ evs ∧
      ∀ p rest, payload_arrays_from (some p) (evs ++ rest) =
        payload_arrays_from (some { p with values := p.values ++ [value i ++ ","] }) rest := by
  unfold Generator.array_loop_body
  have hv := value_text_ne_layout (value i)
  by_cases h0 : i &&& 15 = 0 <;> by_cases h15 : i &&& 15 = 15
  · omega
  · simp only [h0, h15, if_true, if_false]
    refine ⟨rfl, [Event.l "    ", Event.l (value i ++ ",")], by simp, ?_⟩
    intro p rest
    simp [payload_arrays_from, hv]
  · simp only [h0, h15, if_true, if_false]
    refine ⟨rfl, [Event.l (value i ++ ","), Event.l "\n"], by simp, ?_⟩
    intro p rest
    simp [payload_arrays_from, hv]
  · simp only [h0, h15, if_false]
    refine ⟨rfl, [Event.l (value i ++ ",")], by simp, ?_⟩
    intro p rest
    simp [payload_arrays_from, hv]

theorem array_loop_fold_log (value : Nat → String) :
    ∀ (is : List Nat) (g : Generator),
      (Generator.mod_prefix (is.foldl (Generator.array_loop_body value) g)) = g.mod_prefix ∧
      ∃ evs, (is.foldl (Generator.array_loop_body value) g).log = g.log ++ evs ∧
        ∀ p rest, payload_arrays_from (some p) (evs ++ rest) =
          payload_arrays_from
            (some { p with values := p.values ++ is.map (fun i => value i ++ ",") }) rest := by
  intro is
  induction is with
  | nil => intro g; exact ⟨rfl, [], by simp, by intro p rest; simp⟩
  | cons i is ih =>
    intro g
    obtain ⟨h1, evs1, h2, h3⟩ := array_loop_body_log value g i
    obtain ⟨h4, evs2, h5, h6⟩ := ih (Generator.array_loop_body value g i)
    refine ⟨by rw [List.foldl_cons, h4, h1], evs1 ++ evs2, ?_, ?_⟩
    · rw [List.foldl_cons, h5, h2, List.append_assoc]
    · intro p rest
      rw [List.append_assoc, h3, h6]
      simp

theorem array_loop_log (value : Nat → String) (len : Nat) (g : Generator) :
    (Generator.mod_prefix (Generator.array_loop value len g)) = g.mod_prefix ∧
    ∃ evs, (Generator.array_loop value len g).log = g.log ++ evs ∧
      ∀ p rest, payload_arrays_from (some p) (evs ++ rest) =
        payload_arrays_from
          (some { p with values := p.values ++ (List.range len).map (fun i => value i ++ ",") })
          rest :=
  array_loop_fold_log value (List.range len) g

theorem map_range_getD {α β : Type} (f : α → β) (d : α) :
    ∀ (l : List α), (List.range l.length).map (fun i => f (l.getD i d)) = l.map f := by
  intro l
  apply List.ext_getElem
  · simp
  · intro i h1 h2
    simp at h1 h2
    simp [h1]

theorem byte_values_eq (data : List (Fin 256)) :
    (List.range data.length).map (fun i => toString (data.getD i 0).val ++ ",") =
      byte_texts data :=
  map_range_getD (fun b : Fin 256 => toString b.val ++ ",") 0 data

theorem getD_append_default {α : Type} (l : List α) (z : α) (i : Nat) :
    (l ++ [z]).getD i z = l.getD i z := by
  simp only [List.getD_eq_getElem?_getD]
  by_cases h : i < l.length
  · rw [List.getElem?_append_left h]
  · have h1 : l[i]? = none := List.getElem?_eq_none (by omega)
    rw [h1, List.getElem?_append_right (by omega)]
    cases hk : i - l.length with
    | zero => simp
    | succ k => simp

theorem source_values_eq (env : Env) (source_code : String) :
    (List.range (source_code.length + 1)).map
      (fun i => toString (Generator.char_to_int env (Generator.string_at source_code i)) ++ ",") =
      source_texts env source_code := by
  have h := map_range_getD (fun c : Char => toString (Generator.char_to_int env c) ++ ",")
    (Char.ofNat 0) (source_code.data ++ [Char.ofNat 0])
  unfold source_texts
  rw [← h]
  have hlen : (source_code.data ++ [Char.ofNat 0]).length = source_code.length + 1 := by
    rw [List.length_append]; rfl
  rw [hlen]
  apply List.map_congr_left
  intro i _
  unfold Generator.string_at
  rw [getD_append_default]

theorem payload_arrays_from_start (name : String) (n : Nat) (slang : Slang.Enum)
    (rest : List Event) :
    payload_arrays_from none (Event.hook (Hook.gen_shader_array_start name n slang) :: rest) =
      payload_arrays_from (some ⟨name, n, slang, []⟩) rest := by
  simp [payload_arrays_from]

theorem payload_arrays_from_end (p : PayloadArray) (rest : List Event) :
    payload_arrays_from (some p) (Event.hook Hook.gen_shader_array_end :: rest) =
      (payload_arrays_from none rest).map (fun ps => p :: ps) := by
  simp [payload_arrays_from]

/-- The events are texts handed to the writers: no hook and no phase. -/
theorem payload_arrays_skip_texts :
    ∀ (evs : List Event), (∀ e ∈ evs, (∃ t, e = Event.l t) ∨ (∃ t, e = Event.cbl t)) →
      ∀ rest, payload_arrays_from none (evs ++ rest) = payload_arrays_from none rest
  | [], _, _ => rfl
  | e :: evs, h, rest => by
    have ih := payload_arrays_skip_texts evs (fun e he => h e (List.mem_cons_of_mem _ he)) rest
    rcases h e (List.mem_cons_self _ _) with ⟨t, rfl⟩ | ⟨t, rfl⟩
    · simp [payload_arrays_from, ih]
    · simp [payload_arrays_from, ih]

theorem cbl_lines_log (B : Backend) (f : String → String) :
    ∀ (lines : List String) (g : Generator),
      (Generator.mod_prefix (lines.foldl (fun g line => Generator.cbl B (f line) g) g)) = g.mod_prefix ∧
      (lines.foldl (fun g line => Generator.cbl B (f line) g) g).log =
        g.log ++ lines.map (fun line => Event.cbl (f line)) := by
  intro lines
  induction lines with
  | nil => intro g; simp
  | cons line lines ih =>
    intro g
    obtain ⟨h1, h2⟩ := ih (Generator.cbl B (f line) g)
    exact ⟨by rw [List.foldl_cons, h1]; rfl, by rw [List.foldl_cons, h2]; simp⟩

theorem comment_block_log (B : Backend) (f : String → String) (lines : List String)
    (g : Generator) :
    (Generator.mod_prefix (Generator.cbl_end B (lines.foldl (fun g line => Generator.cbl B (f line) g)
      (Generator.cbl_start B g)))) = g.mod_prefix ∧
    ∃ evs, (Generator.cbl_end B (lines.foldl (fun g line => Generator.cbl B (f line) g)
        (Generator.cbl_start B g))).log = g.log ++ evs ∧
      ∀ e ∈ evs, (∃ t, e = Event.l t) ∨ (∃ t, e = Event.cbl t) := by
  obtain ⟨h1, h2⟩ := cbl_lines_log B f lines (Generator.cbl_start B g)
  refine ⟨?_, ?_⟩
  · rw [Generator.cbl_end_mod_prefix, h1, Generator.cbl_start_mod_prefix]
  · refine ⟨[Event.l ((B g.mod_prefix).comment_block_start ++ "\n")]
      ++ lines.map (fun line => Event.cbl (f line))
      ++ [Event.l ((B g.mod_prefix).comment_block_end ++ "\n")], ?_, ?_⟩
    · rw [Generator.cbl_end_log, h2, h1, Generator.cbl_start_log,
        Generator.cbl_start_mod_prefix]
      simp
    · intro e he
      simp only [List.mem_append, List.mem_singleton, List.mem_map] at he
      rcases he with (rfl | ⟨line, _, rfl⟩) | rfl
      · exact Or.inl ⟨_, rfl⟩
      · exact Or.inr ⟨_, rfl⟩
      · exact Or.inl ⟨_, rfl⟩

theorem gen_shader_arrays_body_other (env : Env) (B : Backend) (gen : GenInput)
    (slang : Slang.Enum) (k : Nat) (snippet : Snippet) (g : Generator)
    (h : is_shader snippet = false) :
    Generator.gen_shader_arrays_body env B gen slang k snippet g = some g := by
  unfold is_shader at h
  simp only [decide_eq_false_iff_not, not_or] at h
  unfold Generator.gen_shader_arrays_body
  simp [h.1, h.2]

theorem gen_shader_arrays_body_spec (env : Env) (B : Backend) (gen : GenInput)
    (slang : Slang.Enum) (k : Nat) (snippet : Snippet) (g : Generator)
    (hsh : is_shader snippet = true) (hsrc : has_source gen slang (k : Int)) :
    ∃ g', Generator.gen_shader_arrays_body env B gen slang k snippet g = some g' ∧
      g'.mod_prefix = g.mod_prefix ∧
      ∃ evs, g'.log = g.log ++ evs ∧
        ∀ rest, payload_arrays_from none (evs ++ rest) =
          (payload_arrays_from none rest).map
            (fun ps => payload_of env (B g.mod_prefix) gen (slang, k, snippet) :: ps) := by
  unfold is_shader at hsh
  have hsh2 : ¬ (snippet.type ≠ SnippetType.VS ∧ snippet.type ≠ SnippetType.FS) := by
    have := of_decide_eq_true hsh
    tauto
  obtain ⟨j, src, hj, hget, hfind⟩ := find_source_from_found (k : Int) _ 0 hsrc
  have hidx : (gen.spirvcross slang).find_source_by_snippet_index (k : Int) = (j : Int) := by
    unfold Spirvcross.find_source_by_snippet_index; rw [hj]; simp
  have hnn : ¬ ((j : Int) < 0) := by omega
  obtain ⟨hcm, cevs, hclog, hquiet⟩ := comment_block_log B
    (fun line => util.replace_C_comment_tokens line ++ "\n")
    (pystring.splitlines src.source_code) g
  have hskip := payload_arrays_skip_texts cevs hquiet
  unfold Generator.gen_shader_arrays_body
  simp only [hsh2, if_false, hidx, hnn, at_index_natCast, hget]
  rcases find_blob_from_spec (k : Int) (gen.bytecode slang).blobs 0 with
    ⟨hb1, hb2⟩ | ⟨jb, blob, hb1, hb2, hb3⟩
  · have hbi : (gen.bytecode slang).find_blob_by_snippet_index (k : Int) = -1 := hb1
    simp only [hbi, ne_eq, not_true_eq_false, if_false]
    obtain ⟨hlm, levs, hllog, hlscan⟩ := array_loop_log
      (fun i => toString (Generator.char_to_int env (Generator.string_at src.source_code i)))
      (src.source_code.length + 1)
      (Generator.call_hook B gen (Hook.gen_shader_array_start
        ((B g.mod_prefix).shader_source_array_name snippet.name slang)
        (src.source_code.length + 1) slang)
        (Generator.cbl_end B ((pystring.splitlines src.source_code).foldl
          (fun g line => Generator.cbl B (util.replace_C_comment_tokens line ++ "\n") g)
          (Generator.cbl_start B g))))
    rw [hcm]
    refine ⟨_, rfl, ?_, cevs ++ [Event.hook (Hook.gen_shader_array_start
        ((B g.mod_prefix).shader_source_array_name snippet.name slang)
        (src.source_code.length + 1) slang)] ++ levs ++ [Event.hook Hook.gen_shader_array_end],
      ?_, ?_⟩
    · rw [Generator.call_hook_mod_prefix, hlm, Generator.call_hook_mod_prefix, hcm]
    · rw [Generator.call_hook_log, hllog, Generator.call_hook_log, hclog]
      simp
    · intro rest
      have hpay : payload_of env (B g.mod_prefix) gen (slang, k, snippet) =
          ⟨(B g.mod_prefix).shader_source_array_name snippet.name slang,
            src.source_code.length + 1, slang, source_texts env src.source_code⟩ := by
        unfold payload_of blob_of source_of
        simp only [hb2, hfind]
      rw [hpay]
      simp only [List.append_assoc]
      rw [hskip]
      simp only [List.singleton_append]
      rw [payload_arrays_from_start, hlscan, payload_arrays_from_end]
      simp only [List.nil_append, source_values_eq]
  · have hbi : (gen.bytecode slang).find_blob_by_snippet_index (k : Int) = (jb : Int) := by
      unfold Bytecode.find_blob_by_snippet_index; rw [hb1]; simp
    have hne : ((jb : Int) ≠ -1) := by omega
    simp only [hbi, hne, ne_eq, not_false_eq_true, if_true, at_index_natCast, hb2]
    obtain ⟨hlm, levs, hllog, hlscan⟩ := array_loop_log
      (fun i => toString (blob.data.getD i 0).val)
      blob.data.length
      (Generator.call_hook B gen (Hook.gen_shader_array_start
        ((B g.mod_prefix).shader_bytecode_array_name snippet.name slang)
        blob.data.length slang)
        (Generator.cbl_end B ((pystring.splitlines src.source_code).foldl
          (fun g line => Generator.cbl B (util.replace_C_comment_tokens line ++ "\n") g)
          (Generator.cbl_start B g))))
    rw [hcm]
    refine ⟨_, rfl, ?_, cevs ++ [Event.hook (Hook.gen_shader_array_start
        ((B g.mod_prefix).shader_bytecode_array_name snippet.name slang)
        blob.data.length slang)] ++ levs ++ [Event.hook Hook.gen_shader_array_end],
      ?_, ?_⟩
    · rw [Generator.call_hook_mod_prefix, hlm, Generator.call_hook_mod_prefix, hcm]
    · rw [Generator.call_hook_log, hllog, Generator.call_hook_log, hclog]
      simp
    · intro rest
      have hpay : payload_of env (B g.mod_prefix) gen (slang, k, snippet) =
          ⟨(B g.mod_prefix).shader_bytecode_array_name snippet.name slang,
            blob.data.length, slang, byte_texts blob.data⟩ := by
        unfold payload_of blob_of
        simp only [hb3]
      rw [hpay]
      simp only [List.append_assoc]
      rw [hskip]
      simp only [List.singleton_append]
      rw [payload_arrays_from_start, hlscan, payload_arrays_from_end]
      simp only [List.nil_append, byte_values_eq]

theorem gen_shader_arrays_snippets_spec (env : Env) (B : Backend) (gen : GenInput)
    (slang : Slang.Enum) :
    ∀ (snippets : List Snippet) (k : Nat) (g : Generator),
      (∀ p ∈ (snippets.enumFrom k).filter (fun p => is_shader p.2),
        has_source gen slang (p.1 : Int)) →
      ∃ g', Generator.gen_shader_arrays_snippets env B gen slang snippets k g = some g' ∧
        g'.mod_prefix = g.mod_prefix ∧
        ∃ evs, g'.log = g.log ++ evs ∧
          ∀ rest, payload_arrays_from none (evs ++ rest) =
            (payload_arrays_from none rest).map (fun ps =>
              ((snippets.enumFrom k).filter (fun p => is_shader p.2)).map
                (fun p => payload_of env (B g.mod_prefix) gen (slang, p.1, p.2)) ++ ps) := by
  intro snippets
  induction snippets with
  | nil =>
    intro k g _
    refine ⟨g, rfl, rfl, [], by simp, ?_⟩
    intro rest
    simp
  | cons sn sns ih =>
    intro k g h
    unfold Generator.gen_shader_arrays_snippets
    by_cases hsh : is_shader sn = true
    · have hsrc : has_source gen slang (k : Int) :=
        h (k, sn) (by simp [List.enumFrom_cons, List.filter_cons, hsh])
      obtain ⟨g1, hb, hm1, evs1, hl1, hs1⟩ :=
        gen_shader_arrays_body_spec env B gen slang k sn g hsh hsrc
      obtain ⟨g2, hr, hm2, evs2, hl2, hs2⟩ := ih (k + 1) g1 (fun p hp =>
        h p (by
          simp only [List.enumFrom_cons, List.filter_cons, hsh, if_true]
          exact List.mem_cons_of_mem _ hp))
      rw [hb]
      refine ⟨g2, hr, by rw [hm2, hm1], evs1 ++ evs2, by rw [hl2, hl1, List.append_assoc], ?_⟩
      intro rest
      rw [List.append_assoc, hs1, hs2, hm1]
      simp only [List.enumFrom_cons, List.filter_cons, hsh, if_true, List.map_cons,
        Option.map_map]
      rfl
    · have hsh2 : is_shader sn = false := by simpa using hsh
      obtain ⟨g2, hr, hm2, evs2, hl2, hs2⟩ := ih (k + 1) g (fun p hp =>
        h p (by
          simp only [List.enumFrom_cons, List.filter_cons, hsh2]
          exact hp))
      rw [gen_shader_arrays_body_other env B gen slang k sn g hsh2]
      refine ⟨g2, hr, hm2, evs2, hl2, ?_⟩
      intro rest
      rw [hs2]
      simp [List.enumFrom_cons, List.filter_cons, hsh2]

theorem gen_shader_arrays_slangs_spec (env : Env) (B : Backend) (gen : GenInput) :
    ∀ (is : List Nat) (g : Generator),
      (∀ i ∈ is.filter (fun i => gen.slang_selected i), ∀ p ∈ shader_snippets gen.inp,
        has_source gen i (p.1 : Int)) →
      ∃ g', Generator.gen_shader_arrays_slangs env B gen is g = some g' ∧
        g'.mod_prefix = g.mod_prefix ∧
        ∃ evs, g'.log = g.log ++ evs ∧
          ∀ rest, payload_arrays_from none (evs ++ rest) =
            (payload_arrays_from none rest).map (fun ps =>
              ((is.filter (fun i => gen.slang_selected i)).flatMap (fun i =>
                (shader_snippets gen.inp).map
                  (fun p => payload_of env (B g.mod_prefix) gen (i, p.1, p.2)))) ++ ps) := by
  intro is
  induction is with
  | nil =>
    intro g _
    refine ⟨g, rfl, rfl, [], by simp, ?_⟩
    intro rest
    simp
  | cons i is ih =>
    intro g h
    unfold Generator.gen_shader_arrays_slangs
    by_cases hsel : gen.slang_selected i = true
    · obtain ⟨g1, hb, hm1, evs1, hl1, hs1⟩ :=
        gen_shader_arrays_snippets_spec env B gen i gen.inp.snippets 0 g (fun p hp =>
          h i (by simp [List.filter_cons, hsel]) p hp)
      obtain ⟨g2, hr, hm2, evs2, hl2, hs2⟩ := ih g1 (fun j hj =>
        h j (by
          simp only [List.filter_cons, hsel, if_true]
          exact List.mem_cons_of_mem _ hj))
      simp only [Slang.from_index, hsel, if_true, hb]
      refine ⟨g2, hr, by rw [hm2, hm1], evs1 ++ evs2, by rw [hl2, hl1, List.append_assoc], ?_⟩
      intro rest
      rw [List.append_assoc, hs1, hs2, hm1]
      simp only [List.filter_cons, hsel, if_true, List.flatMap_cons, Option.map_map,
        shader_snippets, List.enum]
      congr 1
      funext ps
      simp
    · have hsel2 : gen.slang_selected i = false := by simpa using hsel
      obtain ⟨g2, hr, hm2, evs2, hl2, hs2⟩ := ih g (fun j hj =>
        h j (by
          simp only [List.filter_cons, hsel2]
          exact hj))
      simp only [Slang.from_index, hsel2]
      refine ⟨g2, hr, hm2, evs2, hl2, ?_⟩
      intro rest
      rw [hs2]
      simp [List.filter_cons, hsel2]

/-- The record of calls of `gen_shader_arrays`: under the precondition that
the function asserts, it returns, and the payload arrays of the calls it has
recorded are those of the pairs of a selected target and a vertex or fragment
snippet, one for each pair and in the order of the pairs. -/
theorem gen_shader_arrays_spec (env : Env) (B : Backend) (gen : GenInput) (g : Generator)
    (h : all_shaders_have_source gen) :
    ∃ g', Generator.gen_shader_arrays env B gen g = some g' ∧
      g'.mod_prefix = g.mod_prefix ∧
      ∃ evs, g'.log = g.log ++ evs ∧
        payload_arrays evs =
          some ((payload_pairs gen).map (payload_of env (B g.mod_prefix) gen)) := by
  obtain ⟨g', h1, h2, evs, h3, h4⟩ :=
    gen_shader_arrays_slangs_spec env B gen (List.range Slang.Num) g (fun i hi p hp =>
      h (i, p.1, p.2) (by
        unfold payload_pairs selected_slangs
        exact List.mem_flatMap.mpr ⟨i, hi, List.mem_map.mpr ⟨p, hp, rfl⟩⟩))
  refine ⟨g', h1, h2, evs, h3, ?_⟩
  have h5 := h4 []
  rw [List.append_nil] at h5
  unfold payload_arrays
  rw [h5]
  simp only [payload_arrays_from, Option.map_some', List.append_nil, payload_pairs,
    selected_slangs, List.map_flatMap, List.map_map]
  rfl

theorem gen_shader_arrays_body_none (env : Env) (B : Backend) (gen : GenInput)
    (slang : Slang.Enum) (k : Nat) (snippet : Snippet) (g : Generator)
    (hsh : is_shader snippet = true) (hsrc : ¬ has_source gen slang (k : Int)) :
    Generator.gen_shader_arrays_body env B gen slang k snippet g = none := by
  unfold is_shader at hsh
  have hsh2 : ¬ (snippet.type ≠ SnippetType.VS ∧ snippet.type ≠ SnippetType.FS) := by
    have := of_decide_eq_true hsh
    tauto
  have hneg := (find_source_neg_iff gen slang (k : Int)).mpr hsrc
  unfold Generator.gen_shader_arrays_body
  simp only [hsh2, if_false, hneg, if_true]

theorem gen_shader_arrays_snippets_none (env : Env) (B : Backend) (gen : GenInput)
    (slang : Slang.Enum) :
    ∀ (snippets : List Snippet) (k : Nat) (g : Generator),
      (∃ p ∈ (snippets.enumFrom k).filter (fun p => is_shader p.2),
        ¬ has_source gen slang (p.1 : Int)) →
      Generator.gen_shader_arrays_snippets env B gen slang snippets k g = none := by
  intro snippets
  induction snippets with
  | nil => intro k g h; simp at h
  | cons sn sns ih =>
    intro k g h
    obtain ⟨p, hp, hno⟩ := h
    unfold Generator.gen_shader_arrays_snippets
    cases hb : Generator.gen_shader_arrays_body env B gen slang k sn g with
    | none => rfl
    | some g1 =>
      simp only []
      apply ih (k + 1) g1
      rw [List.enumFrom_cons, List.filter_cons] at hp
      by_cases hsh : is_shader sn = true
      · simp only [hsh, if_true] at hp
        rcases List.mem_cons.mp hp with rfl | hp
        · rw [gen_shader_arrays_body_none env B gen slang k sn g hsh hno] at hb
          exact absurd hb (by simp)
        · exact ⟨p, hp, hno⟩
      · simp only [hsh, if_false] at hp
        exact ⟨p, hp, hno⟩

theorem gen_shader_arrays_slangs_none (env : Env) (B : Backend) (gen : GenInput) :
    ∀ (is : List Nat) (g : Generator),
      (∃ i ∈ is.filter (fun i => gen.slang_selected i), ∃ p ∈ shader_snippets gen.inp,
        ¬ has_source gen i (p.1 : Int)) →
      Generator.gen_shader_arrays_slangs env B gen is g = none := by
  intro is
  induction is with
  | nil => intro g h; simp at h
  | cons i is ih =>
    intro g h
    obtain ⟨j, hj, p, hp, hno⟩ := h
    unfold Generator.gen_shader_arrays_slangs
    rw [List.filter_cons] at hj
    by_cases hsel : gen.slang_selected i = true
    · simp only [hsel, if_true] at hj
      simp only [Slang.from_index, hsel, if_true]
      cases hb : Generator.gen_shader_arrays_snippets env B gen i gen.inp.snippets 0 g with
      | none => rfl
      | some g1 =>
        simp only []
        apply ih g1
        rcases List.mem_cons.mp hj with rfl | hj
        · rw [gen_shader_arrays_snippets_none env B gen j gen.inp.snippets 0 g
            ⟨p, hp, hno⟩] at hb
          exact absurd hb (by simp)
        · exact ⟨j, hj, p, hp, hno⟩
    · simp only [hsel, if_false] at hj
      simp only [Slang.from_index, hsel, if_false]
      exact ih g ⟨j, hj, p, hp, hno⟩

/-- `gen_shader_arrays` returns exactly when its assertion holds at every pair
that it visits. -/
theorem gen_shader_arrays_returns_iff (env : Env) (B : Backend) (gen : GenInput)
    (g : Generator) :
    (∃ g', Generator.gen_shader_arrays env B gen g = some g') ↔
      all_shaders_have_source gen := by
  constructor
  · rintro ⟨g', hg⟩
    by_contra hno
    unfold all_shaders_have_source at hno
    push_neg at hno
    obtain ⟨pair, hpair, hsrc⟩ := hno
    unfold payload_pairs selected_slangs at hpair
    obtain ⟨i, hi, hmem⟩ := List.mem_flatMap.mp hpair
    obtain ⟨p, hp, rfl⟩ := List.mem_map.mp hmem
    have := gen_shader_arrays_slangs_none env B gen (List.range Slang.Num) g
      ⟨i, hi, p, hp, hsrc⟩
    unfold Generator.gen_shader_arrays at hg
    rw [this] at hg
    exact absurd hg (by simp)
  · intro h
    obtain ⟨g', h1, _⟩ := gen_shader_arrays_spec env B gen g h
    exact ⟨g', h1⟩

theorem has_blob_iff (gen : GenInput) (slang : Slang.Enum) (snippet_index : Int) :
    has_blob gen slang snippet_index ↔ (blob_of gen slang snippet_index).isSome = true := by
  unfold has_blob blob_of
  rw [List.find?_isSome]
  simp

theorem mem_payload_pairs (gen : GenInput) (i k : Nat) (sn : Snippet) :
    (i, k, sn) ∈ payload_pairs gen ↔
      (i < Slang.Num ∧ gen.slang_selected i = true ∧ gen.inp.snippets[k]? = some sn ∧
        (sn.type = SnippetType.VS ∨ sn.type = SnippetType.FS)) := by
  unfold payload_pairs selected_slangs shader_snippets is_shader
  simp only [List.mem_flatMap, List.mem_filter, List.mem_range, List.mem_map, Prod.mk.injEq,
    decide_eq_true_eq]
  constructor
  · rintro ⟨j, ⟨hj, hsel⟩, ⟨k2, sn2⟩, ⟨hmem, hsh⟩, rfl, rfl, rfl⟩
    exact ⟨hj, hsel, List.mk_mem_enum_iff_getElem?.mp hmem, hsh⟩
  · rintro ⟨hi, hsel, hget, hsh⟩
    exact ⟨i, ⟨hi, hsel⟩, (k, sn), ⟨List.mk_mem_enum_iff_getElem?.mpr hget, hsh⟩, rfl, rfl, rfl⟩

theorem payload_pairs_nodup (gen : GenInput) : (payload_pairs gen).Nodup := by
  unfold payload_pairs selected_slangs shader_snippets
  have henum : gen.inp.snippets.enum.Nodup := by
    apply List.Nodup.of_map Prod.fst
    rw [List.enum_map_fst]
    exact List.nodup_range _
  rw [List.nodup_flatMap]
  constructor
  · intro i _
    apply List.Nodup.map _ (henum.filter _)
    intro a b hab
    simp only [Prod.mk.injEq] at hab
    exact Prod.ext hab.2.1 hab.2.2
  · apply List.Pairwise.imp _ ((List.nodup_range Slang.Num).filter _)
    intro a b hab x hxa hxb
    simp only [List.mem_map] at hxa hxb
    obtain ⟨_, _, rfl⟩ := hxa
    obtain ⟨_, _, h2⟩ := hxb
    simp only [Prod.mk.injEq] at h2
    exact hab h2.1.symm

/-- C4: when every vertex or fragment snippet has a compiled source under
every selected target, `gen_shader_arrays` returns and the calls that it
records open and close exactly one payload array for each pair of a selected target
and a snippet of kind VS or FS, in the order of the two loops, and none else:
the pairs are exactly the triples of a target index below `Slang::Num` whose
bit is set, a snippet index and the snippet at that index being of kind VS or
FS, each pair occurs once, and the array of a pair carries the name given by
`shader_bytecode_array_name` when a blob exists for the snippet index under the
target and the name given by `shader_source_array_name` otherwise. -/
theorem gen_shader_arrays_one_array_per_pair (env : Env) (B : Backend) (gen : GenInput)
    (g : Generator) (h : all_shaders_have_source gen) :
    (∀ i k sn, (i, k, sn) ∈ payload_pairs gen ↔
      (i < Slang.Num ∧ gen.slang_selected i = true ∧ gen.inp.snippets[k]? = some sn ∧
        (sn.type = SnippetType.VS ∨ sn.type = SnippetType.FS))) ∧
    (payload_pairs gen).Nodup ∧
    ∃ g' evs arrays, Generator.gen_shader_arrays env B gen g = some g' ∧
      g'.log = g.log ++ evs ∧ payload_arrays evs = some arrays ∧
      arrays.map (fun p => (p.array_name, p.slang)) =
        (payload_pairs gen).map (fun pair =>
          (if has_blob gen pair.1 (pair.2.1 : Int) then
            (B g.mod_prefix).shader_bytecode_array_name pair.2.2.name pair.1
          else (B g.mod_prefix).shader_source_array_name pair.2.2.name pair.1, pair.1)) := by
  refine ⟨mem_payload_pairs gen, payload_pairs_nodup gen, ?_⟩
  obtain ⟨g', h1, _, evs, h3, h4⟩ := gen_shader_arrays_spec env B gen g h
  refine ⟨g', evs, _, h1, h3, h4, ?_⟩
  rw [List.map_map]
  apply List.map_congr_left
  intro pair hpair
  have hsrc := h pair hpair
  obtain ⟨_, src, _, _, hfind⟩ := find_source_from_found (pair.2.1 : Int) _ 0 hsrc
  simp only [Function.comp, payload_of]
  by_cases hb : has_blob gen pair.1 (pair.2.1 : Int)
  · obtain ⟨blob, hblob⟩ := Option.isSome_iff_exists.mp ((has_blob_iff _ _ _).mp hb)
    simp only [hblob, hb, if_true]
  · have hnone : blob_of gen pair.1 (pair.2.1 : Int) = none := by
      cases hbo : blob_of gen pair.1 (pair.2.1 : Int) with
      | none => rfl
      | some b => exact absurd ((has_blob_iff _ _ _).mpr (by rw [hbo]; rfl)) hb
    have hsome : source_of gen pair.1 (pair.2.1 : Int) = some src := hfind
    simp only [hnone, hsome, hb, if_false]

theorem gen_shader_arrays_one_array_per_pair_witness :
    all_shaders_have_source sample_full ∧
    ∃ g' evs arrays, Generator.gen_shader_arrays sample_env sample_backend sample_full
        sample_fresh = some g' ∧
      g'.log = sample_fresh.log ++ evs ∧ payload_arrays evs = some arrays ∧
      arrays.map (fun p => (p.array_name, p.slang)) =
        (payload_pairs sample_full).map (fun pair =>
          (if has_blob sample_full pair.1 (pair.2.1 : Int) then
            (sample_backend sample_fresh.mod_prefix).shader_bytecode_array_name
              pair.2.2.name pair.1
          else (sample_backend sample_fresh.mod_prefix).shader_source_array_name
            pair.2.2.name pair.1, pair.1)) :=
  ⟨by decide,
    (gen_shader_arrays_one_array_per_pair sample_env sample_backend sample_full sample_fresh
      (by decide)).2.2⟩

/-- The bytecode arrays of the runs that return (a fact that supports C6):
`gen_shader_arrays` returns exactly when every vertex or fragment
snippet has a compiled source under every selected target (what it asserts),
and whenever it returns, the payload array of every pair of a selected target
and a vertex or fragment snippet that has a bytecode blob is declared under the
bytecode array name with a length of exactly the number of bytes of the blob,
and its values are exactly the bytes of the blob in order, each written as the
decimal number of the byte, which is below 256; an empty blob gives the length
0 and no values. -/
theorem gen_shader_arrays_bytecode_array (env : Env) (B : Backend) (gen : GenInput)
    (g : Generator) :
    ((∃ g', Generator.gen_shader_arrays env B gen g = some g') ↔
      all_shaders_have_source gen) ∧
    ∀ g', Generator.gen_shader_arrays env B gen g = some g' →
      ∃ evs arrays, g'.log = g.log ++ evs ∧ payload_arrays evs = some arrays ∧
        List.Forall₂ (fun pair p => ∀ blob, blob_of gen pair.1 (pair.2.1 : Int) = some blob →
          p.array_name = (B g.mod_prefix).shader_bytecode_array_name pair.2.2.name pair.1 ∧
          p.slang = pair.1 ∧
          p.num_bytes = blob.data.length ∧
          p.values = blob.data.map (fun b => toString b.val ++ ",") ∧
          p.values.length = blob.data.length ∧
          (∀ b ∈ blob.data, b.val < 256) ∧
          (blob.data = [] → p.num_bytes = 0 ∧ p.values = []))
          (payload_pairs gen) arrays := by
  refine ⟨gen_shader_arrays_returns_iff env B gen g, ?_⟩
  intro g' hg
  have h := (gen_shader_arrays_returns_iff env B gen g).mp ⟨g', hg⟩
  obtain ⟨g2, h1, _, evs, h3, h4⟩ := gen_shader_arrays_spec env B gen g h
  have hgg : g2 = g' := by rw [h1] at hg; exact Option.some.inj hg
  subst hgg
  refine ⟨evs, _, h3, h4, ?_⟩
  rw [List.forall₂_map_right_iff, List.forall₂_same]
  intro pair _ blob hblob
  have hp : payload_of env (B g.mod_prefix) gen pair =
      ⟨(B g.mod_prefix).shader_bytecode_array_name pair.2.2.name pair.1, blob.data.length,
        pair.1, byte_texts blob.data⟩ := by
    simp only [payload_of, hblob]
  rw [hp]
  refine ⟨rfl, rfl, rfl, rfl, by simp [byte_texts], fun b _ => b.isLt, ?_⟩
  intro hempty
  simp [hempty, byte_texts]

theorem gen_shader_arrays_bytecode_array_witness :
    blob_of sample_full 0 1 = some ⟨1, [1, 255]⟩ ∧
    ∃ g', Generator.gen_shader_arrays sample_env sample_backend sample_full sample_fresh =
        some g' ∧
      ∃ evs arrays, g'.log = sample_fresh.log ++ evs ∧ payload_arrays evs = some arrays ∧
        List.Forall₂ (fun pair p =>
          ∀ blob, blob_of sample_full pair.1 (pair.2.1 : Int) = some blob →
          p.array_name = (sample_backend sample_fresh.mod_prefix).shader_bytecode_array_name
            pair.2.2.name pair.1 ∧
          p.slang = pair.1 ∧
          p.num_bytes = blob.data.length ∧
          p.values = blob.data.map (fun b => toString b.val ++ ",") ∧
          p.values.length = blob.data.length ∧
          (∀ b ∈ blob.data, b.val < 256) ∧
          (blob.data = [] → p.num_bytes = 0 ∧ p.values = []))
          (payload_pairs sample_full) arrays := by
  refine ⟨by decide, ?_⟩
  have hw := gen_shader_arrays_bytecode_array sample_env sample_backend sample_full
    sample_fresh
  obtain ⟨g', hg⟩ := hw.1.mpr (by decide)
  exact ⟨g', hg, hw.2 g' hg⟩

/-- The source branch of `gen_shader_arrays` in general: the array of a pair
without a blob is declared under the source array name with the length of the
source plus one, and its values are the conversions to `int` of the characters
of the source in order and of the terminating null character; where plain
`char` is unsigned, or the source is ASCII, these are the byte values. -/
theorem gen_shader_arrays_source_array (env : Env) (B : Backend) (gen : GenInput)
    (g : Generator) (h : all_shaders_have_source gen) :
    ∃ g' evs arrays, Generator.gen_shader_arrays env B gen g = some g' ∧
      g'.log = g.log ++ evs ∧ payload_arrays evs = some arrays ∧
      List.Forall₂ (fun pair p => ∀ src, blob_of gen pair.1 (pair.2.1 : Int) = none →
        source_of gen pair.1 (pair.2.1 : Int) = some src →
        p.array_name = (B g.mod_prefix).shader_source_array_name pair.2.2.name pair.1 ∧
        p.slang = pair.1 ∧
        p.num_bytes = src.source_code.length + 1 ∧
        p.values = (src.source_code.data.map
          (fun c => toString (Generator.char_to_int env c) ++ ",")) ++ ["0,"] ∧
        p.values.length = src.source_code.length + 1 ∧
        ((env.char_is_signed = false ∨ ∀ c ∈ src.source_code.data, c.toNat < 128) →
          p.values = (src.source_code.data.map
            (fun c => toString (c.toNat : Int) ++ ",")) ++ ["0,"]))
        (payload_pairs gen) arrays := by
  obtain ⟨g', h1, _, evs, h3, h4⟩ := gen_shader_arrays_spec env B gen g h
  refine ⟨g', evs, _, h1, h3, h4, ?_⟩
  rw [List.forall₂_map_right_iff, List.forall₂_same]
  intro pair _ src hblob hsrc
  have hp : payload_of env (B g.mod_prefix) gen pair =
      ⟨(B g.mod_prefix).shader_source_array_name pair.2.2.name pair.1,
        src.source_code.length + 1, pair.1, source_texts env src.source_code⟩ := by
    simp only [payload_of, hblob, hsrc]
  have hzero : toString (Generator.char_to_int env (Char.ofNat 0)) ++ "," = "0," := by
    cases hs : env.char_is_signed <;> simp [Generator.char_to_int, hs] <;> decide
  have hv : source_texts env src.source_code = (src.source_code.data.map
      (fun c => toString (Generator.char_to_int env c) ++ ",")) ++ ["0,"] := by
    simp only [source_texts, List.map_append, List.map_cons, List.map_nil, hzero]
  rw [hp]
  refine ⟨rfl, rfl, rfl, hv, ?_, ?_⟩
  · show (source_texts env src.source_code).length = _
    rw [hv, List.length_append, List.length_map]
    rfl
  · intro hcase
    show source_texts env src.source_code = _
    rw [hv]
    congr 1
    apply List.map_congr_left
    intro c hc
    have : Generator.char_to_int env c = (c.toNat : Int) := by
      unfold Generator.char_to_int
      rcases hcase with hu | ha
      · simp [hu]
      · have := ha c hc
        rw [if_neg]
        omega
    rw [this]

/-- C5 at a source that holds the byte 200, built where plain `char` is
signed: the source array is declared with the length 2 and gets two values, of
which the first is `-56`, the conversion of the character to `int`, and not
the byte value 200. -/
theorem gen_shader_arrays_high_byte_value :
    ∃ g', Generator.gen_shader_arrays sample_env sample_backend sample_high_byte
        sample_fresh = some g' ∧
      payload_arrays g'.log =
        some [⟨"vs_source_0", 2, 0, ["-56,", "0,"]⟩, ⟨"fs_source_0", 2, 0, ["120,", "0,"]⟩] := by
  obtain ⟨g', h1, _, evs, h3, h4⟩ :=
    gen_shader_arrays_spec sample_env sample_backend sample_high_byte sample_fresh (by decide)
  refine ⟨g', h1, ?_⟩
  rw [h3]
  show payload_arrays ([] ++ evs) = _
  rw [List.nil_append, h4]
  decide

/-! ## The phases of `generate` -/

@[simp] theorem phases_of_append (a b : List Event) :
    phases_of (a ++ b) = phases_of a ++ phases_of b := by
  simp [phases_of, List.filterMap_append]

@[simp] theorem phases_of_nil : phases_of [] = [] := rfl

@[simp] theorem phases_of_l (text : String) (rest : List Event) :
    phases_of (Event.l text :: rest) = phases_of rest := rfl

@[simp] theorem phases_of_cbl (text : String) (rest : List Event) :
    phases_of (Event.cbl text :: rest) = phases_of rest := rfl

@[simp] theorem phases_of_hook (h : Hook) (rest : List Event) :
    phases_of (Event.hook h :: rest) = phases_of rest := rfl

@[simp] theorem phases_of_phase (p : Phase) (rest : List Event) :
    phases_of (Event.phase p :: rest) = p :: phases_of rest := rfl

namespace Generator

@[simp] theorem l_open_log (text : String) (g : Generator) :
    (l_open text g).log = g.log ++ [Event.l text] := by
  simp [l_open]

@[simp] theorem l_close_log (text : String) (g : Generator) :
    (l_close text g).log = g.log ++ [Event.l text] := by
  simp [l_close]

@[simp] theorem cbl_open_log (B : Backend) (text : String) (g : Generator) :
    (cbl_open B text g).log = g.log ++ [Event.cbl text] := by
  simp [cbl_open]

@[simp] theorem cbl_close_text_log (B : Backend) (text : String) (g : Generator) :
    (cbl_close_text B text g).log = g.log ++ [Event.cbl text] := by
  simp [cbl_close_text]

@[simp] theorem cbl_close_log (g : Generator) : (cbl_close g).log = g.log := by
  simp [cbl_close]

theorem foldl_phases {α : Type} (f : Generator → α → Generator)
    (h : ∀ g x, phases_of (f g x).log = phases_of g.log) :
    ∀ (xs : List α) (g : Generator), phases_of (xs.foldl f g).log = phases_of g.log := by
  intro xs
  induction xs with
  | nil => intro g; rfl
  | cons x xs ih => intro g; rw [List.foldl_cons, ih, h]

@[simp] theorem gen_bindings_info_phases (B : Backend) (bindings : Bindings) (g : Generator) :
    phases_of (gen_bindings_info B bindings g).log = phases_of g.log := by
  unfold gen_bindings_info
  simp only []
  rw [foldl_phases _ (by intro g x; simp), foldl_phases _ (by intro g x; simp),
    foldl_phases _ (by intro g x; simp), foldl_phases _ (by intro g x; simp)]

@[simp] theorem gen_vertex_shader_info_phases (B : Backend) (prog : ProgramReflection)
    (g : Generator) :
    phases_of (gen_vertex_shader_info B prog g).log = phases_of g.log := by
  unfold gen_vertex_shader_info
  simp only [cbl_close_log, gen_bindings_info_phases]
  rw [foldl_phases _ (by intro g x; split_ifs <;> simp)]
  simp

@[simp] theorem gen_fragment_shader_info_phases (B : Backend) (prog : ProgramReflection)
    (g : Generator) :
    phases_of (gen_fragment_shader_info B prog g).log = phases_of g.log := by
  unfold gen_fragment_shader_info
  simp

@[simp] theorem gen_header_phases (B : Backend) (gen : GenInput) (g : Generator) :
    phases_of (gen_header B gen g).log = phases_of g.log := by
  unfold gen_header
  simp only [l_log, cbl_end_log, phases_of_append, phases_of_l, phases_of_nil, List.append_nil]
  rw [foldl_phases _ (by intro g x; simp)]
  simp

@[simp] theorem gen_vertex_attr_consts_phases (B : Backend) (gen : GenInput) (g : Generator) :
    phases_of (gen_vertex_attr_consts B gen g).log = phases_of g.log := by
  unfold gen_vertex_attr_consts
  rw [foldl_phases _ (by
    intro g x
    rw [foldl_phases _ (by intro g x; split_ifs <;> simp)])]

@[simp] theorem gen_bind_slot_consts_phases (B : Backend) (gen : GenInput) (g : Generator) :
    phases_of (gen_bind_slot_consts B gen g).log = phases_of g.log := by
  unfold gen_bind_slot_consts
  simp only [l_log, phases_of_append, phases_of_l, phases_of_nil, List.append_nil]
  rw [foldl_phases _ (by intro g x; simp)]
  simp only [l_log, phases_of_append, phases_of_l, phases_of_nil, List.append_nil]
  rw [foldl_phases _ (by intro g x; simp)]
  simp only [l_log, phases_of_append, phases_of_l, phases_of_nil, List.append_nil]
  rw [foldl_phases _ (by intro g x; simp)]

@[simp] theorem gen_uniformblock_decls_phases (B : Backend) (gen : GenInput) (g : Generator) :
    phases_of (gen_uniformblock_decls B gen g).log = phases_of g.log := by
  unfold gen_uniformblock_decls
  rw [foldl_phases _ (by intro g x; simp)]

@[simp] theorem gen_shader_desc_funcs_phases (B : Backend) (gen : GenInput) (g : Generator) :
    phases_of (gen_shader_desc_funcs B gen g).log = phases_of g.log := by
  unfold gen_shader_desc_funcs
  rw [foldl_phases _ (by intro g x; simp)]

@[simp] theorem gen_reflection_funcs_phases (B : Backend) (gen : GenInput) (g : Generator) :
    phases_of (gen_reflection_funcs B gen g).log = phases_of g.log := by
  unfold gen_reflection_funcs
  rw [foldl_phases _ (by intro g x; simp)]

theorem array_loop_phases (value : Nat → String) (len : Nat) (g : Generator) :
    phases_of (array_loop value len g).log = phases_of g.log := by
  unfold array_loop
  rw [foldl_phases _ (by
    intro g i
    unfold array_loop_body
    split_ifs <;> simp)]

theorem gen_shader_arrays_body_phases (env : Env) (B : Backend) (gen : GenInput)
    (slang : Slang.Enum) (k : Nat) (snippet : Snippet) (g g' : Generator)
    (h : gen_shader_arrays_body env B gen slang k snippet g = some g') :
    phases_of g'.log = phases_of g.log := by
  unfold gen_shader_arrays_body at h
  simp only [] at h
  split_ifs at h with h1 h2 h3
  · cases h; rfl
  · split at h
    · exact absurd h (by simp)
    · split at h
      · exact absurd h (by simp)
      · cases h
        simp only [call_hook_log, phases_of_append, phases_of_hook, phases_of_nil, List.append_nil,
          array_loop_phases, cbl_end_log, phases_of_l]
        rw [foldl_phases _ (by intro g x; simp)]
        simp
  · split at h
    · exact absurd h (by simp)
    · cases h
      simp only [call_hook_log, phases_of_append, phases_of_hook, phases_of_nil, List.append_nil,
        array_loop_phases, cbl_end_log, phases_of_l]
      rw [foldl_phases _ (by intro g x; simp)]
      simp

theorem gen_shader_arrays_snippets_phases (env : Env) (B : Backend) (gen : GenInput)
    (slang : Slang.Enum) :
    ∀ (snippets : List Snippet) (k : Nat) (g g' : Generator),
      gen_shader_arrays_snippets env B gen slang snippets k g = some g' →
      phases_of g'.log = phases_of g.log := by
  intro snippets
  induction snippets with
  | nil => intro k g g' h; cases h; rfl
  | cons sn sns ih =>
    intro k g g' h
    unfold gen_shader_arrays_snippets at h
    split at h
    · exact absurd h (by simp)
    · next g1 hb =>
      rw [ih (k + 1) g1 g' h, gen_shader_arrays_body_phases env B gen slang k sn g g1 hb]

theorem gen_shader_arrays_slangs_phases (env : Env) (B : Backend) (gen : GenInput) :
    ∀ (is : List Nat) (g g' : Generator),
      gen_shader_arrays_slangs env B gen is g = some g' →
      phases_of g'.log = phases_of g.log := by
  intro is
  induction is with
  | nil => intro g g' h; cases h; rfl
  | cons i is ih =>
    intro g g' h
    unfold gen_shader_arrays_slangs at h
    simp only [] at h
    split_ifs at h
    · split at h
      · exact absurd h (by simp)
      · next g1 hb =>
        rw [ih g1 g' h, gen_shader_arrays_snippets_phases env B gen _ _ 0 g g1 hb]
    · exact ih g g' h

theorem gen_shader_arrays_phases (env : Env) (B : Backend) (gen : GenInput)
    (g g' : Generator) (h : gen_shader_arrays env B gen g = some g') :
    phases_of g'.log = phases_of g.log :=
  gen_shader_arrays_slangs_phases env B gen _ g g' h

end Generator

theorem gen_shader_arrays_ne_none (env : Env) (B : Backend) (gen : GenInput)
    (h : all_shaders_have_source gen) (g : Generator) :
    Generator.gen_shader_arrays env B gen g ≠ none := by
  obtain ⟨g', h1, _⟩ := gen_shader_arrays_spec env B gen g h
  rw [h1]
  exact Option.some_ne_none g'

/-- The order of the phases of the runs that return (a fact that supports
C10): for every input that passes validation and in which every
vertex or fragment snippet has a compiled source under every selected target,
`generate` returns the result of `end`, and the phases it has entered are, in
this order and each once: begin, gen_prolog, gen_header, gen_prerequisites,
gen_vertex_attr_consts, gen_bind_slot_consts, gen_uniformblock_decls,
gen_stb_impl_start, gen_shader_arrays, gen_shader_desc_funcs, then
gen_reflection_funcs if and only if `args.reflection` is set, then gen_epilog,
gen_stb_impl_end, end. -/
theorem generate_phase_order (env : Env) (B : Backend) (gen : GenInput) (g : Generator)
    (fs : FileSystem) (e : ErrMsg)
    (hce : check_errors env.to_str gen = some e) (hok : e.valid = false)
    (hsrc : all_shaders_have_source gen) :
    ∃ g', Generator.generate env B gen g fs =
        some ((Generator.end_ gen g' fs).1, g', (Generator.end_ gen g' fs).2) ∧
      phases_of g'.log = phases_of g.log ++
        [Phase.begin, Phase.gen_prolog, Phase.gen_header, Phase.gen_prerequisites,
          Phase.gen_vertex_attr_consts, Phase.gen_bind_slot_consts,
          Phase.gen_uniformblock_decls, Phase.gen_stb_impl_start, Phase.gen_shader_arrays,
          Phase.gen_shader_desc_funcs]
        ++ (if gen.args.reflection = true then [Phase.gen_reflection_funcs] else [])
        ++ [Phase.gen_epilog, Phase.gen_stb_impl_end, Phase.end_] := by
  unfold Generator.generate Generator.begin
  simp only [hce, hok, Bool.false_eq_true, if_false]
  split
  · next heq => exact absurd heq (gen_shader_arrays_ne_none env B gen hsrc _)
  · next g5 heq =>
    have h5 := Generator.gen_shader_arrays_phases env B gen _ g5 heq
    simp only [Generator.enter_log, phases_of_append, phases_of_phase, phases_of_nil,
      Generator.call_hook_log, phases_of_hook, Generator.gen_header_phases,
      Generator.gen_vertex_attr_consts_phases, Generator.gen_bind_slot_consts_phases,
      Generator.gen_uniformblock_decls_phases, List.append_nil, List.append_assoc,
      List.cons_append, List.nil_append] at h5
    refine ⟨_, rfl, ?_⟩
    by_cases hr : gen.args.reflection = true
    · simp only [hr, if_true, Generator.enter_log, phases_of_append, phases_of_phase,
        phases_of_nil, Generator.call_hook_log, phases_of_hook,
        Generator.gen_shader_desc_funcs_phases, Generator.gen_reflection_funcs_phases, h5,
        List.append_nil, List.append_assoc, List.cons_append, List.nil_append]
    · simp only [hr, Bool.false_eq_true, if_false, Generator.enter_log, phases_of_append, phases_of_phase,
        phases_of_nil, Generator.call_hook_log, phases_of_hook,
        Generator.gen_shader_desc_funcs_phases, h5,
        List.append_nil, List.append_assoc, List.cons_append, List.nil_append]

theorem generate_phase_order_witness :
    check_errors sample_env.to_str sample_full = some ErrMsg.ok ∧
    all_shaders_have_source sample_full ∧
    ∃ g', Generator.generate sample_env sample_backend sample_full sample_used sample_fs =
        some ((Generator.end_ sample_full g' sample_fs).1, g',
          (Generator.end_ sample_full g' sample_fs).2) ∧
      phases_of g'.log = phases_of sample_used.log ++
        [Phase.begin, Phase.gen_prolog, Phase.gen_header, Phase.gen_prerequisites,
          Phase.gen_vertex_attr_consts, Phase.gen_bind_slot_consts,
          Phase.gen_uniformblock_decls, Phase.gen_stb_impl_start, Phase.gen_shader_arrays,
          Phase.gen_shader_desc_funcs]
        ++ (if sample_full.args.reflection = true then [Phase.gen_reflection_funcs] else [])
        ++ [Phase.gen_epilog, Phase.gen_stb_impl_end, Phase.end_] :=
  ⟨by decide, by decide,
    generate_phase_order sample_env sample_backend sample_full sample_used sample_fs
      ErrMsg.ok (by decide) rfl (by decide)⟩

/-- C10 (the failing input): the sample input passes validation, and `generate`
does not return, because the assertion `src_index >= 0` of `gen_shader_arrays`
fails at the vertex snippet that no program uses: the phases after
`gen_shader_arrays` are not entered and `end` is not reached. -/
theorem generate_unused_snippet_aborts :
    check_errors sample_env.to_str sample_unused_vs = some ErrMsg.ok ∧
    Generator.generate sample_env sample_backend sample_unused_vs sample_fresh sample_fs =
      none := by
  refine ⟨by decide, ?_⟩
  rfl


/-! ## The two writers -/

/-- C13: for every buffer content, indentation and formatted text, `l` leaves
the buffer equal to the old content, then the indentation, then the text, and
`cbl` leaves it equal to the old content, then the result of
`comment_block_line_prefix()`, then the indentation, then the text; both only
append (the old content is a prefix of the new one) and neither changes the
indentation. -/
theorem l_cbl_append (B : Backend) (text : String) (g : Generator) :
    (Generator.l text g).content = g.content ++ g.indentation ++ text ∧
    (Generator.cbl B text g).content =
      g.content ++ Hooks.comment_block_line_prefix (B g.mod_prefix) ++ g.indentation ++ text ∧
    g.content.data <+: (Generator.l text g).content.data ∧
    g.content.data <+: (Generator.cbl B text g).content.data ∧
    (Generator.l text g).indentation = g.indentation ∧
    (Generator.cbl B text g).indentation = g.indentation := by
  have hl : (Generator.l text g).content = g.content ++ (g.indentation ++ text) := rfl
  have hc : (Generator.cbl B text g).content = g.content ++
      (Hooks.comment_block_line_prefix (B g.mod_prefix) ++ g.indentation ++ text) := rfl
  refine ⟨?_, ?_, ?_, ?_, rfl, rfl⟩
  · rw [hl, String.append_assoc]
  · rw [hc, String.append_assoc, String.append_assoc, String.append_assoc]
  · rw [hl, String.data_append]
    exact List.prefix_append _ _
  · rw [hc, String.data_append]
    exact List.prefix_append _ _


/-! ## Bind slot constants -/

theorem written_singleton (indentation text : String) :
    written indentation [text] = indentation ++ text := by
  simp [written]

/-- A loop that hands one line to `l` for every element of a sequence. -/
theorem l_lines_fold {α : Type} (B : Backend) (f : Hooks → α → String) :
    ∀ (xs : List α) (g : Generator),
      let g' := xs.foldl (fun g x => Generator.l (f (B g.mod_prefix) x) g) g
      g'.mod_prefix = g.mod_prefix ∧ g'.indentation = g.indentation ∧
      g'.log = g.log ++ (xs.map (f (B g.mod_prefix))).map Event.l ∧
      g'.content = g.content ++ written g.indentation (xs.map (f (B g.mod_prefix))) := by
  intro xs
  induction xs with
  | nil => intro g; simp [written]
  | cons x xs ih =>
    intro g
    obtain ⟨h1, h2, h3, h4⟩ := ih (Generator.l (f (B g.mod_prefix) x) g)
    simp only [List.foldl_cons]
    refine ⟨h1, h2, ?_, ?_⟩
    · rw [h3]; simp
    · rw [h4]; simp [written, String.append_assoc]

/-- C11: the default `gen_bind_slot_consts` hands to `l`, and so appends to the
buffer, one definition line for every uniform block of the global binding set
in order, then a blank line, one definition line for every image in order,
then a blank line, one definition line for every sampler in order, then a
blank line; the numbers of definition lines are those of the uniform blocks,
images and samplers; nothing else of the input plays a part, so that the
image sampler pairs and the bindings of the programs contribute nothing. -/
theorem gen_bind_slot_consts_lines (B : Backend) (gen : GenInput) (g : Generator) :
    let ub_lines := gen.refl.bindings.uniform_blocks.map
      (fun ub => (B g.mod_prefix).uniform_block_bind_slot_definition ub ++ "\n")
    let img_lines := gen.refl.bindings.images.map
      (fun img => (B g.mod_prefix).image_bind_slot_definition img ++ "\n")
    let smp_lines := gen.refl.bindings.samplers.map
      (fun smp => (B g.mod_prefix).sampler_bind_slot_definition smp ++ "\n")
    let lines := ub_lines ++ ["\n"] ++ img_lines ++ ["\n"] ++ smp_lines ++ ["\n"]
    (Generator.gen_bind_slot_consts B gen g).log = g.log ++ lines.map Event.l ∧
    (Generator.gen_bind_slot_consts B gen g).content =
      g.content ++ written g.indentation lines ∧
    ub_lines.length = gen.refl.bindings.uniform_blocks.length ∧
    img_lines.length = gen.refl.bindings.images.length ∧
    smp_lines.length = gen.refl.bindings.samplers.length ∧
    ∀ gen2 : GenInput,
      gen2.refl.bindings.uniform_blocks = gen.refl.bindings.uniform_blocks →
      gen2.refl.bindings.images = gen.refl.bindings.images →
      gen2.refl.bindings.samplers = gen.refl.bindings.samplers →
      Generator.gen_bind_slot_consts B gen2 g = Generator.gen_bind_slot_consts B gen g := by
  intro ub_lines img_lines smp_lines lines
  obtain ⟨a1, a2, a3, a4⟩ := l_lines_fold B
    (fun h ub => h.uniform_block_bind_slot_definition ub ++ "\n")
    gen.refl.bindings.uniform_blocks g
  obtain ⟨b1, b2, b3, b4⟩ := l_lines_fold B
    (fun h img => h.image_bind_slot_definition img ++ "\n")
    gen.refl.bindings.images
    (Generator.l "\n" (gen.refl.bindings.uniform_blocks.foldl (fun g ub =>
      Generator.l ((B g.mod_prefix).uniform_block_bind_slot_definition ub ++ "\n") g) g))
  obtain ⟨c1, c2, c3, c4⟩ := l_lines_fold B
    (fun h smp => h.sampler_bind_slot_definition smp ++ "\n")
    gen.refl.bindings.samplers
    (Generator.l "\n" (gen.refl.bindings.images.foldl (fun g img =>
      Generator.l ((B g.mod_prefix).image_bind_slot_definition img ++ "\n") g)
      (Generator.l "\n" (gen.refl.bindings.uniform_blocks.foldl (fun g ub =>
        Generator.l ((B g.mod_prefix).uniform_block_bind_slot_definition ub ++ "\n") g) g))))
  simp only [Generator.l_mod_prefix, Generator.l_indentation, Generator.l_log,
    Generator.l_content] at b1 b2 b3 b4 c1 c2 c3 c4
  rw [a1] at b1 b3 b4
  rw [a2] at b2 b4
  rw [b1] at c1 c3 c4
  rw [b2] at c2 c4
  refine ⟨?_, ?_, by simp [ub_lines], by simp [img_lines], by simp [smp_lines], ?_⟩
  · unfold Generator.gen_bind_slot_consts
    simp only [Generator.l_log]
    rw [c3, b3, a3]
    simp [lines, ub_lines, img_lines, smp_lines]
  · unfold Generator.gen_bind_slot_consts
    simp only [Generator.l_content, Generator.l_indentation]
    rw [c4, c2, b4, a4]
    simp only [lines, ub_lines, img_lines, smp_lines, written_append, written_singleton,
      String.append_assoc]
  · intro gen2 h1 h2 h3
    unfold Generator.gen_bind_slot_consts
    simp only [h1, h2, h3]


/-! ## The indentation -/

theorem spaces_zero : spaces 0 = "" := rfl

theorem dedent_step_empty : Generator.dedent_step "" = "" := by
  decide

theorem dedent_step_spaces (n : Nat) :
    Generator.dedent_step (spaces (n + 1)) = spaces n := by
  unfold Generator.dedent_step spaces
  have hlen : (String.mk (List.replicate (n + 1) ' ')).length > 0 := by
    show (List.replicate (n + 1) ' ').length > 0
    rw [List.length_replicate]
    omega
  rw [if_pos hlen]
  apply String.ext
  show (List.replicate (n + 1) ' ').dropLast = List.replicate n ' '
  rw [List.dropLast_replicate]
  rfl

theorem spaces_append_four (n : Nat) : spaces n ++ "    " = spaces (n + 4) := by
  apply String.ext
  rw [String.data_append]
  show List.replicate n ' ' ++ List.replicate 4 ' ' = List.replicate (n + 4) ' '
  rw [List.append_replicate_replicate]

theorem indent_indentation (g : Generator) :
    (Generator.indent g).indentation = g.indentation ++ "    " := by
  simp only [Generator.indent]

theorem dedent_indentation (g : Generator) :
    (Generator.dedent g).indentation = Generator.dedent_step (Generator.dedent_step
      (Generator.dedent_step (Generator.dedent_step g.indentation))) := by
  simp only [Generator.dedent]

theorem cbl_indentation (B : Backend) (text : String) (g : Generator) :
    (Generator.cbl B text g).indentation = g.indentation := by
  simp only [Generator.cbl]

theorem indent_spaces (g : Generator) (k : Nat) (h : g.indentation = spaces (4 * k)) :
    (Generator.indent g).indentation = spaces (4 * (k + 1)) := by
  rw [indent_indentation, h, spaces_append_four]
  rfl

theorem dedent_empty (g : Generator) (h : g.indentation = "") :
    (Generator.dedent g).indentation = "" := by
  rw [dedent_indentation, h, dedent_step_empty, dedent_step_empty, dedent_step_empty,
    dedent_step_empty]

theorem dedent_spaces (g : Generator) (k : Nat) (h : g.indentation = spaces (4 * (k + 1))) :
    (Generator.dedent g).indentation = spaces (4 * k) := by
  have h4 : 4 * (k + 1) = 4 * k + 1 + 1 + 1 + 1 := by omega
  rw [dedent_indentation, h, h4, dedent_step_spaces, dedent_step_spaces, dedent_step_spaces,
    dedent_step_spaces]

theorem dedent_keeps_levels (g : Generator) (h : ∃ k, g.indentation = spaces (4 * k)) :
    ∃ k, (Generator.dedent g).indentation = spaces (4 * k) := by
  obtain ⟨k, hk⟩ := h
  cases k with
  | zero => exact ⟨0, dedent_empty g hk⟩
  | succ k => exact ⟨k, dedent_spaces g k hk⟩

theorem indent_keeps_levels (g : Generator) (h : ∃ k, g.indentation = spaces (4 * k)) :
    ∃ k, (Generator.indent g).indentation = spaces (4 * k) := by
  obtain ⟨k, hk⟩ := h
  exact ⟨k + 1, indent_spaces g k hk⟩

theorem l_keeps_levels (text : String) (g : Generator)
    (h : ∃ k, g.indentation = spaces (4 * k)) :
    ∃ k, (Generator.l text g).indentation = spaces (4 * k) := by
  rw [Generator.l_indentation]; exact h

theorem cbl_keeps_levels (B : Backend) (text : String) (g : Generator)
    (h : ∃ k, g.indentation = spaces (4 * k)) :
    ∃ k, (Generator.cbl B text g).indentation = spaces (4 * k) := by
  rw [cbl_indentation]; exact h

theorem write_keeps_levels (B : Backend) (c : WriterCall) (g : Generator)
    (h : ∃ k, g.indentation = spaces (4 * k)) :
    ∃ k, (Generator.write B c g).indentation = spaces (4 * k) := by
  cases c with
  | reset_indent =>
    simp only [Generator.write, Generator.reset_indent]
    exact ⟨0, rfl⟩
  | l text =>
    simp only [Generator.write]
    exact l_keeps_levels text g h
  | l_open text =>
    simp only [Generator.write, Generator.l_open]
    exact indent_keeps_levels _ (l_keeps_levels text g h)
  | l_close text =>
    simp only [Generator.write, Generator.l_close]
    exact l_keeps_levels text _ (dedent_keeps_levels g h)
  | cbl_start =>
    simp only [Generator.write, Generator.cbl_start, Generator.l_open]
    exact indent_keeps_levels _ (l_keeps_levels _ g h)
  | cbl text =>
    simp only [Generator.write]
    exact cbl_keeps_levels B text g h
  | cbl_open text =>
    simp only [Generator.write, Generator.cbl_open]
    exact indent_keeps_levels _ (cbl_keeps_levels B text g h)
  | cbl_close_text text =>
    simp only [Generator.write, Generator.cbl_close_text]
    exact cbl_keeps_levels B text _ (dedent_keeps_levels g h)
  | cbl_close =>
    simp only [Generator.write, Generator.cbl_close]
    exact dedent_keeps_levels g h
  | cbl_end =>
    simp only [Generator.write, Generator.cbl_end, Generator.l_close]
    exact l_keeps_levels _ _ (dedent_keeps_levels g h)

theorem act_keeps_levels (B : Backend) (c : IndentCall) (g : Generator)
    (h : ∃ k, g.indentation = spaces (4 * k)) :
    ∃ k, (Generator.act B c g).indentation = spaces (4 * k) := by
  cases c with
  | indent =>
    simp only [Generator.act]
    exact indent_keeps_levels g h
  | dedent =>
    simp only [Generator.act]
    exact dedent_keeps_levels g h
  | write c =>
    simp only [Generator.act]
    exact write_keeps_levels B c g h

theorem acts_keep_levels (B : Backend) :
    ∀ (calls : List IndentCall) (g : Generator), (∃ k, g.indentation = spaces (4 * k)) →
      ∃ k, (calls.foldl (fun g c => Generator.act B c g) g).indentation = spaces (4 * k) := by
  intro calls
  induction calls with
  | nil => intro g h; exact h
  | cons c calls ih =>
    intro g h
    exact ih (Generator.act B c g) (act_keeps_levels B c g h)

/-- C12: after every sequence of calls of `indent`, `dedent`, `reset_indent`
and the other writer methods (the open and close writers among them), from the
empty indentation, the indentation is a string of spaces whose length is a
multiple of 4; `dedent` at the empty indentation leaves it empty, and at an
indentation of `4 * (k + 1)` spaces it leaves `4 * k` spaces: it removes
exactly four. -/
theorem indentation_levels (B : Backend) :
    (∀ (calls : List IndentCall) (g : Generator), g.indentation = "" →
      ∃ k, (calls.foldl (fun g c => Generator.act B c g) g).indentation = spaces (4 * k) ∧
        (calls.foldl (fun g c => Generator.act B c g) g).indentation.length = 4 * k) ∧
    (∀ g : Generator, g.indentation = "" → (Generator.dedent g).indentation = "") ∧
    (∀ (g : Generator) (k : Nat), g.indentation = spaces (4 * (k + 1)) →
      (Generator.dedent g).indentation = spaces (4 * k)) := by
  refine ⟨?_, dedent_empty, dedent_spaces⟩
  intro calls g h
  obtain ⟨k, hk⟩ := acts_keep_levels B calls g ⟨0, h⟩
  refine ⟨k, hk, ?_⟩
  rw [hk]
  show (List.replicate (4 * k) ' ').length = 4 * k
  rw [List.length_replicate]


/-! ## Case conversion -/

theorem split_chars_underscore :
    ∀ (l cur : List Char),
      pystring.split_chars ['_'] 0 l cur =
        ⟨cur.reverse ++ (seg_split l).1⟩ :: (seg_split l).2.map String.mk
  | [], cur => by simp [pystring.split_chars, seg_split]
  | c :: rest, cur => by
    by_cases hc : c = '_'
    · subst hc
      have ih := split_chars_underscore rest []
      simp [pystring.split_chars, seg_split, List.isPrefixOf, ih]
    · have hc2 : ¬ ('_' = c) := fun h => hc h.symm
      have ih := split_chars_underscore rest (c :: cur)
      simp [pystring.split_chars, seg_split, List.isPrefixOf, hc, hc2, ih]

theorem capitalize_data (l : List Char) :
    (pystring.capitalize ⟨l⟩).data = cap_chars l := by
  cases l with
  | nil => rfl
  | cons c rest => simp [pystring.capitalize, cap_chars, case_char]

theorem join_fold_data (sep : String) :
    ∀ (rest : List String) (first : String),
      (rest.foldl (fun result s => result ++ (sep ++ s)) first).data =
        first.data ++ rest.flatMap (fun s => sep.data ++ s.data) := by
  intro rest
  induction rest with
  | nil => intro first; simp
  | cons s rest ih =>
    intro first
    rw [List.foldl_cons, ih, String.data_append, String.data_append]
    simp

theorem to_ada_case_segments (s : String) :
    (util.to_ada_case s).data =
      cap_chars (seg_split s.data).1 ++
        (seg_split s.data).2.flatMap (fun seg => '_' :: cap_chars seg) := by
  have h1 : ("_" : String).data = ['_'] := rfl
  simp only [util.to_ada_case, pystring.split, h1, split_chars_underscore, List.map_cons,
    pystring.join, join_fold_data, List.reverse_nil, List.nil_append, capitalize_data,
    List.flatMap_map, List.singleton_append, List.map_map, Function.comp]

theorem to_pascal_case_segments (s : String) :
    (util.to_pascal_case s).data =
      cap_chars (seg_split s.data).1 ++ (seg_split s.data).2.flatMap (fun seg => cap_chars seg) := by
  have h1 : ("_" : String).data = ['_'] := rfl
  have h2 : ("" : String).data = [] := rfl
  simp only [util.to_pascal_case, pystring.split, h1, h2, split_chars_underscore,
    List.map_cons, pystring.join, join_fold_data, List.reverse_nil, List.nil_append,
    capitalize_data, List.flatMap_map, List.map_map, Function.comp]

theorem cap_chars_nil : cap_chars [] = [] := rfl

theorem cap_chars_cons (c : Char) (rest : List Char) :
    cap_chars (c :: rest) = case_char true c :: rest.map (case_char false) := rfl

theorem seg_split_underscore (rest : List Char) :
    seg_split ('_' :: rest) = ([], (seg_split rest).1 :: (seg_split rest).2) := by
  simp [seg_split]

theorem seg_split_other (c : Char) (rest : List Char) (hc : c ≠ '_') :
    seg_split (c :: rest) = (c :: (seg_split rest).1, (seg_split rest).2) := by
  simp [seg_split, hc]

theorem ada_chars_underscore (start : Bool) (rest : List Char) :
    ada_chars start ('_' :: rest) = '_' :: ada_chars true rest := by
  simp [ada_chars]

theorem ada_chars_other (start : Bool) (c : Char) (rest : List Char) (hc : c ≠ '_') :
    ada_chars start (c :: rest) = case_char start c :: ada_chars false rest := by
  simp [ada_chars, hc]

theorem pascal_chars_underscore (start : Bool) (rest : List Char) :
    pascal_chars start ('_' :: rest) = pascal_chars true rest := by
  simp [pascal_chars]

theorem pascal_chars_other (start : Bool) (c : Char) (rest : List Char) (hc : c ≠ '_') :
    pascal_chars start (c :: rest) = case_char start c :: pascal_chars false rest := by
  simp [pascal_chars, hc]

theorem ada_chars_segments :
    ∀ (l : List Char) (start : Bool),
      (if start then cap_chars (seg_split l).1 else (seg_split l).1.map (case_char false)) ++
        (seg_split l).2.flatMap (fun seg => '_' :: cap_chars seg) = ada_chars start l
  | [], start => by cases start <;> simp [seg_split, cap_chars, ada_chars]
  | c :: rest, start => by
    have ih1 := ada_chars_segments rest true
    have ih2 := ada_chars_segments rest false
    simp only [if_true, Bool.false_eq_true, if_false] at ih1 ih2
    by_cases hc : c = '_'
    · subst hc
      rw [seg_split_underscore, ada_chars_underscore, ← ih1]
      cases start <;>
        simp only [cap_chars_nil, List.map_nil, if_true, Bool.false_eq_true, if_false,
          List.nil_append, List.flatMap_cons, List.cons_append]
    · rw [seg_split_other c rest hc, ada_chars_other start c rest hc, ← ih2]
      cases start <;>
        simp only [cap_chars_cons, List.map_cons, if_true, Bool.false_eq_true, if_false,
          List.cons_append]

theorem pascal_chars_segments :
    ∀ (l : List Char) (start : Bool),
      (if start then cap_chars (seg_split l).1 else (seg_split l).1.map (case_char false)) ++
        (seg_split l).2.flatMap (fun seg => cap_chars seg) = pascal_chars start l
  | [], start => by cases start <;> simp [seg_split, cap_chars, pascal_chars]
  | c :: rest, start => by
    have ih1 := pascal_chars_segments rest true
    have ih2 := pascal_chars_segments rest false
    simp only [if_true, Bool.false_eq_true, if_false] at ih1 ih2
    by_cases hc : c = '_'
    · subst hc
      rw [seg_split_underscore, pascal_chars_underscore, ← ih1]
      cases start <;>
        simp only [cap_chars_nil, List.map_nil, if_true, Bool.false_eq_true, if_false,
          List.nil_append, List.flatMap_cons]
    · rw [seg_split_other c rest hc, pascal_chars_other start c rest hc, ← ih2]
      cases start <;>
        simp only [cap_chars_cons, List.map_cons, if_true, Bool.false_eq_true, if_false,
          List.cons_append]

theorem to_ada_case_data (s : String) :
    (util.to_ada_case s).data = ada_chars true s.data := by
  rw [to_ada_case_segments, ← ada_chars_segments s.data true]
  simp

theorem to_pascal_case_data (s : String) :
    (util.to_pascal_case s).data = pascal_chars true s.data := by
  rw [to_pascal_case_segments, ← pascal_chars_segments s.data true]
  simp


theorem toupper_ne_underscore (c : Char) (hc : c ≠ '_') : cctype.toupper c ≠ '_' := by
  unfold cctype.toupper
  split_ifs with h
  · generalize c.toNat = n at h
    obtain ⟨h1, h2⟩ := h
    interval_cases n <;> decide
  · exact hc

theorem tolower_ne_underscore (c : Char) (hc : c ≠ '_') : cctype.tolower c ≠ '_' := by
  unfold cctype.tolower
  split_ifs with h
  · generalize c.toNat = n at h
    obtain ⟨h1, h2⟩ := h
    interval_cases n <;> decide
  · exact hc

theorem case_char_ne_underscore (start : Bool) (c : Char) (hc : c ≠ '_') :
    case_char start c ≠ '_' := by
  unfold case_char
  split_ifs
  · exact toupper_ne_underscore c hc
  · exact hc
  · exact tolower_ne_underscore c hc
  · exact hc

theorem case_char_start (c : Char) : case_char true c = cctype.toupper c := by
  unfold case_char cctype.islower cctype.toupper
  by_cases h : 97 ≤ c.toNat ∧ c.toNat ≤ 122
  · simp [h]
  · simp [h]

theorem tolower_not_upper (c : Char) : cctype.isupper (cctype.tolower c) = false := by
  unfold cctype.tolower cctype.isupper
  by_cases h : 65 ≤ c.toNat ∧ c.toNat ≤ 90
  · rw [if_pos h]
    generalize c.toNat = n at h
    obtain ⟨h1, h2⟩ := h
    interval_cases n <;> decide
  · rw [if_neg h]
    exact decide_eq_false h

theorem tolower_of_letter (c : Char)
    (h : cctype.isupper c = true ∨ cctype.islower c = true) :
    cctype.islower (cctype.tolower c) = true := by
  unfold cctype.tolower
  unfold cctype.isupper cctype.islower at h
  unfold cctype.islower
  by_cases hu : 65 ≤ c.toNat ∧ c.toNat ≤ 90
  · rw [if_pos hu]
    generalize c.toNat = n at hu
    obtain ⟨h1, h2⟩ := hu
    interval_cases n <;> decide
  · rw [if_neg hu]
    rcases h with h | h
    · exact absurd (of_decide_eq_true h) hu
    · exact h

theorem tolower_idem (c : Char) : cctype.tolower (cctype.tolower c) = cctype.tolower c := by
  have h := tolower_not_upper c
  unfold cctype.isupper at h
  have h2 := of_decide_eq_false h
  have key : ∀ d : Char, ¬ (65 ≤ d.toNat ∧ d.toNat ≤ 90) → cctype.tolower d = d := by
    intro d hd
    unfold cctype.tolower
    rw [if_neg hd]
  exact key _ h2

theorem ada_chars_length :
    ∀ (l : List Char) (start : Bool), (ada_chars start l).length = l.length
  | [], _ => rfl
  | c :: rest, start => by
    by_cases hc : c = '_'
    · subst hc
      rw [ada_chars_underscore, List.length_cons, List.length_cons, ada_chars_length rest true]
    · rw [ada_chars_other start c rest hc, List.length_cons, List.length_cons,
        ada_chars_length rest false]

theorem ada_chars_getElem :
    ∀ (l : List Char) (start : Bool) (i : Nat) (c : Char), l[i]? = some c →
      (ada_chars start l)[i]? = some
        (if c = '_' then '_'
          else case_char (if i = 0 then start else decide (l[i - 1]? = some '_')) c)
  | [], _, _, _, h => by simp at h
  | a :: rest, start, 0, c, h => by
    simp only [List.getElem?_cons_zero, Option.some.injEq] at h
    subst h
    by_cases hc : a = '_'
    · subst hc
      rw [ada_chars_underscore]
      simp
    · rw [ada_chars_other start a rest hc]
      simp [hc]
  | a :: rest, start, k + 1, c, h => by
    simp only [List.getElem?_cons_succ] at h
    have hprev : (if k + 1 = 0 then start else decide ((a :: rest)[k + 1 - 1]? = some '_')) =
        (if k = 0 then decide (a = '_') else decide (rest[k - 1]? = some '_')) := by
      cases k with
      | zero => simp
      | succ m => simp
    rw [hprev]
    by_cases ha : a = '_'
    · subst ha
      rw [ada_chars_underscore, List.getElem?_cons_succ, ada_chars_getElem rest true k c h]
      simp
    · rw [ada_chars_other start a rest ha, List.getElem?_cons_succ,
        ada_chars_getElem rest false k c h]
      simp [ha]

theorem pascal_chars_filter :
    ∀ (l : List Char) (start : Bool),
      pascal_chars start l = (ada_chars start l).filter (fun c => decide (c ≠ '_'))
  | [], _ => rfl
  | c :: rest, start => by
    by_cases hc : c = '_'
    · subst hc
      rw [pascal_chars_underscore, ada_chars_underscore, pascal_chars_filter rest true]
      simp
    · rw [pascal_chars_other start c rest hc, ada_chars_other start c rest hc,
        pascal_chars_filter rest false]
      simp [case_char_ne_underscore start c hc]

theorem pascal_chars_length :
    ∀ (l : List Char) (start : Bool),
      (pascal_chars start l).length = l.length - l.count '_'
  | [], _ => rfl
  | c :: rest, start => by
    have hle : rest.count '_' ≤ rest.length := List.count_le_length _ _
    by_cases hc : c = '_'
    · subst hc
      rw [pascal_chars_underscore, pascal_chars_length rest true]
      simp
    · have hc2 : ¬ (c == '_') = true := by simpa using hc
      rw [pascal_chars_other start c rest hc, List.length_cons, pascal_chars_length rest false,
        List.count_cons, if_neg hc2, List.length_cons]
      omega

/-- C15: `to_ada_case(s)` is `s` split at `_`, every part capitalized, the
parts joined with `_`; the result has the length of `s`, it has `_` at exactly
the positions where `s` has `_`, and at the first position of every non-empty
part it has the upper case form of the character of `s`; and
`to_ada_case("foo_bar")` is `"Foo_Bar"`.  This holds for every string, so for
every ASCII string. -/
theorem to_ada_case_spec (s : String) :
    util.to_ada_case s =
      pystring.join "_" ((pystring.split s "_").map pystring.capitalize) ∧
    (util.to_ada_case s).length = s.length ∧
    (∀ i : Nat, (util.to_ada_case s).data[i]? = some '_' ↔ s.data[i]? = some '_') ∧
    (∀ (i : Nat) (c : Char), s.data[i]? = some c → c ≠ '_' →
      (i = 0 ∨ s.data[i - 1]? = some '_') →
      (util.to_ada_case s).data[i]? = some (cctype.toupper c)) ∧
    util.to_ada_case "foo_bar" = "Foo_Bar" := by
  refine ⟨rfl, ?_, ?_, ?_, by decide⟩
  · show (util.to_ada_case s).data.length = s.data.length
    rw [to_ada_case_data, ada_chars_length]
  · intro i
    rw [to_ada_case_data]
    constructor
    · intro h
      have hi : i < s.data.length := by
        have := (List.getElem?_eq_some.mp h).1
        rwa [ada_chars_length] at this
      have hc : s.data[i]? = some s.data[i] := List.getElem?_eq_getElem hi
      rw [ada_chars_getElem s.data true i _ hc] at h
      by_cases h2 : s.data[i] = '_'
      · rw [hc, h2]
      · rw [if_neg h2] at h
        exact absurd (Option.some.inj h) (case_char_ne_underscore _ _ h2)
    · intro h
      rw [ada_chars_getElem s.data true i '_' h]
      simp
  · intro i c hc hne hstart
    rw [to_ada_case_data, ada_chars_getElem s.data true i c hc, if_neg hne]
    have : (if i = 0 then true else decide (s.data[i - 1]? = some '_')) = true := by
      rcases hstart with h | h
      · simp [h]
      · simp [h]
    rw [this, case_char_start]

theorem tolower_of_not_upper (c : Char) (h : cctype.isupper c = false) :
    cctype.tolower c = c := by
  unfold cctype.isupper at h
  unfold cctype.tolower
  rw [if_neg (of_decide_eq_false h)]

/-- C16 (amended): when `to_pascal_case(s)` is not empty, `to_camel_case(s)` is
`to_pascal_case(s)` with its first character replaced by the result of
`tolower` on that character, and nothing else changed; that first character is
a lower case letter whenever the first character of `to_pascal_case(s)` is a
letter, and it is the first character of `to_pascal_case(s)` unchanged whenever
that is no upper case letter (a digit stays a digit); it is never an upper
case letter. -/
theorem to_camel_case_spec (s : String) (p0 : Char) (rest : List Char)
    (h : (util.to_pascal_case s).data = p0 :: rest) :
    (util.to_camel_case s).data = cctype.tolower p0 :: rest ∧
    cctype.isupper (cctype.tolower p0) = false ∧
    cctype.tolower (cctype.tolower p0) = cctype.tolower p0 ∧
    ((cctype.isupper p0 = true ∨ cctype.islower p0 = true) →
      cctype.islower (cctype.tolower p0) = true) ∧
    (cctype.isupper p0 = false → cctype.tolower p0 = p0) := by
  refine ⟨?_, tolower_not_upper p0, tolower_idem p0, tolower_of_letter p0,
    tolower_of_not_upper p0⟩
  unfold util.to_camel_case
  simp only [h]

/-- Witness of C16 (amended): `foo_bar` in PascalCase is `FooBar`, and in
camelCase the `F` is replaced by its lower case form. -/
theorem to_camel_case_spec_witness :
    (util.to_pascal_case "foo_bar").data = 'F' :: "ooBar".data ∧
    (util.to_camel_case "foo_bar").data = cctype.tolower 'F' :: "ooBar".data ∧
    cctype.isupper (cctype.tolower 'F') = false ∧
    cctype.tolower (cctype.tolower 'F') = cctype.tolower 'F' ∧
    ((cctype.isupper 'F' = true ∨ cctype.islower 'F' = true) →
      cctype.islower (cctype.tolower 'F') = true) ∧
    (cctype.isupper 'F' = false → cctype.tolower 'F' = 'F') :=
  ⟨by decide, to_camel_case_spec "foo_bar" 'F' "ooBar".data (by decide)⟩

/-- C16 as stated fails: for `1x_y` the result of `to_pascal_case` is `1xY`,
which is not empty, and the result of `to_camel_case` is `1xY` too: its first
character is the digit `1`, which is no lower case letter. -/
theorem to_camel_case_digit_first :
    util.to_pascal_case "1x_y" = "1xY" ∧
    util.to_camel_case "1x_y" = "1xY" ∧
    (util.to_camel_case "1x_y").data.head? = some '1' ∧
    cctype.islower '1' = false := by
  decide

/-- C17: for every string `s`, `to_pascal_case(s)` is `to_ada_case(s)` with
every `_` removed; it contains no `_`, and its length is the length of `s`
minus the number of `_` in `s`. -/
theorem to_pascal_case_spec (s : String) :
    (util.to_pascal_case s).data =
      (util.to_ada_case s).data.filter (fun c => decide (c ≠ '_')) ∧
    '_' ∉ (util.to_pascal_case s).data ∧
    (util.to_pascal_case s).length = s.length - s.data.count '_' := by
  have hf : (util.to_pascal_case s).data =
      (util.to_ada_case s).data.filter (fun c => decide (c ≠ '_')) := by
    rw [to_pascal_case_data, to_ada_case_data, pascal_chars_filter]
  refine ⟨hf, ?_, ?_⟩
  · rw [hf]
    intro hmem
    have := (List.mem_filter.mp hmem).2
    simp at this
  · show (util.to_pascal_case s).data.length = s.data.length - _
    rw [to_pascal_case_data, pascal_chars_length]


/-! ## What the Validation Gate guarantees to `gen_shader_arrays` -/

theorem check_errors_body_result (to_str : Slang.Enum → String) (gen : GenInput) (i : Nat)
    (item : String × Program) (r : Option ErrMsg)
    (h : check_errors_body to_str gen i item = some r) :
    (r = none → ∃ vs fs, gen.inp.snippet_map item.2.vs_name = some vs ∧
      gen.inp.snippet_map item.2.fs_name = some fs ∧
      has_source gen i vs ∧ has_source gen i fs) ∧
    (∀ e, r = some e → e.valid = true) := by
  unfold check_errors_body at h
  simp only [] at h
  split at h
  · next vs fs hvs hfs =>
    simp only [find_source_neg_iff, Slang.from_index] at h
    by_cases h1 : has_source gen i vs
    · by_cases h2 : has_source gen i fs
      · simp only [h1, h2, not_true_eq_false, if_false] at h
        cases h
        exact ⟨fun _ => ⟨vs, fs, hvs, hfs, h1, h2⟩, fun e he => (by cases he)⟩
      · simp only [h1, h2, not_true_eq_false, not_false_eq_true, if_false, if_true] at h
        split at h
        · cases h
          refine ⟨fun hn => (by cases hn), fun e he => ?_⟩
          cases he
          rfl
        · cases h
    · simp only [h1, not_false_eq_true, if_true] at h
      split at h
      · cases h
        refine ⟨fun hn => (by cases hn), fun e he => ?_⟩
        cases he
        rfl
      · cases h
  · cases h

theorem check_errors_programs_result (to_str : Slang.Enum → String) (gen : GenInput) (i : Nat) :
    ∀ (ps : List (String × Program)) (r : Option ErrMsg),
      check_errors_programs to_str gen i ps = some r →
      (r = none → ∀ item ∈ ps, ∃ vs fs, gen.inp.snippet_map item.2.vs_name = some vs ∧
        gen.inp.snippet_map item.2.fs_name = some fs ∧
        has_source gen i vs ∧ has_source gen i fs) ∧
      (∀ e, r = some e → e.valid = true)
  | [], r, h => by
    simp only [check_errors_programs, Option.some.injEq] at h
    subst h
    exact ⟨fun _ item hitem => absurd hitem (by simp), fun e he => (by cases he)⟩
  | item :: rest, r, h => by
    unfold check_errors_programs at h
    split at h
    · cases h
    · next e hb =>
      cases h
      refine ⟨fun hn => (by cases hn), fun e2 he => ?_⟩
      cases he
      exact (check_errors_body_result to_str gen i item _ hb).2 e rfl
    · next hb =>
      obtain ⟨h1, h2⟩ := check_errors_programs_result to_str gen i rest r h
      refine ⟨fun hn it hit => ?_, h2⟩
      rcases List.mem_cons.mp hit with rfl | hit
      · exact (check_errors_body_result to_str gen i it none hb).1 rfl
      · exact h1 hn it hit

theorem check_errors_slangs_result (to_str : Slang.Enum → String) (gen : GenInput) :
    ∀ (is : List Nat) (e : ErrMsg),
      check_errors_slangs to_str gen is = some e → e.valid = false →
      ∀ i ∈ is, gen.slang_selected i = true → ∀ item ∈ gen.inp.programs,
        ∃ vs fs, gen.inp.snippet_map item.2.vs_name = some vs ∧
          gen.inp.snippet_map item.2.fs_name = some fs ∧
          has_source gen i vs ∧ has_source gen i fs
  | [], _, _, _ => fun i hi => absurd hi (by simp)
  | j :: rest, e, h, hok => by
    unfold check_errors_slangs at h
    intro i hi hsel item hitem
    by_cases hj : gen.slang_selected j = true
    · simp only [Slang.from_index, hj, if_true] at h
      split at h
      · cases h
      · next e1 hp =>
        cases h
        have := (check_errors_programs_result to_str gen j _ _ hp).2 e rfl
        rw [hok] at this
        exact absurd this (by simp)
      · next hp =>
        rcases List.mem_cons.mp hi with rfl | hi
        · exact (check_errors_programs_result to_str gen i _ _ hp).1 rfl item hitem
        · exact check_errors_slangs_result to_str gen rest e h hok i hi hsel item hitem
    · have hj2 : gen.slang_selected j = false := by simpa using hj
      simp only [Slang.from_index, hj2, Bool.false_eq_true, if_false] at h
      rcases List.mem_cons.mp hi with rfl | hi
      · exact absurd hsel hj
      · exact check_errors_slangs_result to_str gen rest e h hok i hi hsel item hitem

theorem find_source_found (gen : GenInput) (i : Slang.Enum) (idx : Int)
    (h : has_source gen i idx) :
    0 ≤ (gen.spirvcross i).find_source_by_snippet_index idx ∧
    (at_index (gen.spirvcross i).sources
      ((gen.spirvcross i).find_source_by_snippet_index idx)).isSome = true := by
  obtain ⟨j, src, hj, hget, _⟩ := find_source_from_found idx _ 0 h
  unfold Spirvcross.find_source_by_snippet_index
  rw [hj]
  refine ⟨by omega, ?_⟩
  rw [at_index_natCast]
  simp [hget]

/-- What the Validation Gate does establish (a fact that supports C18): for
every input on which `check_errors` reports no error,
for every selected target and every vertex or fragment snippet that a declared
program names as one of its stages, `find_source_by_snippet_index` returns an
index `>= 0` at which the vector of sources holds a source, so that the
assertion of `gen_shader_arrays` holds and the source is read in range for
these snippets. -/
theorem check_errors_ok_sources (to_str : Slang.Enum → String) (gen : GenInput) (e : ErrMsg)
    (hce : check_errors to_str gen = some e) (hok : e.valid = false) :
    ∀ i, i < Slang.Num → gen.slang_selected i = true → ∀ item ∈ gen.inp.programs,
      ∃ vs fs, gen.inp.snippet_map item.2.vs_name = some vs ∧
        gen.inp.snippet_map item.2.fs_name = some fs ∧
        0 ≤ (gen.spirvcross i).find_source_by_snippet_index vs ∧
        0 ≤ (gen.spirvcross i).find_source_by_snippet_index fs ∧
        (at_index (gen.spirvcross i).sources
          ((gen.spirvcross i).find_source_by_snippet_index vs)).isSome = true ∧
        (at_index (gen.spirvcross i).sources
          ((gen.spirvcross i).find_source_by_snippet_index fs)).isSome = true := by
  intro i hi hsel item hitem
  obtain ⟨vs, fs, hvs, hfs, h1, h2⟩ :=
    check_errors_slangs_result to_str gen (List.range Slang.Num) e hce hok i
      (List.mem_range.mpr hi) hsel item hitem
  exact ⟨vs, fs, hvs, hfs, (find_source_found gen i vs h1).1, (find_source_found gen i fs h2).1,
    (find_source_found gen i vs h1).2, (find_source_found gen i fs h2).2⟩

theorem check_errors_ok_sources_witness :
    check_errors sample_to_str sample_full = some ErrMsg.ok ∧
    ∀ i, i < Slang.Num → sample_full.slang_selected i = true →
      ∀ item ∈ sample_full.inp.programs,
      ∃ vs fs, sample_full.inp.snippet_map item.2.vs_name = some vs ∧
        sample_full.inp.snippet_map item.2.fs_name = some fs ∧
        0 ≤ (sample_full.spirvcross i).find_source_by_snippet_index vs ∧
        0 ≤ (sample_full.spirvcross i).find_source_by_snippet_index fs ∧
        (at_index (sample_full.spirvcross i).sources
          ((sample_full.spirvcross i).find_source_by_snippet_index vs)).isSome = true ∧
        (at_index (sample_full.spirvcross i).sources
          ((sample_full.spirvcross i).find_source_by_snippet_index fs)).isSome = true :=
  ⟨by decide, check_errors_ok_sources sample_to_str sample_full ErrMsg.ok (by decide) rfl⟩

/-- C18 (the failing input): on the sample input `check_errors` reports no
error, target 0 is selected and the snippet of index 2 is a vertex shader, and
`find_source_by_snippet_index` returns `-1` for it, so that the assertion
`src_index >= 0` fails and `gen_shader_arrays` does not return. -/
theorem validated_unused_snippet_has_no_source :
    check_errors sample_to_str sample_unused_vs = some ErrMsg.ok ∧
    sample_unused_vs.slang_selected 0 = true ∧
    sample_unused_vs.inp.snippets[2]? = some ⟨SnippetType.VS, "unused", [11]⟩ ∧
    (sample_unused_vs.spirvcross 0).find_source_by_snippet_index 2 = -1 ∧
    Generator.gen_shader_arrays sample_env sample_backend sample_unused_vs sample_fresh =
      none := by
  refine ⟨by decide, by decide, by decide, by decide, ?_⟩
  rfl


/-! ## The writers of the header -/

theorem extends_by_cbl_refl (g : Generator) : extends_by_cbl g g :=
  ⟨rfl, [], by simp, fun e he => absurd he (by simp)⟩

theorem extends_by_cbl_trans {g1 g2 g3 : Generator} (h12 : extends_by_cbl g1 g2)
    (h23 : extends_by_cbl g2 g3) : extends_by_cbl g1 g3 := by
  obtain ⟨m1, e1, l1, c1⟩ := h12
  obtain ⟨m2, e2, l2, c2⟩ := h23
  refine ⟨m2.trans m1, e1 ++ e2, by rw [l2, l1, List.append_assoc], ?_⟩
  intro e he
  rcases List.mem_append.mp he with h | h
  · exact c1 e h
  · exact c2 e h

theorem extends_step_cbl (B : Backend) (text : String) {g x : Generator}
    (h : extends_by_cbl g x) : extends_by_cbl g (Generator.cbl B text x) :=
  extends_by_cbl_trans h ⟨by simp, [Event.cbl text], by simp, by simp⟩

theorem extends_step_cbl_open (B : Backend) (text : String) {g x : Generator}
    (h : extends_by_cbl g x) : extends_by_cbl g (Generator.cbl_open B text x) :=
  extends_by_cbl_trans h ⟨by simp [Generator.cbl_open], [Event.cbl text], by simp, by simp⟩

theorem extends_step_cbl_close_text (B : Backend) (text : String) {g x : Generator}
    (h : extends_by_cbl g x) : extends_by_cbl g (Generator.cbl_close_text B text x) :=
  extends_by_cbl_trans h
    ⟨by simp [Generator.cbl_close_text], [Event.cbl text], by simp, by simp⟩

theorem extends_step_cbl_close {g x : Generator}
    (h : extends_by_cbl g x) : extends_by_cbl g (Generator.cbl_close x) :=
  extends_by_cbl_trans h ⟨by simp [Generator.cbl_close], [], by simp, by simp⟩

theorem extends_foldl {α : Type} (f : Generator → α → Generator)
    (hf : ∀ g x, extends_by_cbl g (f g x)) :
    ∀ (xs : List α) (g : Generator), extends_by_cbl g (xs.foldl f g) := by
  intro xs
  induction xs with
  | nil => intro g; exact extends_by_cbl_refl g
  | cons x xs ih => intro g; exact extends_by_cbl_trans (hf g x) (ih (f g x))

theorem extends_step_foldl {α : Type} (f : Generator → α → Generator) (xs : List α)
    {g x : Generator} (hf : ∀ g x, extends_by_cbl g (f g x)) (h : extends_by_cbl g x) :
    extends_by_cbl g (xs.foldl f x) :=
  extends_by_cbl_trans h (extends_foldl f hf xs x)

theorem gen_bindings_info_extends (B : Backend) (bindings : Bindings) (g : Generator) :
    extends_by_cbl g (Generator.gen_bindings_info B bindings g) := by
  unfold Generator.gen_bindings_info
  simp only []
  apply extends_step_foldl
  · intro g0 x0
    apply extends_step_cbl_close
    apply extends_step_cbl
    apply extends_step_cbl
    apply extends_step_cbl_open
    exact extends_by_cbl_refl _
  apply extends_step_foldl
  · intro g0 x0
    apply extends_step_cbl_close
    apply extends_step_cbl
    apply extends_step_cbl
    apply extends_step_cbl_open
    exact extends_by_cbl_refl _
  apply extends_step_foldl
  · intro g0 x0
    apply extends_step_cbl_close
    apply extends_step_cbl
    apply extends_step_cbl
    apply extends_step_cbl
    apply extends_step_cbl
    apply extends_step_cbl_open
    exact extends_by_cbl_refl _
  apply extends_step_foldl
  · intro g0 x0
    apply extends_step_cbl_close
    apply extends_step_cbl
    apply extends_step_cbl
    apply extends_step_cbl_open
    exact extends_by_cbl_refl _
  exact extends_by_cbl_refl _

theorem extends_step_bindings (B : Backend) (bindings : Bindings) {g x : Generator}
    (h : extends_by_cbl g x) :
    extends_by_cbl g (Generator.gen_bindings_info B bindings x) :=
  extends_by_cbl_trans h (gen_bindings_info_extends B bindings x)

theorem gen_vertex_shader_info_extends (B : Backend) (prog : ProgramReflection)
    (g : Generator) :
    extends_by_cbl g (Generator.gen_vertex_shader_info B prog g) := by
  unfold Generator.gen_vertex_shader_info
  simp only []
  apply extends_step_cbl_close
  apply extends_step_bindings
  apply extends_step_cbl_close
  apply extends_step_foldl
  · intro g0 x0
    split_ifs
    · apply extends_step_cbl
      exact extends_by_cbl_refl _
    · exact extends_by_cbl_refl _
  apply extends_step_cbl_open
  apply extends_step_cbl_open
  exact extends_by_cbl_refl _

theorem gen_fragment_shader_info_extends (B : Backend) (prog : ProgramReflection)
    (g : Generator) :
    extends_by_cbl g (Generator.gen_fragment_shader_info B prog g) := by
  unfold Generator.gen_fragment_shader_info
  simp only []
  apply extends_step_cbl_close
  apply extends_step_bindings
  apply extends_step_cbl_open
  exact extends_by_cbl_refl _

theorem extends_step_vertex_info (B : Backend) (prog : ProgramReflection) {g x : Generator}
    (h : extends_by_cbl g x) :
    extends_by_cbl g (Generator.gen_vertex_shader_info B prog x) :=
  extends_by_cbl_trans h (gen_vertex_shader_info_extends B prog x)

theorem extends_step_fragment_info (B : Backend) (prog : ProgramReflection) {g x : Generator}
    (h : extends_by_cbl g x) :
    extends_by_cbl g (Generator.gen_fragment_shader_info B prog x) :=
  extends_by_cbl_trans h (gen_fragment_shader_info_extends B prog x)

/-- The header between the two comment delimiters: the fixed lines and then the
overview of the programs, which `cbl` alone writes. -/
theorem gen_header_inner (B : Backend) (gen : GenInput) (g : Generator) :
    ∃ y, Generator.gen_header B gen g = Generator.l "\n" (Generator.cbl_end B y) ∧
      extends_by_cbl
        (Generator.cbl B "=========\n" (Generator.cbl B "Overview:\n"
          (Generator.cbl_close_text B "\n" (Generator.cbl B (gen.args.cmdline ++ "\n")
            (Generator.cbl_open B "Cmdline:\n"
              (Generator.cbl B
                "Generated by sokol-shdc (https://github.com/floooh/sokol-tools)\n\n"
                (Generator.cbl B ("#version:" ++ toString gen.args.gen_version
                  ++ " (machine generated, don't edit!)\n\n")
                  (Generator.cbl_start B g)))))))) y := by
  refine ⟨_, rfl, ?_⟩
  apply extends_foldl
  intro g0 prog
  apply extends_step_cbl_close
  apply extends_step_fragment_info
  apply extends_step_vertex_info
  apply extends_step_cbl
  apply extends_step_cbl_open
  exact extends_by_cbl_refl _


theorem plain_of_append (a b : List Event) : plain_of (a ++ b) = plain_of a ++ plain_of b := by
  simp [plain_of, List.filterMap_append]

theorem plain_of_cbl_only (evs : List Event) (h : ∀ e ∈ evs, ∃ t, e = Event.cbl t) :
    plain_of evs = [] := by
  induction evs with
  | nil => rfl
  | cons e rest ih =>
    obtain ⟨t, ht⟩ := h e (by simp)
    have hr := ih (fun e he => h e (by simp [he]))
    subst ht
    simpa [plain_of] using hr

/-- C20 (amended): for every input and backend, the calls the default
`gen_header` makes to the two writers are, in order: one call of the plain
writer `l` with the comment start delimiter, then calls of the comment block
writer `cbl` only (version, banner, command line, overview heading, and all the
lines on the programs), then two calls of `l`, with the comment end delimiter
and with a blank line. So the documentation goes through `cbl` alone, and `l`
writes exactly the two delimiters and the closing blank line. -/
theorem gen_header_writers (B : Backend) (gen : GenInput) (g : Generator) :
    (∃ evs, (∀ e ∈ evs, ∃ t, e = Event.cbl t) ∧
      (Generator.gen_header B gen g).log = g.log
        ++ [Event.l ((B g.mod_prefix).comment_block_start ++ "\n"),
          Event.cbl ("#version:" ++ toString gen.args.gen_version
            ++ " (machine generated, don't edit!)\n\n"),
          Event.cbl "Generated by sokol-shdc (https://github.com/floooh/sokol-tools)\n\n",
          Event.cbl "Cmdline:\n", Event.cbl (gen.args.cmdline ++ "\n"), Event.cbl "\n",
          Event.cbl "Overview:\n", Event.cbl "=========\n"]
        ++ evs
        ++ [Event.l ((B g.mod_prefix).comment_block_end ++ "\n"), Event.l "\n"]) ∧
    plain_of (Generator.gen_header B gen g).log = plain_of g.log
      ++ [(B g.mod_prefix).comment_block_start ++ "\n",
        (B g.mod_prefix).comment_block_end ++ "\n", "\n"] := by
  obtain ⟨y, hy, hm, evs, hl, hc⟩ := gen_header_inner B gen g
  have hm2 : y.mod_prefix = g.mod_prefix := by
    rw [hm]; simp [Generator.cbl_open, Generator.cbl_close_text]
  have hlog : (Generator.gen_header B gen g).log = g.log
        ++ [Event.l ((B g.mod_prefix).comment_block_start ++ "\n"),
          Event.cbl ("#version:" ++ toString gen.args.gen_version
            ++ " (machine generated, don't edit!)\n\n"),
          Event.cbl "Generated by sokol-shdc (https://github.com/floooh/sokol-tools)\n\n",
          Event.cbl "Cmdline:\n", Event.cbl (gen.args.cmdline ++ "\n"), Event.cbl "\n",
          Event.cbl "Overview:\n", Event.cbl "=========\n"]
        ++ evs
        ++ [Event.l ((B g.mod_prefix).comment_block_end ++ "\n"), Event.l "\n"] := by
    rw [hy]
    simp only [Generator.l_log, Generator.cbl_end_log, hl, hm2]
    simp [Generator.cbl_open, Generator.cbl_close_text]
  refine ⟨⟨evs, hc, hlog⟩, ?_⟩
  rw [hlog]
  simp only [plain_of_append, plain_of_cbl_only evs hc]
  simp [plain_of]

/-- C20 (counterexample): on the sample input the default `gen_header` hands
three texts to the plain writer `l`: the comment start, the comment end and a
blank line. -/
theorem gen_header_uses_plain_writer :
    plain_of (Generator.gen_header sample_backend sample_full sample_fresh).log
      = ["/*\n", "*/\n", "\n"] := by
  decide


/-! ## The members after a call do not depend on the record of calls -/

theorem same_members_refl (g : Generator) : same_members g g := ⟨rfl, rfl, rfl⟩

theorem same_l (text : String) {x1 x2 : Generator} (h : same_members x1 x2) :
    same_members (Generator.l text x1) (Generator.l text x2) := by
  obtain ⟨a, b, c⟩ := h
  refine ⟨?_, ?_, ?_⟩ <;> simp [Generator.l, a, b, c]

theorem same_indent {x1 x2 : Generator} (h : same_members x1 x2) :
    same_members (Generator.indent x1) (Generator.indent x2) := by
  obtain ⟨a, b, c⟩ := h
  refine ⟨?_, ?_, ?_⟩ <;> simp [Generator.indent, a, b, c]

theorem same_dedent {x1 x2 : Generator} (h : same_members x1 x2) :
    same_members (Generator.dedent x1) (Generator.dedent x2) := by
  obtain ⟨a, b, c⟩ := h
  refine ⟨?_, ?_, ?_⟩ <;> simp [Generator.dedent, a, b, c]

theorem same_reset_indent {x1 x2 : Generator} (h : same_members x1 x2) :
    same_members (Generator.reset_indent x1) (Generator.reset_indent x2) := by
  obtain ⟨a, b, c⟩ := h
  refine ⟨?_, ?_, ?_⟩ <;> simp [Generator.reset_indent, a, b, c]

theorem same_cbl (B : Backend) (text : String) {x1 x2 : Generator} (h : same_members x1 x2) :
    same_members (Generator.cbl B text x1) (Generator.cbl B text x2) := by
  obtain ⟨a, b, c⟩ := h
  refine ⟨?_, ?_, ?_⟩ <;> simp [Generator.cbl, a, b, c]

theorem same_enter (p : Phase) {x1 x2 : Generator} (h : same_members x1 x2) :
    same_members (Generator.enter p x1) (Generator.enter p x2) := by
  obtain ⟨a, b, c⟩ := h
  refine ⟨?_, ?_, ?_⟩ <;> simp [Generator.enter, a, b, c]

theorem same_l_open (text : String) {x1 x2 : Generator} (h : same_members x1 x2) :
    same_members (Generator.l_open text x1) (Generator.l_open text x2) :=
  same_indent (same_l text h)

theorem same_l_close (text : String) {x1 x2 : Generator} (h : same_members x1 x2) :
    same_members (Generator.l_close text x1) (Generator.l_close text x2) :=
  same_l text (same_dedent h)

theorem same_cbl_open (B : Backend) (text : String) {x1 x2 : Generator}
    (h : same_members x1 x2) :
    same_members (Generator.cbl_open B text x1) (Generator.cbl_open B text x2) :=
  same_indent (same_cbl B text h)

theorem same_cbl_close_text (B : Backend) (text : String) {x1 x2 : Generator}
    (h : same_members x1 x2) :
    same_members (Generator.cbl_close_text B text x1) (Generator.cbl_close_text B text x2) :=
  same_cbl B text (same_dedent h)

theorem same_cbl_close {x1 x2 : Generator} (h : same_members x1 x2) :
    same_members (Generator.cbl_close x1) (Generator.cbl_close x2) :=
  same_dedent h

theorem same_cbl_start (B : Backend) {x1 x2 : Generator} (h : same_members x1 x2) :
    same_members (Generator.cbl_start B x1) (Generator.cbl_start B x2) := by
  unfold Generator.cbl_start
  rw [h.1]
  exact same_l_open _ h

theorem same_cbl_end (B : Backend) {x1 x2 : Generator} (h : same_members x1 x2) :
    same_members (Generator.cbl_end B x1) (Generator.cbl_end B x2) := by
  unfold Generator.cbl_end
  rw [h.1]
  exact same_l_close _ h

theorem same_write (B : Backend) (c : WriterCall) {x1 x2 : Generator}
    (h : same_members x1 x2) :
    same_members (Generator.write B c x1) (Generator.write B c x2) := by
  cases c with
  | reset_indent => exact same_reset_indent h
  | l text => exact same_l text h
  | l_open text => exact same_l_open text h
  | l_close text => exact same_l_close text h
  | cbl_start => exact same_cbl_start B h
  | cbl text => exact same_cbl B text h
  | cbl_open text => exact same_cbl_open B text h
  | cbl_close_text text => exact same_cbl_close_text B text h
  | cbl_close => exact same_cbl_close h
  | cbl_end => exact same_cbl_end B h

theorem same_foldl {α : Type} (f : Generator → α → Generator)
    (hf : ∀ a b x, same_members a b → same_members (f a x) (f b x)) :
    ∀ (xs : List α) (x1 x2 : Generator), same_members x1 x2 →
      same_members (xs.foldl f x1) (xs.foldl f x2) := by
  intro xs
  induction xs with
  | nil => intro x1 x2 h; exact h
  | cons x xs ih => intro x1 x2 h; exact ih _ _ (hf _ _ x h)

theorem same_step_foldl {α : Type} (f : Generator → α → Generator) (xs : List α)
    {x1 x2 : Generator}
    (hf : ∀ a b x, same_members a b → same_members (f a x) (f b x))
    (h : same_members x1 x2) :
    same_members (xs.foldl f x1) (xs.foldl f x2) :=
  same_foldl f hf xs x1 x2 h

theorem same_call_hook (B : Backend) (gen : GenInput) (hk : Hook) {x1 x2 : Generator}
    (h : same_members x1 x2) :
    same_members (Generator.call_hook B gen hk x1) (Generator.call_hook B gen hk x2) := by
  have hf := same_foldl (fun g c => Generator.write B c g)
    (fun a b c hab => same_write B c hab) ((B x2.mod_prefix).visit gen hk) x1 x2 h
  obtain ⟨a, b, c⟩ := hf
  refine ⟨?_, ?_, ?_⟩ <;> simp [Generator.call_hook, h.1, a, b, c]


@[simp] theorem cbl_open_mod_prefix (B : Backend) (text : String) (g : Generator) :
    (Generator.mod_prefix (Generator.cbl_open B text g)) = g.mod_prefix := rfl

@[simp] theorem cbl_close_text_mod_prefix (B : Backend) (text : String) (g : Generator) :
    (Generator.mod_prefix (Generator.cbl_close_text B text g)) = g.mod_prefix := rfl

@[simp] theorem cbl_close_mod_prefix (g : Generator) :
    (Generator.mod_prefix (Generator.cbl_close g)) = g.mod_prefix := rfl

theorem same_gen_bindings_info (B : Backend) (bindings : Bindings) {x1 x2 : Generator}
    (h : same_members x1 x2) :
    same_members (Generator.gen_bindings_info B bindings x1)
      (Generator.gen_bindings_info B bindings x2) := by
  unfold Generator.gen_bindings_info
  simp only []
  apply same_step_foldl
  · intro a b x hab
    apply same_cbl_close
    apply same_cbl
    apply same_cbl
    apply same_cbl_open
    exact hab
  apply same_step_foldl
  · intro a b x hab
    simp only [ cbl_open_mod_prefix, Generator.cbl_mod_prefix, hab.1]
    apply same_cbl_close
    apply same_cbl
    apply same_cbl
    apply same_cbl_open
    exact hab
  apply same_step_foldl
  · intro a b x hab
    simp only [ cbl_open_mod_prefix, Generator.cbl_mod_prefix, hab.1]
    apply same_cbl_close
    apply same_cbl
    apply same_cbl
    apply same_cbl
    apply same_cbl
    apply same_cbl_open
    exact hab
  apply same_step_foldl
  · intro a b x hab
    simp only [ cbl_open_mod_prefix, Generator.cbl_mod_prefix, hab.1]
    apply same_cbl_close
    apply same_cbl
    apply same_cbl
    apply same_cbl_open
    exact hab
  exact h

theorem same_gen_vertex_shader_info (B : Backend) (prog : ProgramReflection)
    {x1 x2 : Generator} (h : same_members x1 x2) :
    same_members (Generator.gen_vertex_shader_info B prog x1)
      (Generator.gen_vertex_shader_info B prog x2) := by
  unfold Generator.gen_vertex_shader_info
  simp only []
  apply same_cbl_close
  apply same_gen_bindings_info
  apply same_cbl_close
  apply same_step_foldl
  · intro a b x hab
    rw [hab.1]
    split_ifs
    · exact same_cbl B _ hab
    · exact hab
  apply same_cbl_open
  apply same_cbl_open
  exact h

theorem same_gen_fragment_shader_info (B : Backend) (prog : ProgramReflection)
    {x1 x2 : Generator} (h : same_members x1 x2) :
    same_members (Generator.gen_fragment_shader_info B prog x1)
      (Generator.gen_fragment_shader_info B prog x2) := by
  unfold Generator.gen_fragment_shader_info
  simp only []
  apply same_cbl_close
  apply same_gen_bindings_info
  apply same_cbl_open
  exact h

theorem same_gen_header (B : Backend) (gen : GenInput) {x1 x2 : Generator}
    (h : same_members x1 x2) :
    same_members (Generator.gen_header B gen x1) (Generator.gen_header B gen x2) := by
  unfold Generator.gen_header
  simp only []
  apply same_l
  apply same_cbl_end
  apply same_step_foldl
  · intro a b x hab
    simp only [ cbl_open_mod_prefix, hab.1]
    apply same_cbl_close
    apply same_gen_fragment_shader_info
    apply same_gen_vertex_shader_info
    apply same_cbl
    apply same_cbl_open
    exact hab
  apply same_cbl
  apply same_cbl
  apply same_cbl_close_text
  apply same_cbl
  apply same_cbl_open
  apply same_cbl
  apply same_cbl
  apply same_cbl_start
  exact h

theorem same_gen_vertex_attr_consts (B : Backend) (gen : GenInput) {x1 x2 : Generator}
    (h : same_members x1 x2) :
    same_members (Generator.gen_vertex_attr_consts B gen x1)
      (Generator.gen_vertex_attr_consts B gen x2) := by
  unfold Generator.gen_vertex_attr_consts
  apply same_step_foldl
  · intro a b prog hab
    apply same_step_foldl
    · intro a2 b2 attr hab2
      rw [hab2.1]
      split_ifs
      · exact same_l _ hab2
      · exact hab2
    exact hab
  exact h

theorem same_gen_bind_slot_consts (B : Backend) (gen : GenInput) {x1 x2 : Generator}
    (h : same_members x1 x2) :
    same_members (Generator.gen_bind_slot_consts B gen x1)
      (Generator.gen_bind_slot_consts B gen x2) := by
  unfold Generator.gen_bind_slot_consts
  simp only []
  apply same_l
  apply same_step_foldl
  · intro a b x hab
    rw [hab.1]
    exact same_l _ hab
  apply same_l
  apply same_step_foldl
  · intro a b x hab
    rw [hab.1]
    exact same_l _ hab
  apply same_l
  apply same_step_foldl
  · intro a b x hab
    rw [hab.1]
    exact same_l _ hab
  exact h

theorem same_gen_uniformblock_decls (B : Backend) (gen : GenInput) {x1 x2 : Generator}
    (h : same_members x1 x2) :
    same_members (Generator.gen_uniformblock_decls B gen x1)
      (Generator.gen_uniformblock_decls B gen x2) := by
  unfold Generator.gen_uniformblock_decls
  apply same_step_foldl
  · intro a b x hab
    exact same_call_hook B gen _ hab
  exact h

theorem same_gen_shader_desc_funcs (B : Backend) (gen : GenInput) {x1 x2 : Generator}
    (h : same_members x1 x2) :
    same_members (Generator.gen_shader_desc_funcs B gen x1)
      (Generator.gen_shader_desc_funcs B gen x2) := by
  unfold Generator.gen_shader_desc_funcs
  apply same_step_foldl
  · intro a b x hab
    exact same_call_hook B gen _ hab
  exact h

theorem same_gen_reflection_funcs (B : Backend) (gen : GenInput) {x1 x2 : Generator}
    (h : same_members x1 x2) :
    same_members (Generator.gen_reflection_funcs B gen x1)
      (Generator.gen_reflection_funcs B gen x2) := by
  unfold Generator.gen_reflection_funcs
  apply same_step_foldl
  · intro a b x hab
    simp only []
    apply same_call_hook
    apply same_call_hook
    apply same_call_hook
    apply same_call_hook
    apply same_call_hook
    apply same_call_hook
    apply same_call_hook
    exact hab
  exact h

theorem same_array_loop (value : Nat → String) (len : Nat) {x1 x2 : Generator}
    (h : same_members x1 x2) :
    same_members (Generator.array_loop value len x1) (Generator.array_loop value len x2) := by
  unfold Generator.array_loop
  apply same_step_foldl
  · intro a b i hab
    unfold Generator.array_loop_body
    simp only []
    by_cases c0 : i &&& 15 = 0 <;> by_cases c15 : i &&& 15 = 15
    · rw [c0] at c15
      exact absurd c15 (by decide)
    · simp only [c0, c15, if_true, if_false]
      exact same_l _ (same_l _ hab)
    · simp only [c0, c15, if_true, if_false]
      exact same_l _ (same_l _ hab)
    · simp only [c0, c15, if_false]
      exact same_l _ hab
  exact h


theorem same_gen_shader_arrays_body (env : Env) (B : Backend) (gen : GenInput)
    (slang : Slang.Enum) (snippet_index : Nat) (snippet : Snippet) {x1 x2 : Generator}
    (h : same_members x1 x2) :
    same_result (Generator.gen_shader_arrays_body env B gen slang snippet_index snippet x1)
      (Generator.gen_shader_arrays_body env B gen slang snippet_index snippet x2) := by
  unfold Generator.gen_shader_arrays_body
  simp only []
  by_cases hty : snippet.type ≠ SnippetType.VS ∧ snippet.type ≠ SnippetType.FS
  · simp only [if_pos hty]
    exact h
  simp only [if_neg hty]
  by_cases hneg : (gen.spirvcross slang).find_source_by_snippet_index snippet_index < 0
  · simp only [if_pos hneg]
    trivial
  simp only [if_neg hneg]
  cases hsrc : at_index (gen.spirvcross slang).sources
      ((gen.spirvcross slang).find_source_by_snippet_index snippet_index) with
  | none => trivial
  | some src =>
    simp only []
    have hdoc : same_members
        (Generator.cbl_end B ((pystring.splitlines src.source_code).foldl (fun g line =>
          Generator.cbl B (util.replace_C_comment_tokens line ++ "\n") g)
          (Generator.cbl_start B x1)))
        (Generator.cbl_end B ((pystring.splitlines src.source_code).foldl (fun g line =>
          Generator.cbl B (util.replace_C_comment_tokens line ++ "\n") g)
          (Generator.cbl_start B x2))) := by
      apply same_cbl_end
      apply same_step_foldl
      · intro a b line hab
        exact same_cbl B _ hab
      exact same_cbl_start B h
    by_cases hblob : (gen.bytecode slang).find_blob_by_snippet_index snippet_index ≠ -1
    · simp only [if_pos hblob]
      cases hb : at_index (gen.bytecode slang).blobs
          ((gen.bytecode slang).find_blob_by_snippet_index snippet_index) with
      | none => trivial
      | some blob =>
        simp only []
        rw [hdoc.1]
        exact same_call_hook B gen _ (same_array_loop _ _ (same_call_hook B gen _ hdoc))
    · simp only [if_neg hblob]
      rw [hdoc.1]
      exact same_call_hook B gen _ (same_array_loop _ _ (same_call_hook B gen _ hdoc))

theorem same_gen_shader_arrays_snippets (env : Env) (B : Backend) (gen : GenInput)
    (slang : Slang.Enum) :
    ∀ (snippets : List Snippet) (snippet_index : Nat) (x1 x2 : Generator),
      same_members x1 x2 →
      same_result (Generator.gen_shader_arrays_snippets env B gen slang snippets snippet_index x1)
        (Generator.gen_shader_arrays_snippets env B gen slang snippets snippet_index x2) := by
  intro snippets
  induction snippets with
  | nil => intro _ x1 x2 h; exact h
  | cons snippet rest ih =>
    intro snippet_index x1 x2 h
    have hb := same_gen_shader_arrays_body env B gen slang snippet_index snippet h
    unfold Generator.gen_shader_arrays_snippets
    cases h1 : Generator.gen_shader_arrays_body env B gen slang snippet_index snippet x1 with
    | none =>
      cases h2 : Generator.gen_shader_arrays_body env B gen slang snippet_index snippet x2 with
      | none => trivial
      | some b => rw [h1, h2] at hb; exact hb.elim
    | some a =>
      cases h2 : Generator.gen_shader_arrays_body env B gen slang snippet_index snippet x2 with
      | none => rw [h1, h2] at hb; exact hb.elim
      | some b =>
        rw [h1, h2] at hb
        exact ih (snippet_index + 1) a b hb

theorem same_gen_shader_arrays_slangs (env : Env) (B : Backend) (gen : GenInput) :
    ∀ (slangs : List Nat) (x1 x2 : Generator), same_members x1 x2 →
      same_result (Generator.gen_shader_arrays_slangs env B gen slangs x1)
        (Generator.gen_shader_arrays_slangs env B gen slangs x2) := by
  intro slangs
  induction slangs with
  | nil => intro x1 x2 h; exact h
  | cons slang_idx rest ih =>
    intro x1 x2 h
    unfold Generator.gen_shader_arrays_slangs
    simp only []
    by_cases hsel : gen.slang_selected (Slang.from_index slang_idx) = true
    · simp only [if_pos hsel]
      have hb := same_gen_shader_arrays_snippets env B gen (Slang.from_index slang_idx)
        gen.inp.snippets 0 x1 x2 h
      cases h1 : Generator.gen_shader_arrays_snippets env B gen (Slang.from_index slang_idx)
          gen.inp.snippets 0 x1 with
      | none =>
        cases h2 : Generator.gen_shader_arrays_snippets env B gen (Slang.from_index slang_idx)
            gen.inp.snippets 0 x2 with
        | none => trivial
        | some b => rw [h1, h2] at hb; exact hb.elim
      | some a =>
        cases h2 : Generator.gen_shader_arrays_snippets env B gen (Slang.from_index slang_idx)
            gen.inp.snippets 0 x2 with
        | none => rw [h1, h2] at hb; exact hb.elim
        | some b =>
          rw [h1, h2] at hb
          exact ih a b hb
    · simp only [if_neg hsel]
      exact ih x1 x2 h

theorem same_gen_shader_arrays (env : Env) (B : Backend) (gen : GenInput) {x1 x2 : Generator}
    (h : same_members x1 x2) :
    same_result (Generator.gen_shader_arrays env B gen x1)
      (Generator.gen_shader_arrays env B gen x2) :=
  same_gen_shader_arrays_slangs env B gen (List.range Slang.Num) x1 x2 h


theorem same_begin_state (mp : String) (g1 g2 : Generator)
    (h : g1.indentation = g2.indentation) :
    same_members
      { mod_prefix := mp, indentation := (Generator.enter Phase.begin g1).indentation,
        content := "", log := (Generator.enter Phase.begin g1).log }
      { mod_prefix := mp, indentation := (Generator.enter Phase.begin g2).indentation,
        content := "", log := (Generator.enter Phase.begin g2).log } := by
  refine ⟨?_, ?_, ?_⟩ <;> simp [Generator.enter, h]

theorem same_end (gen : GenInput) (fs : FileSystem) {x1 x2 : Generator}
    (h : same_members x1 x2) :
    outcome ((Generator.end_ gen x1 fs).1, x1, (Generator.end_ gen x1 fs).2)
      = outcome ((Generator.end_ gen x2 fs).1, x2, (Generator.end_ gen x2 fs).2) := by
  obtain ⟨a, b, c⟩ := h
  unfold Generator.end_ outcome
  by_cases ho : fs.can_open gen.args.output = true
  · simp only [if_pos ho, a, b, c]
  · simp only [if_neg ho, a, b, c]

theorem same_generate_tail (gen : GenInput) (fs : FileSystem) (post : Generator → Generator)
    (hpost : ∀ a b, same_members a b → same_members (post a) (post b))
    (r1 r2 : Option Generator) : same_result r1 r2 →
    Option.map outcome (match r1 with
      | none => none
      | some g => some ((Generator.end_ gen (Generator.enter Phase.end_ (post g)) fs).1,
          Generator.enter Phase.end_ (post g),
          (Generator.end_ gen (Generator.enter Phase.end_ (post g)) fs).2))
    = Option.map outcome (match r2 with
      | none => none
      | some g => some ((Generator.end_ gen (Generator.enter Phase.end_ (post g)) fs).1,
          Generator.enter Phase.end_ (post g),
          (Generator.end_ gen (Generator.enter Phase.end_ (post g)) fs).2)) := by
  intro hr
  cases r1 with
  | none =>
    cases r2 with
    | none => rfl
    | some b => exact hr.elim
  | some a =>
    cases r2 with
    | none => exact hr.elim
    | some b =>
      simp only [Option.map]
      exact congrArg some (same_end gen fs (same_enter Phase.end_ (hpost a b hr)))

/-- C19 (amended): for every input, backend and output sink, and every two
starting states of the generator object that have the same `indentation`
(whatever their `content`, `mod_prefix` and history), `generate` behaves the
same: both calls return or neither does, and when they return, the `ErrMsg`,
the members `mod_prefix`, `indentation` and `content` of the object and the
files written are the same. -/
theorem generate_same_outcome (env : Env) (B : Backend) (gen : GenInput)
    (g1 g2 : Generator) (fs : FileSystem) (h : g1.indentation = g2.indentation) :
    (Generator.generate env B gen g1 fs).map outcome
      = (Generator.generate env B gen g2 fs).map outcome := by
  unfold Generator.generate Generator.begin
  simp only []
  cases hce : check_errors env.to_str gen with
  | none => rfl
  | some err =>
    simp only []
    by_cases hv : err.valid = true
    · simp only [if_pos hv]
      simp [outcome, Generator.enter, h]
    · simp only [if_neg hv]
      refine same_generate_tail gen fs
        (fun g => Generator.call_hook B gen Hook.gen_stb_impl_end
          (Generator.enter Phase.gen_stb_impl_end
            (Generator.call_hook B gen Hook.gen_epilog
              (Generator.enter Phase.gen_epilog
                (if gen.args.reflection = true then
                  Generator.gen_reflection_funcs B gen
                    (Generator.enter Phase.gen_reflection_funcs
                      (Generator.gen_shader_desc_funcs B gen
                        (Generator.enter Phase.gen_shader_desc_funcs g)))
                else Generator.gen_shader_desc_funcs B gen
                  (Generator.enter Phase.gen_shader_desc_funcs g)))))) ?_ _ _ ?_
      · intro a b hab
        apply same_call_hook
        apply same_enter
        apply same_call_hook
        apply same_enter
        have hd := same_gen_shader_desc_funcs B gen (same_enter Phase.gen_shader_desc_funcs hab)
        by_cases hr : gen.args.reflection = true
        · simp only [if_pos hr]
          exact same_gen_reflection_funcs B gen (same_enter _ hd)
        · simp only [if_neg hr]
          exact hd
      · apply same_gen_shader_arrays
        apply same_enter
        apply same_call_hook
        apply same_enter
        apply same_gen_uniformblock_decls
        apply same_enter
        apply same_gen_bind_slot_consts
        apply same_enter
        apply same_gen_vertex_attr_consts
        apply same_enter
        apply same_call_hook
        apply same_enter
        apply same_gen_header
        apply same_enter
        apply same_call_hook
        apply same_enter
        exact same_begin_state _ g1 g2 h


/-- Witness of C19 (amended): an unused object, and the object that a call of
`generate` of the sample backend on another input has left, with that call's
output in the buffer and empty indentation, give the same outcome on the
sample input. -/
theorem generate_same_outcome_witness :
    (left_by_generate sample_env sample_backend sample_high_byte sample_fresh
      sample_fs).content ≠ sample_fresh.content ∧
    sample_fresh.indentation
      = (left_by_generate sample_env sample_backend sample_high_byte sample_fresh
        sample_fs).indentation ∧
    (Generator.generate sample_env sample_backend sample_full sample_fresh sample_fs).map
        outcome
      = (Generator.generate sample_env sample_backend sample_full
          (left_by_generate sample_env sample_backend sample_high_byte sample_fresh sample_fs)
          sample_fs).map outcome :=
  ⟨by set_option maxRecDepth 100000 in decide,
    by set_option maxRecDepth 100000 in decide,
    generate_same_outcome sample_env sample_backend sample_full sample_fresh
      (left_by_generate sample_env sample_backend sample_high_byte sample_fresh sample_fs)
      sample_fs (by set_option maxRecDepth 100000 in decide)⟩

/-- C19 as stated fails: with a backend whose hook `gen_epilog` opens an
indentation level and does not close it, a call of `generate` on the sample
input from an unused object returns and leaves the object with one level of
indentation; `begin` clears `content` and sets `mod_prefix` and does not reset
`indentation`, so the next call of `generate` on the same input, from the
object as the first call left it, writes another text than the first call. -/
theorem generate_second_run_differs :
    (Generator.generate sample_env sample_unbalanced sample_full sample_fresh
      sample_fs).isSome = true ∧
    (left_by_generate sample_env sample_unbalanced sample_full sample_fresh
      sample_fs).indentation = "    " ∧
    (Generator.generate sample_env sample_unbalanced sample_full sample_fresh sample_fs).map
        (fun r => (r.1, Generator.content r.2.1, FileSystem.written r.2.2))
      ≠ (Generator.generate sample_env sample_unbalanced sample_full
          (left_by_generate sample_env sample_unbalanced sample_full sample_fresh sample_fs)
          sample_fs).map
        (fun r => (r.1, Generator.content r.2.1, FileSystem.written r.2.2)) := by
  set_option maxRecDepth 100000 in decide


/-! ## The layout of the values of a payload -/

theorem value_lines_nil : value_lines [] = [] := rfl

theorem value_lines_cons (texts : List String) (h : texts ≠ []) :
    value_lines texts = texts.take 16 :: value_lines (texts.drop 16) := by
  have hpos : 0 < texts.length := List.length_pos.mpr h
  unfold value_lines
  have hn : (texts.length + 15) / 16 = ((texts.drop 16).length + 15) / 16 + 1 := by
    rw [List.length_drop]
    omega
  rw [hn, List.range_succ_eq_map, List.map_cons, List.map_map]
  congr 1
  apply List.map_congr_left
  intro k _
  simp only [Function.comp, List.drop_drop]
  congr 2
  omega

theorem value_lines_flatten (texts : List String) : (value_lines texts).flatten = texts := by
  suffices H : ∀ n, ∀ texts : List String, texts.length = n →
      (value_lines texts).flatten = texts from H _ texts rfl
  intro n
  induction n using Nat.strong_induction_on with
  | _ n ih =>
    intro texts h
    by_cases he : texts = []
    · subst he; rfl
    · rw [value_lines_cons texts he, List.flatten_cons,
        ih (texts.drop 16).length (by
          have : 0 < texts.length := List.length_pos.mpr he
          rw [List.length_drop]; omega) (texts.drop 16) rfl]
      exact List.take_append_drop 16 texts

theorem value_lines_lengths (texts : List String) :
    (value_lines texts).map List.length
      = List.replicate (texts.length / 16) 16
        ++ (if texts.length % 16 = 0 then [] else [texts.length % 16]) := by
  suffices H : ∀ n, ∀ texts : List String, texts.length = n →
      (value_lines texts).map List.length
        = List.replicate (texts.length / 16) 16
          ++ (if texts.length % 16 = 0 then [] else [texts.length % 16]) from H _ texts rfl
  intro n
  induction n using Nat.strong_induction_on with
  | _ n ih =>
    intro texts h
    by_cases he : texts = []
    · subst he; subst h; rfl
    · have hpos : 0 < texts.length := List.length_pos.mpr he
      rw [value_lines_cons texts he, List.map_cons,
        ih (texts.drop 16).length (by rw [List.length_drop]; omega) (texts.drop 16) rfl]
      rw [List.length_take, List.length_drop]
      subst h
      by_cases h16 : 16 ≤ texts.length
      · have e1 : min 16 texts.length = 16 := by omega
        have e2 : (texts.length - 16) / 16 + 1 = texts.length / 16 := by omega
        have e3 : (texts.length - 16) % 16 = texts.length % 16 := by omega
        rw [e1, e3, ← e2, List.replicate_succ, List.cons_append]
      · have e1 : min 16 texts.length = texts.length := by omega
        have e2 : (texts.length - 16) / 16 = 0 := by omega
        have e3 : (texts.length - 16) % 16 = 0 := by omega
        have e4 : texts.length / 16 = 0 := by omega
        have e5 : texts.length % 16 = texts.length := by omega
        have e6 : ¬ texts.length = 0 := by omega
        rw [e1, e2, e3, e4, e5]
        simp [e6]

theorem loop_texts_append (a b : List String) :
    ∀ col, loop_texts col (a ++ b) = loop_texts col a ++ loop_texts (col + a.length) b := by
  induction a with
  | nil => intro col; simp [loop_texts]
  | cons t a ih =>
    intro col
    have e : col + 1 + a.length = col + (a.length + 1) := by omega
    rw [List.cons_append, loop_texts, loop_texts, ih (col + 1), List.length_cons, e]
    simp only [List.append_assoc]

theorem loop_texts_shift (texts : List String) :
    ∀ col, loop_texts (col + 16) texts = loop_texts col texts := by
  induction texts with
  | nil => intro col; rfl
  | cons t a ih =>
    intro col
    have e : col + 16 + 1 = col + 1 + 16 := by omega
    simp only [loop_texts, Nat.add_mod_right, e, ih (col + 1)]

theorem loop_texts_inside (a : List String) :
    ∀ col, 0 < col → col + a.length ≤ 16 →
      loop_texts col a = a ++ (if a ≠ [] ∧ col + a.length = 16 then ["\n"] else []) := by
  induction a with
  | nil => intro col _ _; simp [loop_texts]
  | cons t a ih =>
    intro col h0 h16
    simp only [List.length_cons] at h16
    have c0 : ¬ col % 16 = 0 := by omega
    rw [loop_texts, if_neg c0, ih (col + 1) (by omega) (by omega)]
    by_cases ha : a = []
    · subst ha
      by_cases c15 : col % 16 = 15
      · have : col + 1 = 16 := by omega
        simp [c15, this]
      · have : ¬ col + 1 = 16 := by omega
        simp [c15, this]
    · have hl : 0 < a.length := List.length_pos.mpr ha
      have c15 : ¬ col % 16 = 15 := by omega
      have e : col + 1 + a.length = col + (a.length + 1) := by omega
      simp [c15, ha, e]

theorem loop_texts_line (a : List String) (ha : a ≠ []) (h16 : a.length ≤ 16) :
    loop_texts 0 a = line_texts a := by
  cases a with
  | nil => exact absurd rfl ha
  | cons t a =>
    simp only [List.length_cons] at h16
    rw [loop_texts, loop_texts_inside a 1 (by omega) (by omega)]
    unfold line_texts
    by_cases ha2 : a = []
    · subst ha2; simp
    · have e : (1 + a.length = 16) ↔ (a.length + 1 = 16) := by omega
      simp [ha2, e]

theorem loop_texts_lines (texts : List String) :
    loop_texts 0 texts = (value_lines texts).flatMap line_texts := by
  suffices H : ∀ n, ∀ texts : List String, texts.length = n →
      loop_texts 0 texts = (value_lines texts).flatMap line_texts from H _ texts rfl
  intro n
  induction n using Nat.strong_induction_on with
  | _ n ih =>
    intro texts h
    by_cases he : texts = []
    · subst he; rfl
    · have hpos : 0 < texts.length := List.length_pos.mpr he
      rw [value_lines_cons texts he, List.flatMap_cons,
        ← ih (texts.drop 16).length (by rw [List.length_drop]; omega) (texts.drop 16) rfl]
      conv_lhs => rw [← List.take_append_drop 16 texts]
      rw [loop_texts_append, Nat.zero_add,
        loop_texts_line (texts.take 16) (by
          intro hc
          have := congrArg List.length hc
          rw [List.length_take, List.length_nil] at this
          omega) (by rw [List.length_take]; omega)]
      congr 1
      by_cases h16 : 16 ≤ texts.length
      · have e1 : (texts.take 16).length = 0 + 16 := by rw [List.length_take]; omega
        rw [e1, loop_texts_shift]
      · have e2 : texts.drop 16 = [] := List.drop_eq_nil_of_le (by omega)
        rw [e2]; rfl

theorem and_15_eq_mod (i : Nat) : i &&& 15 = i % 16 :=
  Nat.and_pow_two_sub_one_eq_mod i 4

theorem array_loop_body_texts (value : Nat → String) (g : Generator) (i : Nat) :
    (Generator.array_loop_body value g i).indentation = g.indentation ∧
    (Generator.array_loop_body value g i).log = g.log
      ++ ((if i % 16 = 0 then ["    "] else []) ++ [value i ++ ","]
        ++ (if i % 16 = 15 then ["\n"] else [])).map Event.l ∧
    (Generator.array_loop_body value g i).content = g.content
      ++ written g.indentation ((if i % 16 = 0 then ["    "] else []) ++ [value i ++ ","]
        ++ (if i % 16 = 15 then ["\n"] else [])) := by
  unfold Generator.array_loop_body
  simp only [and_15_eq_mod]
  by_cases c0 : i % 16 = 0 <;> by_cases c15 : i % 16 = 15
  · omega
  · simp [c0, c15, written, String.append_assoc]
  · simp [c0, c15, written, String.append_assoc]
  · simp [c0, c15, written, String.append_assoc]

theorem array_loop_from (value : Nat → String) :
    ∀ (n s : Nat) (g : Generator),
      ((List.range' s n).foldl (Generator.array_loop_body value) g).indentation
        = g.indentation ∧
      ((List.range' s n).foldl (Generator.array_loop_body value) g).log = g.log
        ++ (loop_texts s ((List.range' s n).map (fun i => value i ++ ","))).map Event.l ∧
      ((List.range' s n).foldl (Generator.array_loop_body value) g).content = g.content
        ++ written g.indentation
          (loop_texts s ((List.range' s n).map (fun i => value i ++ ","))) := by
  intro n
  induction n with
  | zero => intro s g; simp [loop_texts, written]
  | succ n ih =>
    intro s g
    obtain ⟨b1, b2, b3⟩ := array_loop_body_texts value g s
    obtain ⟨a1, a2, a3⟩ := ih (s + 1) (Generator.array_loop_body value g s)
    simp only [List.range'_succ, List.foldl_cons, List.map_cons, loop_texts]
    refine ⟨a1.trans b1, ?_, ?_⟩
    · rw [a2, b2]
      simp only [List.map_append, List.append_assoc]
    · rw [a3, b3, b1]
      simp only [written_append, String.append_assoc]

theorem written_empty (texts : List String) :
    written "" texts = texts.foldr (fun text acc => text ++ acc) "" := by
  induction texts with
  | nil => rfl
  | cons t rest ih =>
    simp only [written, List.foldr_cons] at ih ⊢
    rw [ih, String.empty_append]

theorem foldr_append_text (a b : List String) :
    (a ++ b).foldr (fun text acc => text ++ acc) ""
      = a.foldr (fun text acc => text ++ acc) "" ++ b.foldr (fun text acc => text ++ acc) "" := by
  induction a with
  | nil => simp
  | cons t rest ih => simp only [List.cons_append, List.foldr_cons, ih, String.append_assoc]

theorem written_empty_lines (lines : List (List String)) :
    written "" (lines.flatMap line_texts) = lines_text lines := by
  induction lines with
  | nil => rfl
  | cons line rest ih =>
    rw [List.flatMap_cons, written_append, ih]
    unfold lines_text
    rw [List.foldr_cons]
    congr 1
    rw [written_empty]
    unfold line_texts line_text
    rw [foldr_append_text, List.foldr_cons]
    congr 1
    by_cases h16 : line.length = 16
    · simp [h16]
    · simp [h16]


/-- C14 (amended): the value loop of `gen_shader_arrays`, run for `n` values
between the hooks `gen_shader_array_start` and `gen_shader_array_end`, hands to
`l` the texts of this layout: the values in order, every value followed by a
comma, in `ceil(n/16)` lines; for every line four spaces first, then its values,
and a line feed after the sixteenth value; every line holds 16 values except
that the last holds `n mod 16` values when that is non-zero; for `n = 33` there
are 3 lines of 16, 16 and 1 values.  The writer `l` puts the current
indentation before every one of these texts, so the output text has exactly
this layout, every line starting with exactly four spaces, when the indentation
is empty while the loop runs. -/
theorem array_loop_layout (value : Nat → String) (n : Nat) (g : Generator) :
    let texts := (List.range n).map (fun i => value i ++ ",")
    let lines := value_lines texts
    let g' := Generator.array_loop value n g
    g'.indentation = g.indentation ∧
    g'.log = g.log ++ (lines.flatMap line_texts).map Event.l ∧
    g'.content = g.content ++ written g.indentation (lines.flatMap line_texts) ∧
    (g.indentation = "" → g'.content = g.content ++ lines_text lines) ∧
    lines.flatten = texts ∧
    lines.length = (n + 15) / 16 ∧
    lines.map List.length
      = List.replicate (n / 16) 16 ++ (if n % 16 = 0 then [] else [n % 16]) ∧
    (n = 33 → lines.map List.length = [16, 16, 1]) := by
  intro texts lines g'
  have hlen : texts.length = n := by simp [texts]
  obtain ⟨a1, a2, a3⟩ := array_loop_from value n 0 g
  rw [← List.range_eq_range'] at a1
  rw [← List.range_eq_range', loop_texts_lines] at a2 a3
  have hl := value_lines_lengths texts
  rw [hlen] at hl
  refine ⟨a1, a2, a3, ?_, value_lines_flatten texts, ?_, hl, ?_⟩
  · intro hi
    have a4 := a3
    rw [hi, written_empty_lines] at a4
    exact a4
  · simp [lines, value_lines, hlen]
  · intro h33
    rw [hl, h33]
    rfl

/-- Witness of C14 (amended): 33 values written from an unused object, whose
indentation is empty, give three lines that start with four spaces and hold
16, 16 and 1 values. -/
theorem array_loop_layout_witness :
    sample_fresh.indentation = "" ∧
    (Generator.array_loop (fun i => toString i) 33 sample_fresh).content
      = sample_fresh.content
        ++ lines_text (value_lines ((List.range 33).map (fun i => toString i ++ ","))) ∧
    lines_text (value_lines ((List.range 33).map (fun i => toString i ++ ",")))
      = "    0,1,2,3,4,5,6,7,8,9,10,11,12,13,14,15,\n"
        ++ "    16,17,18,19,20,21,22,23,24,25,26,27,28,29,30,31,\n" ++ "    32," :=
  ⟨by decide,
    (array_loop_layout (fun i => toString i) 33 sample_fresh).2.2.2.1 (by decide),
    by decide⟩

/-- C14 as stated fails: with a backend whose hook `gen_shader_array_start`
opens an indentation level, `gen_shader_arrays` writes the two bytes 1 and 2 of
the sample blob as a line that starts with twelve spaces, with four spaces
before the second value. -/
theorem gen_shader_arrays_indented_values :
    (Generator.gen_shader_arrays sample_env sample_indenting sample_blob_only
        sample_fresh).map Generator.content
      = some "/*\n*/\nbytes = [\n            1,    2,]\n" := by
  decide


/-! ## Instances on the sample inputs -/

/-- Witness of C11: two sample inputs that differ in the compiled sources and
blobs and have the same global binding sets give the same bind slot
constants. -/
theorem gen_bind_slot_consts_lines_witness :
    sample_no_fs.refl.bindings.uniform_blocks = sample_full.refl.bindings.uniform_blocks ∧
    sample_no_fs.refl.bindings.images = sample_full.refl.bindings.images ∧
    sample_no_fs.refl.bindings.samplers = sample_full.refl.bindings.samplers ∧
    Generator.gen_bind_slot_consts sample_backend sample_no_fs sample_fresh
      = Generator.gen_bind_slot_consts sample_backend sample_full sample_fresh :=
  ⟨rfl, rfl, rfl,
    (gen_bind_slot_consts_lines sample_backend sample_full sample_fresh).2.2.2.2.2
      sample_no_fs rfl rfl rfl⟩

/-- Witness of C12: a sequence of calls that opens two levels, closes three
and opens one leaves an indentation of spaces of a length that is a multiple
of 4. -/
theorem indentation_levels_witness :
    sample_fresh.indentation = "" ∧
    ∃ k, ([IndentCall.indent, IndentCall.write (WriterCall.l_open "a\n"), IndentCall.dedent,
        IndentCall.dedent, IndentCall.write (WriterCall.cbl_close_text "b\n"),
        IndentCall.write (WriterCall.cbl_open "c\n")].foldl
          (fun g c => Generator.act sample_backend c g) sample_fresh).indentation
        = spaces (4 * k) ∧
      ([IndentCall.indent, IndentCall.write (WriterCall.l_open "a\n"), IndentCall.dedent,
        IndentCall.dedent, IndentCall.write (WriterCall.cbl_close_text "b\n"),
        IndentCall.write (WriterCall.cbl_open "c\n")].foldl
          (fun g c => Generator.act sample_backend c g) sample_fresh).indentation.length
        = 4 * k :=
  ⟨rfl, (indentation_levels sample_backend).1 _ sample_fresh rfl⟩

/-- Witness of C15: the first character of the second part of `foo_bar` is
upper-cased. -/
theorem to_ada_case_spec_witness :
    "foo_bar".data[4]? = some 'b' ∧ 'b' ≠ '_' ∧
    (4 = 0 ∨ "foo_bar".data[4 - 1]? = some '_') ∧
    (util.to_ada_case "foo_bar").data[4]? = some (cctype.toupper 'b') :=
  ⟨by decide, by decide, by decide,
    (to_ada_case_spec "foo_bar").2.2.2.1 4 'b' (by decide) (by decide) (by decide)⟩


/-! ## `roundup` -/

theorem and_not_low_bits (a k : Nat) (ha : a < 2 ^ 32) (hk : k ≤ 32) :
    a &&& (2 ^ 32 - 1 - (2 ^ k - 1)) = a - a % 2 ^ k := by
  have e1 : 2 ^ 32 - 1 - (2 ^ k - 1) = 2 ^ k * (2 ^ (32 - k) - 1) := by
    have hp : 2 ^ 32 = 2 ^ k * 2 ^ (32 - k) := by
      rw [← pow_add]; congr 1; omega
    have h1 : 1 ≤ 2 ^ k := Nat.one_le_two_pow
    have h2 : 1 ≤ 2 ^ (32 - k) := Nat.one_le_two_pow
    rw [Nat.mul_sub, Nat.mul_one, ← hp]
    omega
  have e2 : a - a % 2 ^ k = 2 ^ k * (a / 2 ^ k) := by
    have := Nat.div_add_mod a (2 ^ k)
    omega
  rw [e1, e2]
  apply Nat.eq_of_testBit_eq
  intro i
  rw [← Nat.shiftRight_eq_div_pow, Nat.testBit_and, Nat.testBit_mul_pow_two,
    Nat.testBit_mul_pow_two, Nat.testBit_two_pow_sub_one, Nat.testBit_shiftRight]
  by_cases hi : k ≤ i
  · have e3 : k + (i - k) = i := by omega
    rw [e3]
    by_cases h32 : i < 32
    · have : i - k < 32 - k := by omega
      simp [hi, this]
    · have hlt : a < 2 ^ i := lt_of_lt_of_le ha (Nat.pow_le_pow_right (by decide) (by omega))
      rw [Nat.testBit_lt_two_pow hlt]
      simp
  · simp [hi]

theorem int_bits_natCast (n : Nat) (h : n < 2 ^ 32) : int_bits (n : Int) = n := by
  unfold int_bits
  omega

theorem int_of_bits_small (n : Nat) (h : n < 2 ^ 31) : int_of_bits n = (n : Int) := by
  unfold int_of_bits
  rw [if_pos h]

theorem roundup_value (val : Int) (k : Nat) (hval : 0 ≤ val)
    (hov : val + (2 ^ k - 1) ≤ INT_MAX) :
    util.roundup val (2 ^ k) = some (val + (2 ^ k - 1) - (val + (2 ^ k - 1)) % 2 ^ k) := by
  obtain ⟨v, rfl⟩ := Int.eq_ofNat_of_zero_le hval
  have h1 : 1 ≤ 2 ^ k := Nat.one_le_two_pow
  have hm : ((2 : Int) ^ k - 1) = ((2 ^ k - 1 : Nat) : Int) := by
    rw [Nat.cast_sub h1]; push_cast; rfl
  have ha : ((v : Int) + (2 ^ k - 1)) = ((v + (2 ^ k - 1) : Nat) : Int) := by
    rw [hm]; push_cast; rfl
  unfold INT_MAX at hov
  rw [ha] at hov
  have hlt : v + (2 ^ k - 1) < 2 ^ 31 := by omega
  have hk : k ≤ 32 := by
    by_contra hc
    have : 2 ^ 32 ≤ 2 ^ k := Nat.pow_le_pow_right (by decide) (by omega)
    omega
  have r1 : in_int_range ((2 : Int) ^ k - 1) := by
    rw [hm]; unfold in_int_range INT_MIN INT_MAX; omega
  have r2 : in_int_range ((v : Int) + (2 ^ k - 1)) := by
    rw [ha]; unfold in_int_range INT_MIN INT_MAX; omega
  unfold util.roundup
  rw [if_neg (not_not.mpr r1), if_neg (not_not.mpr r2), ha, hm,
    int_bits_natCast _ (by omega), int_bits_natCast _ (by omega),
    and_not_low_bits _ k (by omega) hk,
    int_of_bits_small _ (by omega)]
  congr 1
  have hle : (v + (2 ^ k - 1)) % 2 ^ k ≤ v + (2 ^ k - 1) := Nat.mod_le _ _
  rw [Nat.cast_sub hle]
  push_cast
  rw [Nat.cast_sub h1]

theorem round_down_least (val R : Int) (hR : 0 < R) :
    R ∣ (val + (R - 1) - (val + (R - 1)) % R) ∧
    val ≤ val + (R - 1) - (val + (R - 1)) % R ∧
    val + (R - 1) - (val + (R - 1)) % R < val + R ∧
    (∀ m : Int, R ∣ m → val ≤ m → val + (R - 1) - (val + (R - 1)) % R ≤ m) ∧
    (R ∣ val → val + (R - 1) - (val + (R - 1)) % R = val) := by
  have h0 : 0 ≤ (val + (R - 1)) % R := Int.emod_nonneg _ (ne_of_gt hR)
  have h1 : (val + (R - 1)) % R < R := Int.emod_lt_of_pos _ hR
  have hd : val + (R - 1) - (val + (R - 1)) % R = R * ((val + (R - 1)) / R) := by
    have := Int.ediv_add_emod (val + (R - 1)) R
    omega
  have hdvd : R ∣ (val + (R - 1) - (val + (R - 1)) % R) := ⟨_, hd⟩
  have key : ∀ m : Int, R ∣ m → val ≤ m → val + (R - 1) - (val + (R - 1)) % R ≤ m := by
    intro m hm hvm
    obtain ⟨q, rfl⟩ := hm
    rw [hd]
    have hlt : R * ((val + (R - 1)) / R) < R * (q + 1) := by
      rw [← hd, mul_add, mul_one]
      omega
    have := lt_of_mul_lt_mul_left hlt (le_of_lt hR)
    exact Int.mul_le_mul_of_nonneg_left (by omega) (le_of_lt hR)
  refine ⟨hdvd, by omega, by omega, key, ?_⟩
  intro hv
  have := key val hv (le_refl _)
  omega

/-- C23: for every `val >= 0` and every `round_to` that is a power of two
`2 ^ k`, when `val + (round_to - 1)` does not overflow the 32-bit `int`,
`roundup(val, round_to)` returns, and its result is the least multiple of
`round_to` that is `>= val`: it is divisible by `round_to`, it lies between
`val` and `val + round_to` (the latter excluded), no multiple of `round_to`
that is `>= val` is smaller, and it is `val` when `val` is a multiple. -/
theorem roundup_least_multiple (val : Int) (k : Nat) (hval : 0 ≤ val)
    (hov : val + (2 ^ k - 1) ≤ INT_MAX) :
    ∃ r, util.roundup val (2 ^ k) = some r ∧
      (2 : Int) ^ k ∣ r ∧ val ≤ r ∧ r < val + 2 ^ k ∧
      (∀ m : Int, (2 : Int) ^ k ∣ m → val ≤ m → r ≤ m) ∧
      ((2 : Int) ^ k ∣ val → r = val) :=
  ⟨_, roundup_value val k hval hov,
    round_down_least val (2 ^ k) (pow_pos (by decide) k)⟩

/-- Witness of C23: `roundup(33, 16)` is 48. -/
theorem roundup_least_multiple_witness :
    (0 : Int) ≤ 33 ∧ (33 : Int) + (2 ^ 4 - 1) ≤ INT_MAX ∧
    util.roundup 33 16 = some 48 ∧
    ∃ r, util.roundup 33 (2 ^ 4) = some r ∧
      (2 : Int) ^ 4 ∣ r ∧ (33 : Int) ≤ r ∧ r < 33 + 2 ^ 4 ∧
      (∀ m : Int, (2 : Int) ^ 4 ∣ m → 33 ≤ m → r ≤ m) ∧
      ((2 : Int) ^ 4 ∣ 33 → r = 33) :=
  ⟨by decide, by decide, by decide, roundup_least_multiple 33 4 (by decide) (by decide)⟩


/-! ## The two Validation Gates -/

theorem find_source_ptr_none_iff (s : Spirvcross) (snippet_index : Int) :
    s.find_source_ptr_by_snippet_index snippet_index = none ↔
      s.find_source_by_snippet_index snippet_index < 0 := by
  unfold Spirvcross.find_source_ptr_by_snippet_index Spirvcross.find_source_by_snippet_index
  rw [find_source_from_neg, List.find?_eq_none]
  simp

theorem util_check_errors_programs_eq (to_str : Slang.Enum → String) (gen : GenInput)
    (i : Nat) :
    ∀ ps : List (String × Program),
      util.check_errors_programs to_str gen.inp (gen.spirvcross i) (Slang.from_index i) ps
        = (check_errors_programs to_str gen i ps).map (fun r => r.getD ErrMsg.ok)
  | [] => rfl
  | item :: rest => by
    have ih := util_check_errors_programs_eq to_str gen i rest
    unfold util.check_errors_programs check_errors_programs check_errors_body
    simp only [find_source_ptr_none_iff]
    cases hvs : gen.inp.snippet_map item.2.vs_name with
    | none => rfl
    | some vs =>
      cases hfs : gen.inp.snippet_map item.2.fs_name with
      | none => rfl
      | some fs =>
        simp only []
        by_cases h1 : (gen.spirvcross i).find_source_by_snippet_index vs < 0
        · simp only [if_pos h1]
          cases hl : first_line gen.inp vs with
          | none => rfl
          | some line => rfl
        · simp only [if_neg h1]
          by_cases h2 : (gen.spirvcross i).find_source_by_snippet_index fs < 0
          · simp only [if_pos h2]
            cases hl : first_line gen.inp vs with
            | none => rfl
            | some line => rfl
          · simp only [if_neg h2]
            exact ih


theorem check_errors_slangs_eq_per_target (to_str : Slang.Enum → String) (gen : GenInput) :
    ∀ is : List Nat,
      check_errors_slangs to_str gen is = check_errors_per_target to_str gen is
  | [] => rfl
  | i :: rest => by
    have ih := check_errors_slangs_eq_per_target to_str gen rest
    unfold check_errors_slangs check_errors_per_target util.check_errors
    simp only [Slang.from_index]
    by_cases hsel : gen.slang_selected i = true
    · simp only [if_pos hsel]
      have hu := util_check_errors_programs_eq to_str gen i gen.inp.programs
      simp only [Slang.from_index] at hu
      rw [hu]
      cases hp : check_errors_programs to_str gen i gen.inp.programs with
      | none => rfl
      | some r =>
        cases r with
        | none =>
          simp only [Option.map_some', Option.getD_none]
          exact ih
        | some e =>
          have hv := (check_errors_programs_result to_str gen i _ _ hp).2 e rfl
          simp only [Option.map_some', Option.getD_some, hv, if_true]
    · simp only [if_neg hsel]
      exact ih

/-- C22: for every input, `Generator::check_errors` returns what the run of
`util::check_errors(inp, spirvcross[target], target)` for each selected target
in ascending order of the target index returns, the first error found or "no
error": the two results are the same `ErrMsg` (the same flag, path, line and
message), and one call throws exactly when the other does. -/
theorem check_errors_eq_per_target (to_str : Slang.Enum → String) (gen : GenInput) :
    check_errors to_str gen
      = check_errors_per_target to_str gen (List.range Slang.Num) :=
  check_errors_slangs_eq_per_target to_str gen (List.range Slang.Num)

/-- On the sample input without the fragment source, the per-target run
reports the error of the fragment stage at line 3. -/
theorem check_errors_per_target_sample :
    check_errors_per_target sample_to_str sample_no_fs (List.range Slang.Num)
      = some (ErrMsg.error "shd.glsl" 3
        "no generated 'glsl410' source for fragment shader 'fs' in program 'prog'") := by
  decide


/-! ## The header and the comment block as sequences of writer calls -/

theorem writes_nil (B : Backend) (g : Generator) : Generator.writes B [] g = g := rfl

theorem writes_cons (B : Backend) (c : WriterCall) (cs : List WriterCall) (g : Generator) :
    Generator.writes B (c :: cs) g = Generator.writes B cs (Generator.write B c g) := rfl

theorem writes_append (B : Backend) (a b : List WriterCall) (g : Generator) :
    Generator.writes B (a ++ b) g = Generator.writes B b (Generator.writes B a g) := by
  unfold Generator.writes
  rw [List.foldl_append]

@[simp] theorem writes_mod_prefix (B : Backend) (cs : List WriterCall) (g : Generator) :
    (Generator.mod_prefix (Generator.writes B cs g)) = g.mod_prefix :=
  Generator.write_all_mod_prefix B cs g

theorem foldl_eq_writes {α : Type} (B : Backend) (body : Generator → α → Generator)
    (c : Hooks → α → List WriterCall)
    (h : ∀ g x, body g x = Generator.writes B (c (B g.mod_prefix) x) g) :
    ∀ (xs : List α) (g : Generator),
      xs.foldl body g = Generator.writes B (xs.flatMap (c (B g.mod_prefix))) g := by
  intro xs
  induction xs with
  | nil => intro g; rfl
  | cons x xs ih =>
    intro g
    rw [List.foldl_cons, ih, h, writes_mod_prefix, List.flatMap_cons, writes_append]

theorem gen_bindings_info_eq_writes (B : Backend) (bindings : Bindings) (g : Generator) :
    Generator.gen_bindings_info B bindings g
      = Generator.writes B (bindings_info_calls (B g.mod_prefix) bindings) g := by
  unfold Generator.gen_bindings_info bindings_info_calls
  simp only []
  rw [foldl_eq_writes B _ image_sampler_info_calls, foldl_eq_writes B _ sampler_info_calls,
    foldl_eq_writes B _ image_info_calls, foldl_eq_writes B _ uniform_block_info_calls]
  · simp only [writes_append, writes_mod_prefix]
  all_goals
    intro g0 x
    simp only [uniform_block_info_calls, image_info_calls, sampler_info_calls,
      image_sampler_info_calls, writes_cons, writes_nil, Generator.write,
      cbl_open_mod_prefix, Generator.cbl_mod_prefix]


theorem gen_vertex_shader_info_eq_writes (B : Backend) (prog : ProgramReflection)
    (g : Generator) :
    Generator.gen_vertex_shader_info B prog g
      = Generator.writes B (vertex_shader_info_calls (B g.mod_prefix) prog) g := by
  unfold Generator.gen_vertex_shader_info vertex_shader_info_calls
  simp only []
  rw [gen_bindings_info_eq_writes,
    foldl_eq_writes B _ (fun hooks attr => attr_info_calls hooks prog.vs_name attr)]
  · simp only [writes_append, writes_cons, writes_nil, Generator.write, writes_mod_prefix,
      cbl_open_mod_prefix, cbl_close_mod_prefix]
  · intro g0 attr
    unfold attr_info_calls
    by_cases hs : attr.slot ≥ 0
    · simp only [if_pos hs, writes_cons, writes_nil, Generator.write]
    · simp only [if_neg hs, writes_nil]

theorem gen_fragment_shader_info_eq_writes (B : Backend) (prog : ProgramReflection)
    (g : Generator) :
    Generator.gen_fragment_shader_info B prog g
      = Generator.writes B (fragment_shader_info_calls (B g.mod_prefix) prog) g := by
  unfold Generator.gen_fragment_shader_info fragment_shader_info_calls
  simp only []
  rw [gen_bindings_info_eq_writes]
  simp only [writes_append, writes_cons, writes_nil, Generator.write, cbl_open_mod_prefix]

theorem gen_header_eq_writes (B : Backend) (gen : GenInput) (g : Generator) :
    Generator.gen_header B gen g
      = Generator.writes B (header_calls (B g.mod_prefix) gen) g := by
  unfold Generator.gen_header header_calls
  simp only []
  rw [foldl_eq_writes B _ program_info_calls]
  · simp only [writes_append, writes_cons, writes_nil, Generator.write, writes_mod_prefix,
      cbl_open_mod_prefix, cbl_close_text_mod_prefix, Generator.cbl_mod_prefix,
      Generator.cbl_start_mod_prefix]
  · intro g0 prog
    rw [gen_fragment_shader_info_eq_writes, gen_vertex_shader_info_eq_writes]
    unfold program_info_calls
    simp only [writes_append, writes_cons, writes_nil, Generator.write, writes_mod_prefix,
      cbl_open_mod_prefix, Generator.cbl_mod_prefix]

theorem flatMap_singleton_map {α β : Type} (f : α → β) (xs : List α) :
    xs.flatMap (fun x => [f x]) = xs.map f := by
  induction xs with
  | nil => rfl
  | cons x xs ih => rw [List.flatMap_cons, ih]; rfl

theorem comment_block_eq_writes (B : Backend) (source_code : String) (g : Generator) :
    Generator.cbl_end B ((pystring.splitlines source_code).foldl (fun g line =>
        Generator.cbl B (util.replace_C_comment_tokens line ++ "\n") g)
        (Generator.cbl_start B g))
      = Generator.writes B (comment_block_calls source_code) g := by
  unfold comment_block_calls
  rw [foldl_eq_writes B _ (fun _ line =>
    [WriterCall.cbl (util.replace_C_comment_tokens line ++ "\n")])]
  · rw [flatMap_singleton_map]
    simp only [writes_append, writes_cons, writes_nil, Generator.write]
  · intro g0 line
    rfl


/-! ## Nesting of the writer calls and the indentation -/

theorem nesting_append (a b : List WriterCall) :
    ∀ d, nesting (a ++ b) d = (nesting a d).bind (nesting b) := by
  induction a with
  | nil => intro d; rfl
  | cons c a ih =>
    intro d
    simp only [List.cons_append, nesting]
    cases nesting_step c d with
    | none => rfl
    | some d1 => exact ih d1

theorem nesting_append_some (a b : List WriterCall) (d d1 : Nat)
    (h : nesting a d = some d1) : nesting (a ++ b) d = nesting b d1 := by
  rw [nesting_append, h]; rfl

theorem nesting_flatMap {α : Type} (c : α → List WriterCall)
    (h : ∀ x d, nesting (c x) d = some d) :
    ∀ (xs : List α) (d : Nat), nesting (xs.flatMap c) d = some d := by
  intro xs
  induction xs with
  | nil => intro d; rfl
  | cons x xs ih =>
    intro d
    rw [List.flatMap_cons, nesting_append_some _ _ d d (h x d), ih]

theorem nesting_bindings_info (hooks : Hooks) (bindings : Bindings) (d : Nat) :
    nesting (bindings_info_calls hooks bindings) d = some d := by
  unfold bindings_info_calls
  rw [nesting_append_some _ _ d d, nesting_flatMap]
  · intro x d; simp [image_sampler_info_calls, nesting, nesting_step]
  rw [nesting_append_some _ _ d d, nesting_flatMap]
  · intro x d; simp [sampler_info_calls, nesting, nesting_step]
  rw [nesting_append_some _ _ d d, nesting_flatMap]
  · intro x d; simp [image_info_calls, nesting, nesting_step]
  rw [nesting_flatMap]
  intro x d; simp [uniform_block_info_calls, nesting, nesting_step]

theorem nesting_cons_some (c : WriterCall) (rest : List WriterCall) (d d1 : Nat)
    (h : nesting_step c d = some d1) : nesting (c :: rest) d = nesting rest d1 := by
  simp only [nesting, h]

theorem nesting_vertex_shader_info (hooks : Hooks) (prog : ProgramReflection) (d : Nat) :
    nesting (vertex_shader_info_calls hooks prog) d = some d := by
  unfold vertex_shader_info_calls
  have h1 : nesting ([WriterCall.cbl_open ("Vertex shader: " ++ prog.vs_name ++ "\n"),
      WriterCall.cbl_open "Attributes:\n"]
      ++ prog.vs.inputs.flatMap (attr_info_calls hooks prog.vs_name)) d = some (d + 2) := by
    rw [nesting_append_some _ _ d (d + 2) (by simp [nesting, nesting_step]), nesting_flatMap]
    intro attr d
    unfold attr_info_calls
    by_cases hs : attr.slot ≥ 0
    · simp [hs, nesting, nesting_step]
    · simp [hs, nesting]
  rw [nesting_append_some _ _ d (d + 1)]
  · simp [nesting, nesting_step]
  rw [nesting_append_some _ _ d (d + 1), nesting_bindings_info]
  rw [nesting_append_some _ _ d (d + 2) h1]
  simp [nesting, nesting_step]

theorem nesting_fragment_shader_info (hooks : Hooks) (prog : ProgramReflection) (d : Nat) :
    nesting (fragment_shader_info_calls hooks prog) d = some d := by
  unfold fragment_shader_info_calls
  rw [nesting_append_some _ _ d (d + 1)]
  · simp [nesting, nesting_step]
  rw [nesting_append_some _ _ d (d + 1) (by simp [nesting, nesting_step]),
    nesting_bindings_info]

theorem nesting_program_info (hooks : Hooks) (prog : ProgramReflection) (d : Nat) :
    nesting (program_info_calls hooks prog) d = some d := by
  unfold program_info_calls
  rw [nesting_append_some _ _ d (d + 1)]
  · simp [nesting, nesting_step]
  rw [nesting_append_some _ _ d (d + 1), nesting_fragment_shader_info]
  rw [nesting_append_some _ _ d (d + 1) (by simp [nesting, nesting_step]),
    nesting_vertex_shader_info]

theorem nesting_header (hooks : Hooks) (gen : GenInput) (d : Nat) :
    nesting (header_calls hooks gen) d = some d := by
  unfold header_calls
  rw [nesting_append_some _ _ d (d + 1)]
  · simp [nesting, nesting_step]
  rw [nesting_append_some _ _ d (d + 1) (by simp [nesting, nesting_step]), nesting_flatMap]
  exact nesting_program_info hooks

theorem nesting_comment_block (source_code : String) (d : Nat) :
    nesting (comment_block_calls source_code) d = some d := by
  unfold comment_block_calls
  rw [nesting_append_some _ _ d (d + 1)]
  · simp [nesting, nesting_step]
  rw [nesting_append_some _ _ d (d + 1) (by simp [nesting, nesting_step]),
    ← flatMap_singleton_map, nesting_flatMap]
  intro line d
  simp [nesting, nesting_step]


theorem dedent_step_append_spaces (base : String) (n : Nat) :
    Generator.dedent_step (base ++ spaces (n + 1)) = base ++ spaces n := by
  unfold Generator.dedent_step
  have hlen : (base ++ spaces (n + 1)).length > 0 := by
    rw [String.length_append]
    have : (spaces (n + 1)).length = n + 1 := by
      show (List.replicate (n + 1) ' ').length = n + 1
      rw [List.length_replicate]
    omega
  rw [if_pos hlen]
  apply String.ext
  rw [String.data_append, String.data_append]
  show (base.data ++ List.replicate (n + 1) ' ').dropLast = base.data ++ List.replicate n ' '
  rw [List.replicate_succ', ← List.append_assoc, List.dropLast_concat]

theorem indent_level (g : Generator) (base : String) (d : Nat)
    (h : g.indentation = base ++ spaces (4 * d)) :
    (Generator.indent g).indentation = base ++ spaces (4 * (d + 1)) := by
  rw [indent_indentation, h, String.append_assoc, spaces_append_four]
  rfl

theorem dedent_level (g : Generator) (base : String) (d : Nat)
    (h : g.indentation = base ++ spaces (4 * (d + 1))) :
    (Generator.dedent g).indentation = base ++ spaces (4 * d) := by
  have h4 : 4 * (d + 1) = 4 * d + 1 + 1 + 1 + 1 := by omega
  rw [dedent_indentation, h, h4, dedent_step_append_spaces, dedent_step_append_spaces,
    dedent_step_append_spaces, dedent_step_append_spaces]

theorem write_level (B : Backend) (c : WriterCall) (g : Generator) (base : String)
    (d d1 : Nat) (hn : nesting_step c d = some d1)
    (h : g.indentation = base ++ spaces (4 * d)) :
    (Generator.write B c g).indentation = base ++ spaces (4 * d1) := by
  cases c with
  | reset_indent => simp [nesting_step] at hn
  | l text =>
    simp only [nesting_step, Option.some.injEq] at hn
    subst hn
    simp only [Generator.write, Generator.l_indentation, h]
  | cbl text =>
    simp only [nesting_step, Option.some.injEq] at hn
    subst hn
    simp only [Generator.write, cbl_indentation, h]
  | l_open text =>
    simp only [nesting_step, Option.some.injEq] at hn
    subst hn
    simp only [Generator.write, Generator.l_open]
    exact indent_level _ base d (by rw [Generator.l_indentation, h])
  | cbl_start =>
    simp only [nesting_step, Option.some.injEq] at hn
    subst hn
    simp only [Generator.write, Generator.cbl_start, Generator.l_open]
    exact indent_level _ base d (by rw [Generator.l_indentation, h])
  | cbl_open text =>
    simp only [nesting_step, Option.some.injEq] at hn
    subst hn
    simp only [Generator.write, Generator.cbl_open]
    exact indent_level _ base d (by rw [cbl_indentation, h])
  | l_close text =>
    cases d with
    | zero => simp [nesting_step] at hn
    | succ d =>
      simp [nesting_step] at hn
      subst hn
      simp only [Generator.write, Generator.l_close, Generator.l_indentation]
      exact dedent_level g base d h
  | cbl_close_text text =>
    cases d with
    | zero => simp [nesting_step] at hn
    | succ d =>
      simp [nesting_step] at hn
      subst hn
      simp only [Generator.write, Generator.cbl_close_text, cbl_indentation]
      exact dedent_level g base d h
  | cbl_close =>
    cases d with
    | zero => simp [nesting_step] at hn
    | succ d =>
      simp [nesting_step] at hn
      subst hn
      simp only [Generator.write, Generator.cbl_close]
      exact dedent_level g base d h
  | cbl_end =>
    cases d with
    | zero => simp [nesting_step] at hn
    | succ d =>
      simp [nesting_step] at hn
      subst hn
      simp only [Generator.write, Generator.cbl_end, Generator.l_close,
        Generator.l_indentation]
      exact dedent_level g base d h

theorem writes_level (B : Backend) (base : String) :
    ∀ (cs : List WriterCall) (g : Generator) (d d1 : Nat), nesting cs d = some d1 →
      g.indentation = base ++ spaces (4 * d) →
      (Generator.writes B cs g).indentation = base ++ spaces (4 * d1) := by
  intro cs
  induction cs with
  | nil =>
    intro g d d1 hn h
    simp only [nesting, Option.some.injEq] at hn
    subst hn
    exact h
  | cons c cs ih =>
    intro g d d1 hn h
    rw [writes_cons]
    cases hs : nesting_step c d with
    | none => simp [nesting, hs] at hn
    | some d2 =>
      rw [nesting_cons_some c cs d d2 hs] at hn
      exact ih _ d2 d1 hn (write_level B c g base d d2 hs h)

theorem append_spaces_zero (base : String) : base ++ spaces (4 * 0) = base := by
  show base ++ "" = base
  exact String.append_empty base

theorem writes_balanced (B : Backend) (cs : List WriterCall) (g : Generator)
    (hn : nesting cs 0 = some 0) :
    (Generator.writes B cs g).indentation = g.indentation := by
  have := writes_level B g.indentation cs g 0 0 hn (append_spaces_zero g.indentation).symm
  rw [this, append_spaces_zero]

theorem closes_step (c : WriterCall) (hc : c.closes = true) (d d1 : Nat)
    (h : nesting_step c d = some d1) : d = d1 + 1 := by
  cases c <;> simp [WriterCall.closes] at hc <;>
    (cases d with
      | zero => simp [nesting_step] at h
      | succ d => simp [nesting_step] at h; omega)

theorem closes_inside (B : Backend) (cs : List WriterCall) (g : Generator) (d1 : Nat)
    (hn : nesting cs 0 = some d1) (pre post : List WriterCall) (c : WriterCall)
    (hs : cs = pre ++ c :: post) (hc : c.closes = true) :
    ∃ k, nesting pre 0 = some (k + 1) ∧
      (Generator.writes B pre g).indentation = g.indentation ++ spaces (4 * (k + 1)) := by
  subst hs
  rw [nesting_append] at hn
  cases hp : nesting pre 0 with
  | none => simp [hp] at hn
  | some m =>
    rw [hp] at hn
    simp only [Option.bind, nesting] at hn
    cases hst : nesting_step c m with
    | none => simp [hst] at hn
    | some m1 =>
      have hm := closes_step c hc m m1 hst
      subst hm
      exact ⟨m1, rfl, writes_level B g.indentation pre g 0 (m1 + 1) hp
        (append_spaces_zero g.indentation).symm⟩


/-- C21: for every input, backend and starting state (so every starting
indentation), the default `gen_header`, with `gen_vertex_shader_info`,
`gen_fragment_shader_info` and `gen_bindings_info`, and the comment block that
`gen_shader_arrays` writes for a shader source, leave the indentation as they
found it.  Each is a sequence of writer calls in which every opening call
(`cbl_start`, `cbl_open`) is matched by a later closing call (`cbl_end`,
`cbl_close`): the nesting depth goes from 0 to 0 and no closing call comes at
depth 0; and every closing call, so every `dedent`, is applied to an
indentation that is the one at entry followed by `4 * (k + 1)` spaces, never to
a shorter one. -/
theorem header_and_comment_block_balanced (B : Backend) (gen : GenInput)
    (source_code : String) (g : Generator) :
    Generator.gen_header B gen g
      = Generator.writes B (header_calls (B g.mod_prefix) gen) g ∧
    nesting (header_calls (B g.mod_prefix) gen) 0 = some 0 ∧
    (Generator.gen_header B gen g).indentation = g.indentation ∧
    (∀ (pre post : List WriterCall) (c : WriterCall),
      header_calls (B g.mod_prefix) gen = pre ++ c :: post → c.closes = true →
      ∃ k, (Generator.writes B pre g).indentation = g.indentation ++ spaces (4 * (k + 1))) ∧
    (∀ prog : ProgramReflection,
      (Generator.gen_vertex_shader_info B prog g).indentation = g.indentation) ∧
    (∀ prog : ProgramReflection,
      (Generator.gen_fragment_shader_info B prog g).indentation = g.indentation) ∧
    (∀ bindings : Bindings,
      (Generator.gen_bindings_info B bindings g).indentation = g.indentation) ∧
    Generator.cbl_end B ((pystring.splitlines source_code).foldl (fun g line =>
        Generator.cbl B (util.replace_C_comment_tokens line ++ "\n") g)
        (Generator.cbl_start B g))
      = Generator.writes B (comment_block_calls source_code) g ∧
    nesting (comment_block_calls source_code) 0 = some 0 ∧
    (Generator.cbl_end B ((pystring.splitlines source_code).foldl (fun g line =>
        Generator.cbl B (util.replace_C_comment_tokens line ++ "\n") g)
        (Generator.cbl_start B g))).indentation = g.indentation ∧
    (∀ (pre post : List WriterCall) (c : WriterCall),
      comment_block_calls source_code = pre ++ c :: post → c.closes = true →
      ∃ k, (Generator.writes B pre g).indentation
        = g.indentation ++ spaces (4 * (k + 1))) := by
  have hh := nesting_header (B g.mod_prefix) gen 0
  have hc := nesting_comment_block source_code 0
  refine ⟨gen_header_eq_writes B gen g, hh, ?_, ?_, ?_, ?_, ?_,
    comment_block_eq_writes B source_code g, hc, ?_, ?_⟩
  · rw [gen_header_eq_writes]
    exact writes_balanced B _ g hh
  · intro pre post c hs hcl
    obtain ⟨k, _, hk⟩ := closes_inside B _ g 0 hh pre post c hs hcl
    exact ⟨k, hk⟩
  · intro prog
    rw [gen_vertex_shader_info_eq_writes]
    exact writes_balanced B _ g (nesting_vertex_shader_info _ prog 0)
  · intro prog
    rw [gen_fragment_shader_info_eq_writes]
    exact writes_balanced B _ g (nesting_fragment_shader_info _ prog 0)
  · intro bindings
    rw [gen_bindings_info_eq_writes]
    exact writes_balanced B _ g (nesting_bindings_info _ bindings 0)
  · rw [comment_block_eq_writes]
    exact writes_balanced B _ g hc
  · intro pre post c hs hcl
    obtain ⟨k, _, hk⟩ := closes_inside B _ g 0 hc pre post c hs hcl
    exact ⟨k, hk⟩

/-- Witness of C21: in the comment block of the source `void main()`, written
by an object that starts with one level of indentation, `cbl_end` is applied
to an indentation that is longer than the one at entry. -/
theorem header_and_comment_block_balanced_witness :
    comment_block_calls "void main()"
      = [WriterCall.cbl_start, WriterCall.cbl "void main()\n"] ++ WriterCall.cbl_end :: [] ∧
    WriterCall.closes WriterCall.cbl_end = true ∧
    ∃ k, (Generator.writes sample_backend
        [WriterCall.cbl_start, WriterCall.cbl "void main()\n"] sample_used).indentation
      = sample_used.indentation ++ spaces (4 * (k + 1)) :=
  ⟨by decide, rfl,
    (header_and_comment_block_balanced sample_backend sample_full "void main()"
      sample_used).2.2.2.2.2.2.2.2.2.2
      [WriterCall.cbl_start, WriterCall.cbl "void main()\n"] [] WriterCall.cbl_end
      (by decide) rfl⟩


/-! ## A blob that is not declared -/

/-- C6 (the failing input): the sample input passes validation, target 0 is
selected and the fragment snippet of index 2 has a bytecode blob of two bytes
under it; the vertex snippet of index 0, which no program uses, has no
compiled source, so the assertion `src_index >= 0` of `gen_shader_arrays` fails
before the fragment snippet is reached: `gen_shader_arrays` and `generate` do
not return, and no array is declared for the blob. -/
theorem gen_shader_arrays_blob_not_declared :
    check_errors sample_env.to_str sample_unused_vs_blob = some ErrMsg.ok ∧
    sample_unused_vs_blob.slang_selected 0 = true ∧
    sample_unused_vs_blob.inp.snippets[2]? = some ⟨SnippetType.FS, "fs", [7, 8]⟩ ∧
    blob_of sample_unused_vs_blob 0 2 = some ⟨2, [1, 255]⟩ ∧
    (sample_unused_vs_blob.spirvcross 0).find_source_by_snippet_index 0 = -1 ∧
    Generator.gen_shader_arrays sample_env sample_backend sample_unused_vs_blob sample_fresh
      = none ∧
    Generator.generate sample_env sample_backend sample_unused_vs_blob sample_fresh sample_fs
      = none := by
  refine ⟨by decide, by decide, by decide, by decide, by decide, ?_, ?_⟩
  · rfl
  · rfl

end shdc
